import Mathlib

/-!
ESP32 ham combo: spot pipeline and propagation parser.

A shallow embedding of the telnet line decoder, the DX spot parser, the spot
ring buffer (`tab_spots.cpp`) and the propagation XML parser (`tab_prop.cpp`),
with the properties proved about them.

Conventions of the embedding.

* A C string is the list of its characters before the terminating NUL; a
  `const char*` into a string is the suffix that starts at the pointed
  character, so `p + k` is `p.drop k` and a pointer difference is a difference
  of lengths.
* A `char` array that the code fills with a C string is represented by that
  string; the raw line buffer of the decoder, which is written byte by byte,
  is represented as the list of its 256 bytes.
* `int` values are `Int`; `atoi` saturates at the limits of the 32-bit `int`,
  all other arithmetic on them stays far from these limits. `%` and `/` on
  `int` are truncated (`Int.tmod`, `Int.tdiv`).
* A `float` is its value (`CFloat`): a rational, an infinity or NaN.
* The propagation parser takes, besides the payload, the bytes that the memory
  holds after the terminator of the payload (`beyond`): `getAttrValue` can step
  one or two bytes past the terminator, and what it copies then comes from
  there.
-/

namespace HamCombo

/-! ## Definitions: libc -/

/-- The terminating NUL byte of a C string. -/
def NUL : Char := Char.ofNat 0

/-- The libc classifier isspace in the C locale: space, TAB, LF, VT, FF and CR. -/
def isspace (c : Char) : Bool := c.toNat = 32 || (9 ≤ c.toNat && c.toNat ≤ 13)

/-- The libc classifier isdigit. -/
def isdigit (c : Char) : Bool := 48 ≤ c.toNat && c.toNat ≤ 57

/-- The libc function toupper in the C locale: only a..z change. -/
def toupper (c : Char) : Char :=
  if 97 ≤ c.toNat ∧ c.toNat ≤ 122 then Char.ofNat (c.toNat - 32) else c

/-- The libc function tolower in the C locale: only A..Z change. -/
def tolower (c : Char) : Char :=
  if 65 ≤ c.toNat ∧ c.toNat ≤ 90 then Char.ofNat (c.toNat + 32) else c

/-- The C string stored at the start of a byte buffer: the bytes before the first NUL. -/
def cstr (buf : List Char) : List Char := buf.takeWhile (fun c => c != NUL)

/-- The call strstr(hay, needle): the suffix of hay at the first occurrence of needle. -/
def strstr : List Char → List Char → Option (List Char)
  | [], needle => if needle = [] then some [] else none
  | c :: cs, needle =>
    if needle.isPrefixOf (c :: cs) then some (c :: cs) else strstr cs needle

/-- The call strchr(s, c) for a character c other than NUL: the suffix at the first c. -/
def strchr : List Char → Char → Option (List Char)
  | [], _ => none
  | x :: xs, c => if x = c then some (x :: xs) else strchr xs c

/-- The call strrchr(s, c) for a character c other than NUL: the suffix at the last c. -/
def strrchr : List Char → Char → Option (List Char)
  | [], _ => none
  | x :: xs, c =>
    match strrchr xs c with
    | some r => some r
    | none => if x = c then some (x :: xs) else none

/-- The string that strlcpy(dst, src, size) leaves in dst: at most size - 1 characters. -/
def strlcpy (src : List Char) (size : Nat) : List Char := src.take (size - 1)

/-- The digit loop of atoi: accumulates decimal digits until the first non-digit. -/
def atoiDigits : List Char → Int → Int
  | [], acc => acc
  | c :: cs, acc => if isdigit c then atoiDigits cs (acc * 10 + ((c.toNat : Int) - 48)) else acc

/-- The largest value of int (32 bits on the ESP32). -/
def INT_MAX : Int := 2147483647

/-- The smallest value of int (32 bits on the ESP32). -/
def INT_MIN : Int := -2147483648

/-- The number that the text denotes for atoi: leading white space, an optional
sign, then decimal digits up to the first other character. -/
def atoiValue (s : List Char) : Int :=
  let p := s.dropWhile isspace
  if p.head? = some '-' then - atoiDigits (p.drop 1) 0
  else if p.head? = some '+' then atoiDigits (p.drop 1) 0
  else atoiDigits p 0

/-- The libc function atoi. The result is an int: in newlib atoi(s) is
(int) strtol(s, NULL, 10), and strtol returns LONG_MAX or LONG_MIN (long has 32
bits on the ESP32) for a number beyond that range. -/
def atoi (s : List Char) : Int :=
  max INT_MIN (min INT_MAX (atoiValue s))

/-- The value of a C float: a finite float is the rational it denotes. -/
inductive CFloat where
  | finite (q : ℚ)
  | posInf
  | negInf
  | nan
  deriving DecidableEq

/-- The comparison x >= k of a float with an integer constant (false for NaN). -/
def CFloat.ge (x : CFloat) (k : Int) : Bool :=
  match x with
  | .finite q => decide ((k : ℚ) ≤ q)
  | .posInf => true
  | .negInf => false
  | .nan => false

/-- The comparison x <= k of a float with an integer constant (false for NaN). -/
def CFloat.le (x : CFloat) (k : Int) : Bool :=
  match x with
  | .finite q => decide (q ≤ (k : ℚ))
  | .posInf => false
  | .negInf => true
  | .nan => false

/-! ## Definitions: data model (declarations.h, constants.h) -/

/-- The constant TELNET_LINE_BUFFER_SIZE of constants.h. -/
def TELNET_LINE_BUFFER_SIZE : Nat := 256

/-- The constant ApplicationState::MAX_SPOTS. -/
def MAX_SPOTS : Int := 6

/-- The struct DxSpot; sizes of the char arrays: call 12, freq 10, spotter 12, mode 5. -/
structure DxSpot where
  call : List Char
  freq : List Char
  spotter : List Char
  spotHour : Int
  spotMinute : Int
  mode : List Char
  deriving DecidableEq, Repr

/-- The enum PropagationCondition. -/
inductive PropagationCondition where
  | POOR
  | FAIR
  | GOOD
  | UNKNOWN
  deriving DecidableEq, Repr

/-- The struct VhfPropagationData: four char[16] strings. -/
structure VhfPropagationData where
  aurora : List Char
  eSkipEurope2m : List Char
  eSkipEurope4m : List Char
  eSkipEurope6m : List Char
  deriving DecidableEq, Repr

/-- The struct SolarPropagationData; propagation is an array of 8 conditions. -/
structure SolarPropagationData where
  solarFlux : Int
  aIndex : Int
  kIndex : Int
  xray : List Char
  geomagneticField : List Char
  signalNoiseLevel : List Char
  sunspots : Int
  propagation : List PropagationCondition
  vhf : VhfPropagationData
  deriving DecidableEq, Repr

/-- The enum ActiveScreen. -/
inductive ActiveScreen where
  | SCREEN_SPOTS
  | SCREEN_SETTINGS_MENU
  | SCREEN_DISPLAY_SETTINGS
  | SCREEN_AUDIO_SETTINGS
  | SCREEN_SLEEP_SETTINGS
  | SCREEN_SYSTEM_SETTINGS
  | SCREEN_CLOCK
  | SCREEN_PROPAGATION
  | SCREEN_INFO
  | SCREEN_SLEEP_GRACE_PERIOD
  | SCREEN_UPDATES_INFO
  | SCREEN_SPOTS_AND_PROP
  | SCREEN_WIFI_RESET_CONFIRM
  deriving DecidableEq, Repr

/-- The struct PowerState, with the initial values of declarations.h; the two
times are unsigned long readings of millis(). -/
structure PowerState where
  sleepTimeoutMinutes : Int := 0
  scheduledSleepEnabled : Bool := false
  scheduledSleepHour : Int := 23
  scheduledWakeHour : Int := 7
  lastInteractionTime : Nat := 0
  gracePeriodStartTime : Nat := 0
  deriving DecidableEq, Repr

/-- The enum ClockDisplayMode. -/
inductive ClockDisplayMode where
  | MODE_UTC
  | MODE_LOCAL
  | MODE_BOTH
  deriving DecidableEq, Repr

/-- The enum PropagationViewMode. -/
inductive PropagationViewMode where
  | VIEW_SIMPLE
  | VIEW_EXTENDED
  deriving DecidableEq, Repr

/-- The enum SpotsViewMode. -/
inductive SpotsViewMode where
  | SPOTS_ONLY
  | SPOTS_WITH_PROP
  deriving DecidableEq, Repr

/-- The struct DisplayState, with the initial values of declarations.h. -/
structure DisplayState where
  brightnessPercent : Int := 80
  currentClockMode : ClockDisplayMode := ClockDisplayMode.MODE_UTC
  currentPropViewMode : PropagationViewMode := PropagationViewMode.VIEW_EXTENDED
  spotsViewMode : SpotsViewMode := SpotsViewMode.SPOTS_ONLY
  colorInversion : Bool := true
  rememberLastScreen : Bool := false
  startupScreen : ActiveScreen := ActiveScreen.SCREEN_SPOTS
  secondDotEnabled : Bool := true
  screenRotation : Int := 3
  deriving DecidableEq, Repr

/-- The persisted fields of the struct AudioState, with the initial values of
declarations.h (the DAC handle is not part of the model). -/
structure AudioState where
  volumeStep : Int := 3
  toneFrequency : Int := 880
  toneDurationMs : Int := 100
  deriving DecidableEq, Repr

/-- The struct NetworkState; the char arrays have 32, 32, 64 and 64 bytes. -/
structure NetworkState where
  telnetUsername : List Char := []
  telnetPassword : List Char := []
  timezone : List Char := []
  dstMode : Int := 1
  customDstRule : List Char := []
  hamAlertConnected : Bool := false
  lastReconnectTime : Nat := 0
  isWifiConnected : Bool := true
  deriving DecidableEq, Repr

/-- The fields of struct ApplicationState that the spot pipeline, the
propagation parser, the touch handler of the grace period screen, the
propagation fetch, the telnet login and the settings read or write; spots is
an array of MAX_SPOTS records. -/
structure ApplicationState where
  spots : List DxSpot
  spotCount : Int
  latestSpotIndex : Int
  solarData : SolarPropagationData
  activeScreen : ActiveScreen := ActiveScreen.SCREEN_SPOTS
  power : PowerState := {}
  display : DisplayState := {}
  audio : AudioState := {}
  network : NetworkState := {}
  checkForUpdates : Bool := true
  lastUpdateCheckTime : Nat := 0
  propDataAvailable : Bool := false
  lastPropUpdateTime : Nat := 0
  deriving DecidableEq, Repr

/-! ## Definitions: spot ring buffer (tab_spots.cpp) -/

/-- The function addSpot: advance the latest index modulo MAX_SPOTS, store the
record there, and count it while the buffer is not full. The call of
playNewSpotSound takes the state as const and is not part of the model. -/
def addSpot (newSpot : DxSpot) (state : ApplicationState) : ApplicationState :=
  let latest := (state.latestSpotIndex + 1).tmod MAX_SPOTS
  { state with
    latestSpotIndex := latest
    spots := state.spots.set latest.toNat newSpot
    spotCount := if state.spotCount < MAX_SPOTS then state.spotCount + 1 else state.spotCount }

/-- The function clearSpots. -/
def clearSpots (state : ApplicationState) : ApplicationState :=
  { state with spotCount := 0, latestSpotIndex := -1 }

/-- The index computed in drawSpotsList and updateSpotTimesOnly for row i
(newest first): (latestSpotIndex - i + MAX_SPOTS) % MAX_SPOTS. -/
def displayIndex (state : ApplicationState) (i : Int) : Int :=
  (state.latestSpotIndex - i + MAX_SPOTS).tmod MAX_SPOTS

/-- A sequence of addSpot calls, one per record, in order. -/
def addSpots (rs : List DxSpot) (state : ApplicationState) : ApplicationState :=
  rs.foldl (fun st r => addSpot r st) state


/-! ## Definitions: spot parser (tab_spots.cpp) -/

/-- The function getModeFromLine; the result is the string left in mode_buffer.
The line is copied into a buffer of TELNET_LINE_BUFFER_SIZE bytes with strlcpy
and upper-cased there, then searched for the mode keywords in order; without a
keyword the SSB band plan decides. -/
def getModeFromLine (line : List Char) (freq_khz : CFloat) (buffer_size : Nat) : List Char :=
  let upperLine := (strlcpy line TELNET_LINE_BUFFER_SIZE).map toupper
  if (strstr upperLine "FT8".toList).isSome then strlcpy "FT8".toList buffer_size
  else if (strstr upperLine "FT4".toList).isSome then strlcpy "FT4".toList buffer_size
  else if (strstr upperLine "SSB".toList).isSome then strlcpy "SSB".toList buffer_size
  else if (strstr upperLine "USB".toList).isSome then strlcpy "SSB".toList buffer_size
  else if (strstr upperLine "LSB".toList).isSome then strlcpy "SSB".toList buffer_size
  else if (strstr upperLine "CW".toList).isSome then strlcpy "CW".toList buffer_size
  else if (strstr upperLine "WPM".toList).isSome then strlcpy "CW".toList buffer_size
  else if (freq_khz.ge 1840 && freq_khz.le 2000) ||
          (freq_khz.ge 3600 && freq_khz.le 3800) ||
          (freq_khz.ge 5330 && freq_khz.le 5410) ||
          (freq_khz.ge 7050 && freq_khz.le 7200) ||
          (freq_khz.ge 14100 && freq_khz.le 14350) ||
          (freq_khz.ge 18110 && freq_khz.le 18168) ||
          (freq_khz.ge 21150 && freq_khz.le 21450) ||
          (freq_khz.ge 24920 && freq_khz.le 24990) ||
          (freq_khz.ge 28300 && freq_khz.le 29000) ||
          (freq_khz.ge 50100 && freq_khz.le 51000) then strlcpy "SSB".toList buffer_size
  else strlcpy "-".toList buffer_size

/-- The record that parseSpot builds once all five pointers are found: the
three strncpy copies capped at the array sizes, the two atoi calls on the first
four characters of the last token, and the mode. The libc function atof
(text to float) is a parameter. -/
def buildSpot (atof : List Char → CFloat) (line spotter_start colon_ptr freq_start freq_end
    call_start call_end time_start : List Char) : DxSpot :=
  let spotter := spotter_start.take (min (spotter_start.length - colon_ptr.length) (12 - 1))
  let freq := freq_start.take (min (freq_start.length - freq_end.length) (10 - 1))
  let freqKHz := atof freq
  let call := call_start.take (min (call_start.length - call_end.length) (12 - 1))
  let hour_str := cstr [time_start.getD 0 NUL, time_start.getD 1 NUL]
  let min_str := cstr [time_start.getD 2 NUL, time_start.getD 3 NUL]
  { call := call, freq := freq, spotter := spotter,
    spotHour := atoi hour_str, spotMinute := atoi min_str,
    mode := getModeFromLine line freqKHz 5 }

/-- The function parseSpot: locate the marker, the colon, the frequency and
call tokens and the last token; return without a change when one is missing,
otherwise append the decoded record with addSpot. -/
def parseSpot (atof : List Char → CFloat) (line : List Char) (state : ApplicationState) :
    ApplicationState :=
  match strstr line "DX de ".toList with
  | none => state
  | some de_ptr =>
    let spotter_start := de_ptr.drop 6
    match strchr spotter_start ':' with
    | none => state
    | some colon_ptr =>
      let freq_start := (colon_ptr.drop 1).dropWhile isspace
      match strchr freq_start ' ' with
      | none => state
      | some freq_end =>
        let call_start := (freq_end.drop 1).dropWhile isspace
        match strchr call_start ' ' with
        | none => state
        | some call_end =>
          match strrchr line ' ' with
          | none => state
          | some time_ptr =>
            if (time_ptr.drop 1).length < 4 then state
            else
              addSpot (buildSpot atof line spotter_start colon_ptr freq_start freq_end
                call_start call_end (time_ptr.drop 1)) state

/-! ## Definitions: telnet line decoder (tab_spots.cpp) -/

/-- The two static variables of readTelnetSpots: the 256-byte line buffer and
the write position (an int that is only reset to 0 or incremented). -/
structure LineDecoder where
  lineBuffer : List Char
  bufferPos : Nat
  deriving DecidableEq, Repr

/-- The variables of the loop of readTelnetSpots: the statics, the application
state (of any type, so that the line handler can be varied) and the local flag. -/
structure TelnetLoop (σ : Type) where
  lineBuffer : List Char
  bufferPos : Nat
  state : σ
  newSpotReceived : Bool

/-- The trimming loop: with k = i + 1, while i >= 0 and lineBuffer[i] is white
space, overwrite it with NUL and step back. -/
def trimTrailing (lineBuffer : List Char) : Nat → List Char
  | 0 => lineBuffer
  | k + 1 =>
    if isspace (lineBuffer.getD k NUL) then trimTrailing (lineBuffer.set k NUL) k
    else lineBuffer

/-- One iteration of the loop of readTelnetSpots, for the byte c just read;
parse is the call made with the line buffer (parseSpot in the program). -/
def telnetByte {σ : Type} (parse : List Char → σ → σ) (t : TelnetLoop σ) (c : Char) :
    TelnetLoop σ :=
  if c = '\n' ∨ c = '\r' then
    if 0 < t.bufferPos then
      let buf := trimTrailing (t.lineBuffer.set t.bufferPos NUL) t.bufferPos
      if 0 < (cstr buf).length then
        { lineBuffer := buf, bufferPos := 0, state := parse (cstr buf) t.state,
          newSpotReceived := true }
      else
        { t with lineBuffer := buf, bufferPos := 0 }
    else t
  else if t.bufferPos < TELNET_LINE_BUFFER_SIZE - 1 then
    { t with lineBuffer := t.lineBuffer.set t.bufferPos c, bufferPos := t.bufferPos + 1 }
  else t

/-- The loop of readTelnetSpots over the bytes that are available during the call. -/
def telnetLoop {σ : Type} (parse : List Char → σ → σ) (t : TelnetLoop σ) (avail : List Char) :
    TelnetLoop σ :=
  avail.foldl (telnetByte parse) t

/-- The function readTelnetSpots with any line handler: the loop started with
newSpotReceived = false; the result is the statics, the state and whether the
redraw (determineAndDrawActiveScreen) is requested. -/
def readTelnetWith {σ : Type} (parse : List Char → σ → σ) (d : LineDecoder) (state : σ)
    (avail : List Char) : LineDecoder × σ × Bool :=
  let t := telnetLoop parse
    { lineBuffer := d.lineBuffer, bufferPos := d.bufferPos, state := state,
      newSpotReceived := false } avail
  ({ lineBuffer := t.lineBuffer, bufferPos := t.bufferPos }, t.state, t.newSpotReceived)

/-- The function readTelnetSpots: the line handler is parseSpot. -/
def readTelnetSpots (atof : List Char → CFloat) (d : LineDecoder) (state : ApplicationState)
    (avail : List Char) : LineDecoder × ApplicationState × Bool :=
  readTelnetWith (parseSpot atof) d state avail

/-- The lines handed to the line handler by one call of readTelnetSpots, in
order: the run of the same loop with a handler that records its argument. -/
def linesHanded (d : LineDecoder) (avail : List Char) : List (List Char) :=
  (readTelnetWith (fun line acc => acc ++ [line]) d [] avail).2.1

/-! ## Definitions: propagation parser (tab_prop.cpp) -/

/-- The function toConditionValue: the value is copied into a 16-byte buffer
with strlcpy, lower-cased and compared with good, fair and poor. -/
def toConditionValue (val : List Char) : PropagationCondition :=
  let lowerVal := (strlcpy val 16).map tolower
  if lowerVal = "good".toList then PropagationCondition.GOOD
  else if lowerVal = "fair".toList then PropagationCondition.FAIR
  else if lowerVal = "poor".toList then PropagationCondition.POOR
  else PropagationCondition.UNKNOWN

/-- The method getAttrValue: the text at the returned pointer and the string
left in the buffer of len bytes (the buffer is passed in as it was, all zero at
both call sites, and is left alone when attrName is not found). The search runs
from p to the end of the payload. The skip found += strlen(attrName) + 2 is not
checked against the terminator: when fewer than that many characters follow
the start of the match, the pointer lands one or two bytes after the terminator
and the loop copies what the memory holds there. The argument beyond is that
memory, the bytes that follow the terminator of the payload, in order (a zero
byte or the end of the list ends the string read there). -/
def getAttrValue (beyond p attrName buffer : List Char) (len : Nat) :
    List Char × List Char :=
  match strstr p attrName with
  | none => (p, buffer)
  | some found =>
    let found :=
      if attrName.length + 2 ≤ found.length then found.drop (attrName.length + 2)
      else cstr (beyond.drop (attrName.length + 2 - found.length - 1))
    let value := (found.takeWhile (fun c => c != '"')).take (len - 1)
    (found.drop value.length, value)

/-- The assignment solarData.propagation[i] = condition. -/
def setPropagation (state : ApplicationState) (i : Nat) (condition : PropagationCondition) :
    ApplicationState :=
  { state with solarData :=
      { state.solarData with propagation := state.solarData.propagation.set i condition } }

/-- The strcmp chain of handleBandTag that maps band and time to the array
index: 0 to 3 for day, 4 to 7 for night, in the order 80m-40m, 30m-20m,
17m-15m, 12m-10m; any other name or time stores nothing. -/
def storeBand (name time : List Char) (condition : PropagationCondition)
    (state : ApplicationState) : ApplicationState :=
  if time = "day".toList then
    if name = "80m-40m".toList then setPropagation state 0 condition
    else if name = "30m-20m".toList then setPropagation state 1 condition
    else if name = "17m-15m".toList then setPropagation state 2 condition
    else if name = "12m-10m".toList then setPropagation state 3 condition
    else state
  else if time = "night".toList then
    if name = "80m-40m".toList then setPropagation state 4 condition
    else if name = "30m-20m".toList then setPropagation state 5 condition
    else if name = "17m-15m".toList then setPropagation state 6 condition
    else if name = "12m-10m".toList then setPropagation state 7 condition
    else state
  else state

/-- The method handleBandTag: without a closing angle bracket nothing happens;
otherwise the name and time attributes are looked up (buffers of 16 and 8
bytes), up to 15 characters of content are read, and the condition is stored
in the slot of the band. The result is the new position and state; beyond is
the memory after the terminator of the payload (see getAttrValue). -/
def handleBandTag (beyond p : List Char) (state : ApplicationState) :
    List Char × ApplicationState :=
  match strchr p '>' with
  | none => (p, state)
  | some endOfTag =>
    let name := (getAttrValue beyond p "name".toList [] 16).2
    let time := (getAttrValue beyond p "time".toList [] 8).2
    let p1 := endOfTag.drop 1
    let content := (p1.takeWhile (fun c => c != '<')).take 15
    (p1.drop content.length, storeBand name time (toConditionValue content) state)

/-- The strcmp chain of handlePhenomenonTag: the content goes by strlcpy into
the 16-byte VHF string selected by name and location. -/
def storeVhf (name location content : List Char) (vhf : VhfPropagationData) :
    VhfPropagationData :=
  if name = "vhf-aurora".toList then { vhf with aurora := strlcpy content 16 }
  else if name = "E-Skip".toList then
    if location = "europe".toList then { vhf with eSkipEurope2m := strlcpy content 16 }
    else if location = "europe_4m".toList then { vhf with eSkipEurope4m := strlcpy content 16 }
    else if location = "europe_6m".toList then { vhf with eSkipEurope6m := strlcpy content 16 }
    else vhf
  else vhf

/-- The method handlePhenomenonTag: as handleBandTag, with attribute buffers of
32 bytes and up to 31 characters of content. -/
def handlePhenomenonTag (beyond p : List Char) (state : ApplicationState) :
    List Char × ApplicationState :=
  match strchr p '>' with
  | none => (p, state)
  | some endOfTag =>
    let name := (getAttrValue beyond p "name".toList [] 32).2
    let location := (getAttrValue beyond p "location".toList [] 32).2
    let p1 := endOfTag.drop 1
    let content := (p1.takeWhile (fun c => c != '<')).take 31
    (p1.drop content.length,
      { state with solarData :=
          { state.solarData with vhf := storeVhf name location content state.solarData.vhf } })

/-- The trimming of the content in parseTag: leading white space is skipped,
then white space is cut from the end while end > start, so the first
character is never tested. -/
def trimContent (content : List Char) : List Char :=
  match content.dropWhile isspace with
  | [] => []
  | c :: cs => c :: cs.rdropWhile isspace

/-- The strcmp chain at the end of parseTag: the trimmed content goes to the
scalar field named by the tag (atoi for the integers, strlcpy for the strings). -/
def assignContent (tagName start : List Char) (sd : SolarPropagationData) :
    SolarPropagationData :=
  if tagName = "solarflux".toList then { sd with solarFlux := atoi start }
  else if tagName = "aindex".toList then { sd with aIndex := atoi start }
  else if tagName = "kindex".toList then { sd with kIndex := atoi start }
  else if tagName = "sunspots".toList then { sd with sunspots := atoi start }
  else if tagName = "xray".toList then { sd with xray := strlcpy start 8 }
  else if tagName = "geomagfield".toList then { sd with geomagneticField := strlcpy start 16 }
  else if tagName = "signalnoise".toList then { sd with signalNoiseLevel := strlcpy start 8 }
  else sd

/-- The part of parseTag for simple content tags, from the position p1 after
the tag name: skip to the end of the tag, read up to 63 characters of content,
trim it and assign it. -/
def parseSimpleTag (tagName p1 : List Char) (state : ApplicationState) :
    List Char × ApplicationState :=
  let p2 := p1.dropWhile (fun c => c != '>')
  let p3 := if p2.head? = some '>' then p2.drop 1 else p2
  let content := (p3.takeWhile (fun c => c != '<')).take 63
  (p3.drop content.length,
    { state with solarData := assignContent tagName (trimContent content) state.solarData })

/-- The tag name read at the start of parseTag: up to 31 characters, ended by
a space or a closing angle bracket. -/
def readTagName (p : List Char) : List Char :=
  (p.takeWhile (fun c => c != ' ' && c != '>')).take 31

/-- The method parseTag, entered just after an opening angle bracket: read the
tag name, hand band and phenomenon to their handlers, otherwise treat the tag
as a simple content tag. The result is the new position and state. -/
def parseTag (beyond p : List Char) (state : ApplicationState) :
    List Char × ApplicationState :=
  let tagName := readTagName p
  let p1 := p.drop tagName.length
  if tagName = "band".toList then handleBandTag beyond p1 state
  else if tagName = "phenomenon".toList then handlePhenomenonTag beyond p1 state
  else parseSimpleTag tagName p1 state

/-- The reset at the start of parse: the eight conditions become UNKNOWN and
the VHF struct is zeroed with memset. -/
def resetPropagation (state : ApplicationState) : ApplicationState :=
  { state with solarData :=
      { state.solarData with
        propagation := List.replicate 8 PropagationCondition.UNKNOWN
        vhf := { aurora := [], eSkipEurope2m := [], eSkipEurope4m := [], eSkipEurope6m := [] } } }

/-- The main loop of parse at position p; the first argument bounds the number
of iterations (each iteration consumes at least one character, so the length
of the payload is enough: see parseLoop_fuel). -/
def parseLoop (beyond : List Char) : Nat → List Char → ApplicationState → ApplicationState
  | _, [], state => state
  | 0, _ :: _, state => state
  | fuel + 1, c :: rest, state =>
    if c = '<' ∧ rest.head? ≠ some '/' then
      parseLoop beyond fuel (parseTag beyond rest state).1 (parseTag beyond rest state).2
    else parseLoop beyond fuel rest state

/-- The method SimpleXmlParser::parse: reset, then scan the payload xml; beyond
is the memory after the terminator of the payload (see getAttrValue). -/
def parse (beyond xml : List Char) (state : ApplicationState) : ApplicationState :=
  parseLoop beyond xml.length xml (resetPropagation state)

/-! ## Definitions: elapsed time of a spot (tab_spots.cpp) -/

/-- The value of currentTimeInSeconds in drawSpotsList and updateSpotTimesOnly,
from the fields of the UTC broken-down time. -/
def currentTimeInSeconds (tm_hour tm_min tm_sec : Int) : Int :=
  tm_hour * 3600 + tm_min * 60 + tm_sec

/-- The elapsed seconds that drawSpotsList and updateSpotTimesOnly compute for a
spot: the difference to the spot time, plus 86400 when it is negative. The
values are long (32 bits) and far from its limits. -/
def elapsedSeconds (currentTimeInSeconds spotHour spotMinute : Int) : Int :=
  let spotTimeInSeconds := spotHour * 3600 + spotMinute * 60
  let elapsed := currentTimeInSeconds - spotTimeInSeconds
  if elapsed < 0 then elapsed + 86400 else elapsed

/-- The function formatElapsedMinutes: the minutes (C division, truncated) in
decimal, followed by the letter m. -/
def formatElapsedMinutes (elapsedSeconds : Int) : String :=
  toString (elapsedSeconds.tdiv 60) ++ "m"

/-! ## Definitions: touch handling on the grace period screen (ui_core.cpp) -/

/-- The calls with an effect outside the modelled state that the touch handler
makes. -/
inductive TouchEffect where
  | saveSettings
  | drawSpotsScreen
  | enterDeepSleep
  | otherHandler
  deriving DecidableEq, Repr

/-- The function isButtonTouched; the uint16_t coordinates are promoted to int. -/
def isButtonTouched (tx ty x y w h : Int) : Bool :=
  decide (tx ≥ x) && decide (tx ≤ x + w) && decide (ty ≥ y) && decide (ty ≤ y + h)

/-- The constant GRACE_PERIOD_BTN_W. -/
def GRACE_PERIOD_BTN_W : Int := 200

/-- The constant GRACE_PERIOD_BTN_H. -/
def GRACE_PERIOD_BTN_H : Int := 40

/-- The constant GRACE_PERIOD_BTN_Y_MARGIN. -/
def GRACE_PERIOD_BTN_Y_MARGIN : Int := 30

/-- The function handleTouchGracePeriod for a screen of the given width and
height (tft.width(), tft.height()); now is the value of millis() at the call.
The result is the new state and the calls made. Of these, saveSettings takes
the state as const and drawSpotsScreen writes no modelled field. -/
def handleTouchGracePeriod (state : ApplicationState) (t_x t_y width height : Int) (now : Nat) :
    ApplicationState × List TouchEffect :=
  let BTN_X := (width - GRACE_PERIOD_BTN_W).tdiv 2
  let BTN_Y := height - GRACE_PERIOD_BTN_H - GRACE_PERIOD_BTN_Y_MARGIN
  if isButtonTouched t_x t_y BTN_X BTN_Y GRACE_PERIOD_BTN_W GRACE_PERIOD_BTN_H then
    ({ state with
        power := { state.power with lastInteractionTime := now, scheduledSleepEnabled := false }
        activeScreen := ActiveScreen.SCREEN_SPOTS },
      [TouchEffect.saveSettings, TouchEffect.drawSpotsScreen])
  else (state, [])

/-- The function handleTouch. The inputs are whether the touchscreen reports a
touch, the mapped coordinates t_x and t_y, the screen size and the two readings
of millis() (in handleTouch and in the handler); the handlers of the screens
other than the grace period screen are the parameter others. The debounce
loop at the end changes no state. -/
def handleTouch (others : ApplicationState → Int → Int → ApplicationState × List TouchEffect)
    (state : ApplicationState) (touched : Bool) (t_x t_y width height : Int) (now1 now2 : Nat) :
    ApplicationState × List TouchEffect :=
  if touched then
    let state1 := { state with power := { state.power with lastInteractionTime := now1 } }
    if state1.activeScreen = ActiveScreen.SCREEN_SLEEP_GRACE_PERIOD then
      handleTouchGracePeriod state1 t_x t_y width height now2
    else others state1 t_x t_y
  else (state, [])

/-! ## Definitions: propagation fetch (tab_prop.cpp) -/

/-- The function parsePropagationData: run the parser, return true; beyond is
the memory after the terminator of the payload. -/
def parsePropagationData (beyond : List Char) (state : ApplicationState)
    (payload : List Char) : Bool × ApplicationState :=
  (true, parse beyond payload state)

/-- The function fetchPropagationData. The inputs are the memory after the
terminator of the response body (see getAttrValue), the status code and the
body that the HTTP client returns for the request, and the value of millis()
after the parse; the result is the return value, the new state and whether the
HTTP request was made. -/
def fetchPropagationData (beyond : List Char) (state : ApplicationState) (statusCode : Int)
    (responseBody : List Char) (now : Nat) : Bool × ApplicationState × Bool :=
  if state.network.isWifiConnected = false then
    (false, { state with propDataAvailable := false }, false)
  else if statusCode ≠ 200 then
    (false, { state with propDataAvailable := false }, true)
  else
    if (parsePropagationData beyond state responseBody).1 = true then
      (true, { (parsePropagationData beyond state responseBody).2 with
                propDataAvailable := true, lastPropUpdateTime := now }, true)
    else
      (false, { (parsePropagationData beyond state responseBody).2 with
                 propDataAvailable := false }, true)

/-! ## Definitions: telnet login (tab_spots.cpp) -/

/-- What connectToTelnet does on the telnet client: a connection attempt, or a
line sent with println. -/
inductive TelnetAction where
  | connect
  | println (text : List Char)
  deriving DecidableEq, Repr

/-- The wait loop of connectToTelnet over the lines that readStringUntil
returns before the login timeout, in order: a line with the text Hello ends
the loop with the spot request sent and the result true, a line with the text
Login failed ends it with false, and so does the timeout. -/
def loginLoop : List (List Char) → Bool × List TelnetAction
  | [] => (false, [])
  | line :: rest =>
    if (strstr line "Hello ".toList).isSome then
      (true, [TelnetAction.println ("sh/dx ".toList ++ (toString MAX_SPOTS).toList)])
    else if (strstr line "Login failed".toList).isSome then (false, [])
    else loginLoop rest

/-- The function connectToTelnet. The inputs are the result of the connection
attempt and the lines read before the login timeout; the result is the return
value, the state (never assigned to) and the actions on the telnet client. -/
def connectToTelnet (state : ApplicationState) (connectOk : Bool) (lines : List (List Char)) :
    Bool × ApplicationState × List TelnetAction :=
  if state.network.isWifiConnected = false then (false, state, [])
  else if connectOk then
    ((loginLoop lines).1, state,
      [TelnetAction.connect, TelnetAction.println state.network.telnetUsername,
        TelnetAction.println state.network.telnetPassword] ++ (loginLoop lines).2)
  else (false, state, [TelnetAction.connect])

/-! ## Definitions: settings (tab_settings.cpp) -/

/-- A value of the preferences store with its type: int (putInt), bool
(putBool), string (putString) or unsigned long (putULong). -/
inductive PrefValue where
  | int (v : Int)
  | bool (v : Bool)
  | string (v : List Char)
  | ulong (v : Nat)
  deriving DecidableEq, Repr

/-- The preferences store of the namespace app-settings as a typed key-value
map: a list of entries, the newest first; the newest entry of a key is its
value. -/
abbrev Preferences := List (String × PrefValue)

/-- The call preferences.putInt(key, value). -/
def putInt (prefs : Preferences) (key : String) (value : Int) : Preferences :=
  (key, PrefValue.int value) :: prefs

/-- The call preferences.putBool(key, value). -/
def putBool (prefs : Preferences) (key : String) (value : Bool) : Preferences :=
  (key, PrefValue.bool value) :: prefs

/-- The call preferences.putString(key, value). -/
def putString (prefs : Preferences) (key : String) (value : List Char) : Preferences :=
  (key, PrefValue.string value) :: prefs

/-- The call preferences.putULong(key, value). -/
def putULong (prefs : Preferences) (key : String) (value : Nat) : Preferences :=
  (key, PrefValue.ulong value) :: prefs

/-- The call preferences.getInt(key, defaultValue): the value stored under the
key as an int, the default when the key is absent or holds another type. -/
def getInt (prefs : Preferences) (key : String) (defaultValue : Int) : Int :=
  match prefs.lookup key with
  | some (PrefValue.int v) => v
  | _ => defaultValue

/-- The call preferences.getBool(key, defaultValue). -/
def getBool (prefs : Preferences) (key : String) (defaultValue : Bool) : Bool :=
  match prefs.lookup key with
  | some (PrefValue.bool v) => v
  | _ => defaultValue

/-- The call preferences.getString(key, defaultValue). -/
def getString (prefs : Preferences) (key : String) (defaultValue : List Char) : List Char :=
  match prefs.lookup key with
  | some (PrefValue.string v) => v
  | _ => defaultValue

/-- The call preferences.getULong(key, defaultValue). -/
def getULong (prefs : Preferences) (key : String) (defaultValue : Nat) : Nat :=
  match prefs.lookup key with
  | some (PrefValue.ulong v) => v
  | _ => defaultValue

/-- The conversion of a ClockDisplayMode to int. -/
def ClockDisplayMode.toInt : ClockDisplayMode → Int
  | MODE_UTC => 0
  | MODE_LOCAL => 1
  | MODE_BOTH => 2

/-- The cast of an int to ClockDisplayMode; a value that is no enumerator has
no counterpart in the model. -/
def ClockDisplayMode.ofInt (n : Int) : Option ClockDisplayMode :=
  if n = 0 then some MODE_UTC
  else if n = 1 then some MODE_LOCAL
  else if n = 2 then some MODE_BOTH
  else none

/-- The conversion of a PropagationViewMode to int. -/
def PropagationViewMode.toInt : PropagationViewMode → Int
  | VIEW_SIMPLE => 0
  | VIEW_EXTENDED => 1

/-- The cast of an int to PropagationViewMode. -/
def PropagationViewMode.ofInt (n : Int) : Option PropagationViewMode :=
  if n = 0 then some VIEW_SIMPLE
  else if n = 1 then some VIEW_EXTENDED
  else none

/-- The conversion of a SpotsViewMode to int. -/
def SpotsViewMode.toInt : SpotsViewMode → Int
  | SPOTS_ONLY => 0
  | SPOTS_WITH_PROP => 1

/-- The cast of an int to SpotsViewMode. -/
def SpotsViewMode.ofInt (n : Int) : Option SpotsViewMode :=
  if n = 0 then some SPOTS_ONLY
  else if n = 1 then some SPOTS_WITH_PROP
  else none

/-- The enumerators of ActiveScreen in the order of declarations.h. -/
def activeScreens : List ActiveScreen :=
  [ActiveScreen.SCREEN_SPOTS, ActiveScreen.SCREEN_SETTINGS_MENU,
    ActiveScreen.SCREEN_DISPLAY_SETTINGS, ActiveScreen.SCREEN_AUDIO_SETTINGS,
    ActiveScreen.SCREEN_SLEEP_SETTINGS, ActiveScreen.SCREEN_SYSTEM_SETTINGS,
    ActiveScreen.SCREEN_CLOCK, ActiveScreen.SCREEN_PROPAGATION, ActiveScreen.SCREEN_INFO,
    ActiveScreen.SCREEN_SLEEP_GRACE_PERIOD, ActiveScreen.SCREEN_UPDATES_INFO,
    ActiveScreen.SCREEN_SPOTS_AND_PROP, ActiveScreen.SCREEN_WIFI_RESET_CONFIRM]

/-- The conversion of an ActiveScreen to int: its place in the enum. -/
def ActiveScreen.toInt (a : ActiveScreen) : Int := (activeScreens.indexOf a : Nat)

/-- The cast of an int to ActiveScreen. -/
def ActiveScreen.ofInt (n : Int) : Option ActiveScreen :=
  if 0 ≤ n then activeScreens[n.toNat]? else none

/-- The function saveSettings: the store after the 23 put calls, in the order
of the source. -/
def saveSettings (state : ApplicationState) (prefs : Preferences) : Preferences :=
  let p := putInt prefs "clockMode" state.display.currentClockMode.toInt
  let p := putInt p "brightness" state.display.brightnessPercent
  let p := putInt p "propViewMode" state.display.currentPropViewMode.toInt
  let p := putInt p "spotsViewMode" state.display.spotsViewMode.toInt
  let p := putBool p "inversion" state.display.colorInversion
  let p := putBool p "secondDot" state.display.secondDotEnabled
  let p := putInt p "rotation" state.display.screenRotation
  let p := putBool p "rememberScreen" state.display.rememberLastScreen
  let p := putInt p "startupScreen" state.display.startupScreen.toInt
  let p := putInt p "volumeStep" state.audio.volumeStep
  let p := putInt p "toneFreq" state.audio.toneFrequency
  let p := putInt p "toneDur" state.audio.toneDurationMs
  let p := putString p "telnetUser" state.network.telnetUsername
  let p := putString p "telnetPass" state.network.telnetPassword
  let p := putString p "timezone" state.network.timezone
  let p := putInt p "dstMode" state.network.dstMode
  let p := putString p "customDst" state.network.customDstRule
  let p := putInt p "sleepTimeout" state.power.sleepTimeoutMinutes
  let p := putBool p "schedSleepOn" state.power.scheduledSleepEnabled
  let p := putInt p "schedSleepH" state.power.scheduledSleepHour
  let p := putInt p "schedWakeH" state.power.scheduledWakeHour
  let p := putBool p "checkUpdates" state.checkForUpdates
  putULong p "lastUpdateCheck" state.lastUpdateCheckTime

/-- The display settings that loadSettings reads; none when a stored int is no
enumerator of the enum it is cast to. -/
def loadDisplay (prefs : Preferences) : Option DisplayState :=
  match ClockDisplayMode.ofInt (getInt prefs "clockMode" ClockDisplayMode.MODE_UTC.toInt),
    PropagationViewMode.ofInt
      (getInt prefs "propViewMode" PropagationViewMode.VIEW_EXTENDED.toInt),
    SpotsViewMode.ofInt (getInt prefs "spotsViewMode" SpotsViewMode.SPOTS_WITH_PROP.toInt),
    ActiveScreen.ofInt (getInt prefs "startupScreen" ActiveScreen.SCREEN_SPOTS.toInt) with
  | some clockMode, some propViewMode, some spotsViewMode, some startupScreen =>
    some
      { currentClockMode := clockMode
        brightnessPercent := getInt prefs "brightness" 80
        currentPropViewMode := propViewMode
        spotsViewMode := spotsViewMode
        colorInversion := getBool prefs "inversion" true
        secondDotEnabled := getBool prefs "secondDot" true
        screenRotation := getInt prefs "rotation" 3
        rememberLastScreen := getBool prefs "rememberScreen" false
        startupScreen := startupScreen }
  | _, _, _, _ => none

/-- The function loadSettings: every persisted field of the state is set from
the store, with the defaults of the source and strlcpy into the char arrays of
32, 32, 64 and 64 bytes; the other fields are left alone. -/
def loadSettings (prefs : Preferences) (state : ApplicationState) : Option ApplicationState :=
  match loadDisplay prefs with
  | none => none
  | some display =>
    some
      { state with
        display := display
        audio :=
          { volumeStep := getInt prefs "volumeStep" 1
            toneFrequency := getInt prefs "toneFreq" 500
            toneDurationMs := getInt prefs "toneDur" 50 }
        network :=
          { state.network with
            telnetUsername := strlcpy (getString prefs "telnetUser" "N0CALL".toList) 32
            telnetPassword := strlcpy (getString prefs "telnetPass" "".toList) 32
            timezone :=
              strlcpy (getString prefs "timezone" "CET-1CEST,M3.5.0,M10.5.0/3".toList) 64
            dstMode := getInt prefs "dstMode" 1
            customDstRule :=
              strlcpy (getString prefs "customDst" ",M3.5.0,M10.5.0/3".toList) 64 }
        power :=
          { state.power with
            sleepTimeoutMinutes := getInt prefs "sleepTimeout" 0
            scheduledSleepEnabled := getBool prefs "schedSleepOn" false
            scheduledSleepHour := getInt prefs "schedSleepH" 23
            scheduledWakeHour := getInt prefs "schedWakeH" 7 }
        checkForUpdates := getBool prefs "checkUpdates" true
        lastUpdateCheckTime := getULong prefs "lastUpdateCheck" 0 }

/-! ## Definitions: auxiliary notions of the statements -/

/-- The value of a decimal digit character. -/
def digitVal (c : Char) : Int := (c.toNat : Int) - 48

/-- Two loop states that agree on everything but the local flag. -/
def samePersistent {σ : Type} (t u : TelnetLoop σ) : Prop :=
  t.lineBuffer = u.lineBuffer ∧ t.bufferPos = u.bufferPos ∧ t.state = u.state


/-- Two application states with the same condition array and the same VHF strings. -/
def sameConditions (s1 s2 : ApplicationState) : Prop :=
  s1.solarData.propagation = s2.solarData.propagation ∧ s1.solarData.vhf = s2.solarData.vhf

/-- The payload x holds a tag called name: somewhere an opening angle bracket
is followed by a tag name that parseTag reads as name. -/
def hasTag (x name : List Char) : Prop :=
  ∃ rest : List Char, ('<' :: rest) <:+ x ∧ readTagName rest = name

/-- The seven scalar fields of the propagation snapshot. -/
def scalarFields (sd : SolarPropagationData) :
    Int × Int × Int × Int × List Char × List Char × List Char :=
  (sd.solarFlux, sd.aIndex, sd.kIndex, sd.sunspots, sd.xray, sd.geomagneticField,
    sd.signalNoiseLevel)

/-- The names of the simple content tags that parseTag stores. -/
def scalarTags : List String :=
  ["solarflux", "aindex", "kindex", "sunspots", "xray", "geomagfield", "signalnoise"]

/-- The spellings of a lower-case word in every mixture of upper and lower
case: the strings equal to the word up to ASCII letter case. -/
def caseVariants : List Char → List (List Char)
  | [] => [[]]
  | c :: cs =>
    (caseVariants cs).map (fun v => c :: v) ++ (caseVariants cs).map (fun v => toupper c :: v)

/-- The attribute attrName is found in the text p, and a double quote closes its
value inside p (after the name and the two skipped characters). -/
def attrInside (p attrName : List Char) : Bool :=
  match strstr p attrName with
  | some r => decide ('"' ∈ r.drop (attrName.length + 2))
  | none => false

/-- The band names of the feed, in the order of the condition slots. -/
def bandTagNames : List String := ["80m-40m", "30m-20m", "17m-15m", "12m-10m"]

/-- The text p holds no opening tag: every opening angle bracket in it is
followed by a slash. -/
def noOpenTag (p : List Char) : Prop :=
  ∀ rest : List Char, ('<' :: rest) <:+ p → rest.head? = some '/'

/-- The number written by a string of decimal digits, most significant first. -/
def decimalValue (ds : List Char) : Nat :=
  Nat.ofDigits 10 ((ds.map (fun d => d.toNat - 48)).reverse)

/-- The names that parseTag compares the tag name with. -/
def knownTags : List String :=
  ["band", "phenomenon", "solarflux", "aindex", "kindex", "sunspots", "xray", "geomagfield",
    "signalnoise"]

/-- The payload that consists of one simple content tag named t with content c. -/
def simpleTagPayload (t c : List Char) : List Char :=
  '<' :: (t ++ '>' :: (c ++ '<' :: '/' :: (t ++ ['>'])))

/-- A decimal integer as it stands in a content: an optional minus sign and digits. -/
def decimalText (neg : Bool) (ds : List Char) : List Char :=
  (if neg then ['-'] else []) ++ ds

/-- The integer that decimalText writes. -/
def decimalInt (neg : Bool) (ds : List Char) : Int :=
  if neg then - (decimalValue ds : Int) else (decimalValue ds : Int)

/-- The index in the payload of the character that getAttrValue reads first
after its skip (found += strlen(attrName) + 2), for a call at position p of a
payload of payloadLength characters; the terminator is at index payloadLength.
No such read happens when attrName is not found. -/
def getAttrValueFirstRead (payloadLength : Nat) (p attrName : List Char) : Option Nat :=
  match strstr p attrName with
  | none => none
  | some found => some (payloadLength - found.length + (attrName.length + 2))

/-- A call that changes the spot ring buffer: addSpot with a record, or clearSpots. -/
inductive SpotOp where
  | add (r : DxSpot)
  | clear

/-- The effect of one call on the state. -/
def applyOp (state : ApplicationState) : SpotOp → ApplicationState
  | SpotOp.add r => addSpot r state
  | SpotOp.clear => clearSpots state

/-- A sequence of addSpot and clearSpots calls, in order. -/
def runOps (ops : List SpotOp) (state : ApplicationState) : ApplicationState :=
  ops.foldl applyOp state

/-- The records appended since the last clearSpots call of a sequence of calls,
oldest first. -/
def sinceClear (ops : List SpotOp) : List DxSpot :=
  ops.foldl (fun acc op => match op with
    | SpotOp.add r => acc ++ [r]
    | SpotOp.clear => []) []

/-- The newest-first read of drawSpotsList in the view with six rows: for
i = 0 .. spotCount - 1 the slot at displayIndex i. -/
def newestFirst (state : ApplicationState) : List (Option DxSpot) :=
  (List.range state.spotCount.toNat).map
    (fun i => state.spots[(displayIndex state (i : Nat)).toNat]?)

/-- The record that parseSpot appends for a line, if it appends one: the five
checks of parseSpot followed by buildSpot (see parseSpot_eq_spotOfLine). -/
def spotOfLine (atof : List Char → CFloat) (line : List Char) : Option DxSpot :=
  match strstr line "DX de ".toList with
  | none => none
  | some de_ptr =>
    match strchr (de_ptr.drop 6) ':' with
    | none => none
    | some colon_ptr =>
      match strchr ((colon_ptr.drop 1).dropWhile isspace) ' ' with
      | none => none
      | some freq_end =>
        match strchr ((freq_end.drop 1).dropWhile isspace) ' ' with
        | none => none
        | some call_end =>
          match strrchr line ' ' with
          | none => none
          | some time_ptr =>
            if (time_ptr.drop 1).length < 4 then none
            else
              some (buildSpot atof line (de_ptr.drop 6) colon_ptr
                ((colon_ptr.drop 1).dropWhile isspace) freq_end
                ((freq_end.drop 1).dropWhile isspace) call_end (time_ptr.drop 1))

/-- One test of the loop condition of parse followed, when the payload is not
at its end, by the loop body: at an opening angle bracket not followed by a
slash parseTag runs on the text after the bracket, otherwise the position
moves by one character. At the end of the payload the loop is left and nothing
changes. -/
def parseStep (beyond : List Char) (q : List Char × ApplicationState) :
    List Char × ApplicationState :=
  match q.1 with
  | [] => q
  | c :: rest =>
    if c = '<' ∧ rest.head? ≠ some '/' then parseTag beyond rest q.2 else (rest, q.2)

/-- The scan position as an index into the payload x, for the pointer whose
remaining text is p. -/
def scanPosition (x p : List Char) : Nat := x.length - p.length

/-- The payload that consists of one phenomenon tag with name N, location L and
content X. -/
def phenomenonPayload (N L X : List Char) : List Char :=
  "<phenomenon name=\"".toList ++ N ++ "\" location=\"".toList ++ L ++ "\">".toList ++ X ++
    "</phenomenon>".toList

/-- The VHF strings with X in the string selected by the name N and the
location L, and the others empty. -/
def vhfSelected (N L X : List Char) : VhfPropagationData :=
  if N = "vhf-aurora".toList then
    { aurora := X, eSkipEurope2m := [], eSkipEurope4m := [], eSkipEurope6m := [] }
  else if N = "E-Skip".toList ∧ L = "europe".toList then
    { aurora := [], eSkipEurope2m := X, eSkipEurope4m := [], eSkipEurope6m := [] }
  else if N = "E-Skip".toList ∧ L = "europe_4m".toList then
    { aurora := [], eSkipEurope2m := [], eSkipEurope4m := X, eSkipEurope6m := [] }
  else if N = "E-Skip".toList ∧ L = "europe_6m".toList then
    { aurora := [], eSkipEurope2m := [], eSkipEurope4m := [], eSkipEurope6m := X }
  else { aurora := [], eSkipEurope2m := [], eSkipEurope4m := [], eSkipEurope6m := [] }

/-- The relation between the snapshot a of a first parse and the snapshot b of a
second parse of the same payload at the same scan position, for the first parse
started on the snapshot u and the second on v: each of the seven scalar fields
either was assigned in both runs and agrees, or still holds its start value in
both. -/
def scalarsSettled (u v a b : SolarPropagationData) : Prop :=
  (a.solarFlux = b.solarFlux ∨ (a.solarFlux = u.solarFlux ∧ b.solarFlux = v.solarFlux)) ∧
  (a.aIndex = b.aIndex ∨ (a.aIndex = u.aIndex ∧ b.aIndex = v.aIndex)) ∧
  (a.kIndex = b.kIndex ∨ (a.kIndex = u.kIndex ∧ b.kIndex = v.kIndex)) ∧
  (a.sunspots = b.sunspots ∨ (a.sunspots = u.sunspots ∧ b.sunspots = v.sunspots)) ∧
  (a.xray = b.xray ∨ (a.xray = u.xray ∧ b.xray = v.xray)) ∧
  (a.geomagneticField = b.geomagneticField ∨
    (a.geomagneticField = u.geomagneticField ∧ b.geomagneticField = v.geomagneticField)) ∧
  (a.signalNoiseLevel = b.signalNoiseLevel ∨
    (a.signalNoiseLevel = u.signalNoiseLevel ∧ b.signalNoiseLevel = v.signalNoiseLevel))

/-- The way parseSpot splits a line into tokens: the text pre before the first
marker DX de, the spotter token up to the first colon, white space ws1, the
frequency token, which starts with a character that is not white space and
runs up to the first space, white space ws2, the call token, delimited the same
way, a space and the rest of the line. -/
def spotTokens (line pre spotterTok ws1 freqTok ws2 callTok rest : List Char) : Prop :=
  line = pre ++ ("DX de ".toList ++ (spotterTok ++ ':' :: (ws1 ++ (freqTok ++ ' ' ::
    (ws2 ++ (callTok ++ ' ' :: rest)))))) ∧
  strstr line "DX de ".toList = some (line.drop pre.length) ∧
  ':' ∉ spotterTok ∧
  (∀ c ∈ ws1, isspace c = true) ∧
  (∃ c, freqTok.head? = some c ∧ isspace c = false) ∧ ' ' ∉ freqTok ∧
  (∀ c ∈ ws2, isspace c = true) ∧
  (∃ c, callTok.head? = some c ∧ isspace c = false) ∧ ' ' ∉ callTok

/-! ## Definitions: values used in examples -/

/-- The line decoder at start-up: a zeroed buffer, position 0. -/
def decoder0 : LineDecoder := { lineBuffer := List.replicate 256 NUL, bufferPos := 0 }


/-- A record used in examples. -/
def spotN (n : Int) : DxSpot :=
  { call := [], freq := [], spotter := [], spotHour := n, spotMinute := 0, mode := [] }

/-- The solar data of a freshly started device: static storage, all zero. -/
def solarData0 : SolarPropagationData :=
  { solarFlux := 0, aIndex := 0, kIndex := 0, xray := [], geomagneticField := [],
    signalNoiseLevel := [], sunspots := 0,
    propagation := List.replicate 8 PropagationCondition.POOR,
    vhf := { aurora := [], eSkipEurope2m := [], eSkipEurope4m := [], eSkipEurope6m := [] } }

/-- The application state at start-up: an empty ring of six zeroed records. -/
def state0 : ApplicationState :=
  { spots := List.replicate 6 (spotN 0), spotCount := 0, latestSpotIndex := -1,
    solarData := solarData0 }

/-- An atof that is used where the frequency value plays no role. -/
def atofZero (_ : List Char) : CFloat := CFloat.finite 0

/-! ## Theorems: spot ring buffer -/

theorem addSpots_snoc (rs : List DxSpot) (r : DxSpot) (s : ApplicationState) :
    addSpots (rs ++ [r]) s = addSpot r (addSpots rs s) := by
  simp [addSpots, List.foldl_append]

/-- The state of the ring after n appends to an empty buffer. -/
theorem addSpots_inv (rs : List DxSpot) (s0 : ApplicationState)
    (hc : s0.spotCount = 0) (hl : s0.latestSpotIndex = -1) (hlen : s0.spots.length = 6) :
    (addSpots rs s0).spots.length = 6 ∧
    (addSpots rs s0).spotCount = min (rs.length : Int) 6 ∧
    (addSpots rs s0).latestSpotIndex = (if rs.length = 0 then -1 else (((rs.length - 1) % 6 : Nat) : Int)) ∧
    ∀ k : Nat, k < rs.length → rs.length ≤ k + 6 →
      (addSpots rs s0).spots[k % 6]? = rs[k]? := by
  induction rs using List.reverseRecOn with
  | nil => simp [addSpots, hc, hl, hlen]
  | append_singleton l a ih =>
    obtain ⟨ih1, ih2, ih3, ih4⟩ := ih
    rw [addSpots_snoc]
    have hlatest : ((addSpots l s0).latestSpotIndex + 1).tmod MAX_SPOTS = ((l.length % 6 : Nat) : Int) := by
      rw [ih3]
      by_cases h0 : l.length = 0
      · simp [h0, MAX_SPOTS]
      · simp only [h0, if_false, MAX_SPOTS]
        rw [Int.tmod_eq_emod (by omega) (by omega)]
        omega
    refine ⟨?_, ?_, ?_, ?_⟩
    · simp [addSpot, ih1]
    · simp only [addSpot, ih2, MAX_SPOTS, List.length_append, List.length_singleton]
      split <;> omega
    · simp only [addSpot, hlatest, List.length_append, List.length_singleton]
      simp
    · intro k hk1 hk2
      simp only [List.length_append, List.length_singleton] at hk1 hk2
      simp only [addSpot, hlatest, Int.toNat_ofNat]
      by_cases hkl : k = l.length
      · subst hkl
        rw [List.getElem?_set_self (by rw [ih1]; omega)]
        simp
      · have hk : k < l.length := by omega
        rw [List.getElem?_set_ne (by omega), ih4 k hk (by omega)]
        rw [List.getElem?_append_left hk]

/-- C1: after appending N records with addSpot to an empty buffer, spotCount is
min(N, 6) and, for every i below spotCount, the slot at index
(latestSpotIndex - i + 6) mod 6 is a valid slot that holds the (N - i)-th
appended record (the record at 0-based position N - 1 - i). -/
theorem C1_addSpot_newest_first (rs : List DxSpot) (s0 : ApplicationState)
    (hc : s0.spotCount = 0) (hl : s0.latestSpotIndex = -1) (hlen : s0.spots.length = 6) :
    (addSpots rs s0).spotCount = min (rs.length : Int) 6 ∧
    ∀ i : Nat, (i : Int) < (addSpots rs s0).spotCount →
      0 ≤ displayIndex (addSpots rs s0) i ∧ displayIndex (addSpots rs s0) i < 6 ∧
      ∃ r, rs[rs.length - 1 - i]? = some r ∧
        (addSpots rs s0).spots[(displayIndex (addSpots rs s0) i).toNat]? = some r := by
  obtain ⟨_, h2, h3, h4⟩ := addSpots_inv rs s0 hc hl hlen
  refine ⟨h2, ?_⟩
  intro i hi
  rw [h2] at hi
  have hiN : i < rs.length := by omega
  have hi6 : i < 6 := by omega
  have hne : rs.length ≠ 0 := by omega
  have hidx : displayIndex (addSpots rs s0) i = (((rs.length - 1 - i) % 6 : Nat) : Int) := by
    simp only [displayIndex, h3, hne, if_false, MAX_SPOTS]
    rw [Int.tmod_eq_emod (by omega) (by omega)]
    omega
  rw [hidx]
  refine ⟨by omega, by omega, rs[rs.length - 1 - i], ?_, ?_⟩
  · exact List.getElem?_eq_getElem (by omega)
  · rw [Int.toNat_ofNat, h4 (rs.length - 1 - i) (by omega) (by omega)]
    exact List.getElem?_eq_getElem (by omega)

theorem C1_addSpot_newest_first_witness :
    (addSpots ((List.range 8).map fun n => spotN n) state0).spotCount = min (8 : Int) 6 ∧
    ∀ i : Nat, (i : Int) < (addSpots ((List.range 8).map fun n => spotN n) state0).spotCount →
      0 ≤ displayIndex (addSpots ((List.range 8).map fun n => spotN n) state0) i ∧
      displayIndex (addSpots ((List.range 8).map fun n => spotN n) state0) i < 6 ∧
      ∃ r, ((List.range 8).map fun n => spotN (n : Int))[8 - 1 - i]? = some r ∧
        (addSpots ((List.range 8).map fun n => spotN n) state0).spots[(displayIndex (addSpots ((List.range 8).map fun n => spotN n) state0) i).toNat]? = some r :=
  C1_addSpot_newest_first ((List.range 8).map fun n => spotN n) state0 rfl rfl rfl


/-! ## Theorems: libc string functions -/

theorem strstr_of_isPrefixOf (hay needle : List Char) (h : needle.isPrefixOf hay = true) :
    strstr hay needle = some hay := by
  cases hay with
  | nil =>
    cases needle with
    | nil => simp [strstr]
    | cons a as => simp [List.isPrefixOf] at h
  | cons c cs => simp [strstr, h]

theorem strstr_isSome_iff (hay needle : List Char) :
    (strstr hay needle).isSome = true ↔ needle <:+: hay := by
  induction hay with
  | nil =>
    cases needle with
    | nil => simp [strstr]
    | cons a as => simp [strstr]
  | cons c cs ih =>
    unfold strstr
    by_cases hp : needle.isPrefixOf (c :: cs) = true
    · simp only [hp, if_true, Option.isSome_some, true_iff]
      exact (List.isPrefixOf_iff_prefix.mp hp).isInfix
    · simp only [hp, Bool.false_eq_true, if_false, ih]
      rw [List.infix_cons_iff]
      constructor
      · intro h; exact Or.inr h
      · rintro (h | h)
        · exact absurd (List.isPrefixOf_iff_prefix.mpr h) hp
        · exact h

theorem strstr_eq_none_iff (hay needle : List Char) :
    strstr hay needle = none ↔ ¬ needle <:+: hay := by
  rw [← strstr_isSome_iff]
  cases strstr hay needle <;> simp

theorem strchr_append (pre rest : List Char) (c : Char) (h : c ∉ pre) :
    strchr (pre ++ c :: rest) c = some (c :: rest) := by
  induction pre with
  | nil => simp [strchr]
  | cons x xs ih =>
    have hx : x ≠ c := fun e => h (by simp [e])
    have hxs : c ∉ xs := fun e => h (by simp [e])
    simp [strchr, hx, ih hxs]

theorem strchr_eq_none_iff (s : List Char) (c : Char) : strchr s c = none ↔ c ∉ s := by
  induction s with
  | nil => simp [strchr]
  | cons x xs ih =>
    unfold strchr
    by_cases hx : x = c
    · simp [hx]
    · simp only [hx, if_false, ih, List.mem_cons, not_or]
      constructor
      · intro h; exact ⟨fun e => hx e.symm, h⟩
      · intro h; exact h.2

theorem strrchr_eq_none_iff (s : List Char) (c : Char) : strrchr s c = none ↔ c ∉ s := by
  induction s with
  | nil => simp [strrchr]
  | cons x xs ih =>
    unfold strrchr
    cases hr : strrchr xs c with
    | some r =>
      have : ¬ c ∉ xs := fun h => by rw [ih.mpr h] at hr; cases hr
      simp only [List.mem_cons, not_or]
      constructor
      · intro h; cases h
      · intro h; exact absurd h.2 this
    | none =>
      have hxs : c ∉ xs := ih.mp hr
      by_cases hx : x = c
      · simp [hx]
      · simp only [hx, if_false, List.mem_cons, not_or, true_iff]
        exact ⟨fun e => hx e.symm, hxs⟩

theorem strrchr_append (pre post : List Char) (c : Char) (h : c ∉ post) :
    strrchr (pre ++ c :: post) c = some (c :: post) := by
  induction pre with
  | nil =>
    simp only [List.nil_append, strrchr, (strrchr_eq_none_iff post c).mpr h, if_true]
  | cons x xs ih =>
    show strrchr (x :: (xs ++ c :: post)) c = some (c :: post)
    unfold strrchr
    rw [ih]

theorem dropWhile_append_of_all (p : Char → Bool) (sp rest : List Char)
    (h : ∀ c ∈ sp, p c = true) : (sp ++ rest).dropWhile p = rest.dropWhile p := by
  induction sp with
  | nil => rfl
  | cons x xs ih =>
    have hx : p x = true := h x (by simp)
    simp only [List.cons_append, List.dropWhile_cons, hx, if_true]
    exact ih (fun c hc => h c (by simp [hc]))

theorem dropWhile_of_head (p : Char → Bool) (s : List Char) (hne : s ≠ [])
    (h : ∀ c ∈ s, p c = false) (rest : List Char) : (s ++ rest).dropWhile p = s ++ rest := by
  cases s with
  | nil => exact absurd rfl hne
  | cons x xs =>
    have hx : p x = false := h x (by simp)
    simp [List.dropWhile_cons, hx]

/-! ## Theorems: spot parser -/

theorem isdigit_not_space (c : Char) (h : isdigit c = true) : isspace c = false := by
  simp only [isdigit, Bool.and_eq_true, decide_eq_true_eq] at h
  simp only [isspace, Bool.or_eq_false_iff, Bool.and_eq_false_iff, decide_eq_false_iff_not]
  omega

theorem isdigit_ne (c d : Char) (h : isdigit c = true) (hd : isdigit d = false) : c ≠ d := by
  intro e
  rw [e, hd] at h
  cases h

theorem atoi_two_digits (a b : Char) (ha : isdigit a = true) (hb : isdigit b = true) :
    atoi (cstr [a, b]) = 10 * digitVal a + digitVal b := by
  have ha0 : a ≠ NUL := isdigit_ne a NUL ha (by decide)
  have hb0 : b ≠ NUL := isdigit_ne b NUL hb (by decide)
  have hc : cstr [a, b] = [a, b] := by simp [cstr, ha0, hb0]
  have hsp : isspace a = false := isdigit_not_space a ha
  have hm : a ≠ '-' := isdigit_ne a '-' ha (by decide)
  have hp : a ≠ '+' := isdigit_ne a '+' ha (by decide)
  have hv : atoiValue [a, b] = 10 * digitVal a + digitVal b := by
    simp only [atoiValue, List.dropWhile_cons, hsp, Bool.false_eq_true, if_false,
      List.head?_cons, Option.some.injEq, hm, hp, atoiDigits, ha, hb, if_true, digitVal]
    ring
  simp only [isdigit, Bool.and_eq_true, decide_eq_true_eq] at ha hb
  rw [hc]
  simp only [atoi, hv, digitVal, INT_MIN, INT_MAX]
  omega

theorem not_space_of_isspace_false (s : List Char) (h : ∀ c ∈ s, isspace c = false) :
    ' ' ∉ s := by
  intro hm
  have := h ' ' hm
  simp [isspace] at this

theorem take_sub_append (a b : List Char) (cap : Nat) (h : a.length ≤ cap) :
    (a ++ b).take (min ((a ++ b).length - b.length) cap) = a := by
  have : min ((a ++ b).length - b.length) cap = a.length := by
    simp only [List.length_append]; omega
  rw [this]
  simp

/-- C2: a line of the form DX de S: F C free-text HHMM-suffix (S without a
colon and of at most 11 characters; F and C non-empty without white space, of
at most 9 and 11 characters; separators of one or more spaces; the text after
the last space starting with four decimal digits) makes parseSpot append with
addSpot exactly one record, whose spotter is S, frequency text F, call C, hour
the integer HH and minute the integer MM. The line of the specification
decodes to SP7ABC, 14074.0, K1ABC, 12, 34 and mode FT8. -/
theorem C2_parseSpot_decodes (atof : List Char → CFloat) (state : ApplicationState)
    (S F C free suffix sp1 sp2 : List Char) (d1 d2 d3 d4 : Char)
    (hS : ':' ∉ S) (hSlen : S.length ≤ 11)
    (hF : F ≠ []) (hFws : ∀ c ∈ F, isspace c = false) (hFlen : F.length ≤ 9)
    (hC : C ≠ []) (hCws : ∀ c ∈ C, isspace c = false) (hClen : C.length ≤ 11)
    (hsp1 : sp1 ≠ [] ∧ ∀ c ∈ sp1, c = ' ') (hsp2 : sp2 ≠ [] ∧ ∀ c ∈ sp2, c = ' ')
    (hd : isdigit d1 = true ∧ isdigit d2 = true ∧ isdigit d3 = true ∧ isdigit d4 = true)
    (hsuf : ' ' ∉ suffix) :
    (parseSpot atof
        ("DX de ".toList ++ S ++ [':'] ++ sp1 ++ F ++ sp2 ++ C ++ [' '] ++ free ++ [' '] ++
          [d1, d2, d3, d4] ++ suffix) state
      = addSpot
          { spotter := S, freq := F, call := C,
            spotHour := 10 * digitVal d1 + digitVal d2,
            spotMinute := 10 * digitVal d3 + digitVal d4,
            mode := getModeFromLine
              ("DX de ".toList ++ S ++ [':'] ++ sp1 ++ F ++ sp2 ++ C ++ [' '] ++ free ++ [' '] ++
                [d1, d2, d3, d4] ++ suffix) (atof F) 5 } state) ∧
    parseSpot atof "DX de SP7ABC:  14074.0  K1ABC  FT8 -10dB  1234Z".toList state
      = addSpot
          { spotter := "SP7ABC".toList, freq := "14074.0".toList, call := "K1ABC".toList,
            spotHour := 12, spotMinute := 34, mode := "FT8".toList } state := by
  refine ⟨?_, rfl⟩
  obtain ⟨hd1, hd2, hd3, hd4⟩ := hd
  obtain ⟨hsp1ne, hsp1⟩ := hsp1
  obtain ⟨hsp2ne, hsp2⟩ := hsp2
  obtain ⟨x2, sp2r, rfl⟩ := List.exists_cons_of_ne_nil hsp2ne
  have hx2 : x2 = ' ' := hsp2 x2 (by simp)
  subst hx2
  have hsp2r : ∀ c ∈ sp2r, isspace c = true := fun c hc => by
    rw [hsp2 c (by simp [hc])]; rfl
  have hsp1s : ∀ c ∈ sp1, isspace c = true := fun c hc => by rw [hsp1 c hc]; rfl
  have hFsp : ' ' ∉ F := not_space_of_isspace_false F hFws
  have hCsp : ' ' ∉ C := not_space_of_isspace_false C hCws
  -- the line, with the appends nested to the right
  generalize hline : "DX de ".toList ++ S ++ [':'] ++ sp1 ++ F ++ (' ' :: sp2r) ++ C ++ [' '] ++
    free ++ [' '] ++ [d1, d2, d3, d4] ++ suffix = line
  have e1 : line = "DX de ".toList ++ (S ++ ':' :: (sp1 ++ (F ++ ' ' :: (sp2r ++ (C ++ ' ' ::
      (free ++ ' ' :: (d1 :: d2 :: d3 :: d4 :: suffix))))))) := by
    rw [← hline]; simp [List.append_assoc]
  have e2 : line = ("DX de ".toList ++ S ++ [':'] ++ sp1 ++ F ++ (' ' :: sp2r) ++ C ++ [' '] ++
      free) ++ ' ' :: (d1 :: d2 :: d3 :: d4 :: suffix) := by
    rw [← hline]; simp [List.append_assoc]
  have hlast : ' ' ∉ d1 :: d2 :: d3 :: d4 :: suffix := by
    simp only [List.mem_cons, not_or]
    exact ⟨(isdigit_ne d1 ' ' hd1 (by decide)).symm, (isdigit_ne d2 ' ' hd2 (by decide)).symm,
      (isdigit_ne d3 ' ' hd3 (by decide)).symm, (isdigit_ne d4 ' ' hd4 (by decide)).symm, hsuf⟩
  have s1 : strstr line "DX de ".toList = some line := by
    apply strstr_of_isPrefixOf
    rw [e1]
    exact List.isPrefixOf_iff_prefix.mpr (List.prefix_append _ _)
  have s8 : strrchr line ' ' = some (' ' :: (d1 :: d2 :: d3 :: d4 :: suffix)) := by
    rw [e2]; exact strrchr_append _ _ _ hlast
  unfold parseSpot
  rw [s1]
  simp only
  rw [s8]
  have s2 : line.drop 6 = S ++ ':' :: (sp1 ++ (F ++ ' ' :: (sp2r ++ (C ++ ' ' ::
      (free ++ ' ' :: (d1 :: d2 :: d3 :: d4 :: suffix)))))) := by
    rw [e1]; rfl
  rw [s2, strchr_append S _ ':' hS]
  simp only [List.drop_succ_cons, List.drop_zero]
  rw [dropWhile_append_of_all isspace sp1 _ hsp1s, dropWhile_of_head isspace F hF hFws,
    strchr_append F _ ' ' hFsp]
  simp only [List.drop_succ_cons, List.drop_zero]
  rw [dropWhile_append_of_all isspace sp2r _ hsp2r, dropWhile_of_head isspace C hC hCws,
    strchr_append C _ ' ' hCsp]
  simp only [List.length_cons]
  rw [if_neg (by omega)]
  congr 1
  simp only [buildSpot, List.getD_cons_zero, List.getD_cons_succ]
  rw [take_sub_append S _ 11 hSlen, take_sub_append F _ 9 hFlen, take_sub_append C _ 11 hClen,
    atoi_two_digits d1 d2 hd1 hd2, atoi_two_digits d3 d4 hd3 hd4]

theorem C2_parseSpot_decodes_witness :
    parseSpot atofZero "DX de W1AW: 7100.0   DL1XYZ CQ CQ 0915Z".toList state0
      = addSpot
          { spotter := "W1AW".toList, freq := "7100.0".toList, call := "DL1XYZ".toList,
            spotHour := 9, spotMinute := 15, mode := "-".toList } state0 :=
  (C2_parseSpot_decodes atofZero state0 "W1AW".toList "7100.0".toList "DL1XYZ".toList
    "CQ CQ".toList "Z".toList " ".toList "   ".toList '0' '9' '1' '5'
    (by decide) (by decide) (by decide) (by decide) (by decide) (by decide) (by decide)
    (by decide) (by decide) (by decide) (by decide) (by decide)).1

theorem strstr_suffix (hay needle r : List Char) (h : strstr hay needle = some r) :
    r <:+ hay := by
  induction hay with
  | nil =>
    unfold strstr at h
    split at h
    · cases h; exact List.suffix_refl _
    · cases h
  | cons c cs ih =>
    unfold strstr at h
    split at h
    · cases h; exact List.suffix_refl _
    · exact (ih h).trans (List.suffix_cons c cs)

/-- C3: a line that does not contain the marker DX de, or contains no colon,
or whose text after its last space is shorter than 4 characters, leaves the
application state (spots array, spotCount and latestSpotIndex included) as it
was: parseSpot appends nothing. -/
theorem C3_parseSpot_rejects (atof : List Char → CFloat) (state : ApplicationState)
    (line : List Char)
    (h : ¬ "DX de ".toList <:+: line ∨ ':' ∉ line ∨
      ∃ pre post, line = pre ++ ' ' :: post ∧ ' ' ∉ post ∧ post.length < 4) :
    parseSpot atof line state = state := by
  unfold parseSpot
  rcases h with h | h | ⟨pre, post, hl, hpost, hlen⟩
  · rw [(strstr_eq_none_iff line _).mpr h]
  · cases hs : strstr line "DX de ".toList with
    | none => rfl
    | some de_ptr =>
      have hsuf : de_ptr.drop 6 <:+ line :=
        (List.drop_suffix 6 de_ptr).trans (strstr_suffix _ _ _ hs)
      have hc : ':' ∉ de_ptr.drop 6 := fun hm => h (hsuf.subset hm)
      simp only [(strchr_eq_none_iff _ _).mpr hc]
  · have hr : strrchr line ' ' = some (' ' :: post) := by
      rw [hl]; exact strrchr_append pre post ' ' hpost
    rw [hr]
    simp only [List.drop_succ_cons, List.drop_zero, hlen, if_true]
    split
    · rfl
    · split
      · rfl
      · split
        · rfl
        · split <;> rfl

theorem C3_parseSpot_rejects_witness :
    parseSpot atofZero "DX de SP7ABC:  14074.0  K1ABC  FT8 -10dB  123".toList state0 = state0 :=
  C3_parseSpot_rejects atofZero state0 "DX de SP7ABC:  14074.0  K1ABC  FT8 -10dB  123".toList
    (Or.inr (Or.inr ⟨"DX de SP7ABC:  14074.0  K1ABC  FT8 -10dB ".toList, "123".toList,
      by decide, by decide, by decide⟩))

/-! ## Theorems: mode classification -/

theorem infix_map_toupper (v line : List Char) (h : v <:+: line) :
    v.map toupper <:+: line.map toupper := by
  obtain ⟨a, b, rfl⟩ := h
  exact ⟨a.map toupper, b.map toupper, by simp⟩

theorem strlcpy_line (line : List Char) (h : line.length ≤ 255) :
    strlcpy line TELNET_LINE_BUFFER_SIZE = line := by
  simp only [strlcpy, TELNET_LINE_BUFFER_SIZE]
  exact List.take_of_length_le h

theorem strlcpy_short (src : List Char) (n : Nat) (h : src.length < n) : strlcpy src n = src := by
  simp only [strlcpy]
  exact List.take_of_length_le (by omega)

/-- C4: for a line of at most 255 characters and any frequency, getModeFromLine
decides by the first keyword found in the upper-cased line, in the order FT8,
FT4, (SSB, USB or LSB) giving SSB, (CW or WPM) giving CW; a line that contains
USB in any letter case and neither FT8 nor FT4 is SSB, and a line that
contains both CW and FT8 is FT8. The mode buffer holds at least 4 bytes (5 in
the program). -/
theorem C4_getModeFromLine_keywords (line : List Char) (f : CFloat) (n : Nat)
    (hlen : line.length ≤ 255) (hn : 4 ≤ n) :
    ("FT8".toList <:+: line.map toupper → getModeFromLine line f n = "FT8".toList) ∧
    (¬ "FT8".toList <:+: line.map toupper → "FT4".toList <:+: line.map toupper →
      getModeFromLine line f n = "FT4".toList) ∧
    (¬ "FT8".toList <:+: line.map toupper → ¬ "FT4".toList <:+: line.map toupper →
      ("SSB".toList <:+: line.map toupper ∨ "USB".toList <:+: line.map toupper ∨
        "LSB".toList <:+: line.map toupper) →
      getModeFromLine line f n = "SSB".toList) ∧
    (¬ "FT8".toList <:+: line.map toupper → ¬ "FT4".toList <:+: line.map toupper →
      ¬ "SSB".toList <:+: line.map toupper → ¬ "USB".toList <:+: line.map toupper →
      ¬ "LSB".toList <:+: line.map toupper →
      ("CW".toList <:+: line.map toupper ∨ "WPM".toList <:+: line.map toupper) →
      getModeFromLine line f n = "CW".toList) ∧
    (∀ v : List Char, v.map toupper = "USB".toList → v <:+: line →
      ¬ "FT8".toList <:+: line.map toupper → ¬ "FT4".toList <:+: line.map toupper →
      getModeFromLine line f n = "SSB".toList) ∧
    ("CW".toList <:+: line → "FT8".toList <:+: line →
      getModeFromLine line f n = "FT8".toList) := by
  have e3 : strlcpy "FT8".toList n = "FT8".toList := strlcpy_short _ n (by simpa using hn)
  have e4 : strlcpy "FT4".toList n = "FT4".toList := strlcpy_short _ n (by simpa using hn)
  have es : strlcpy "SSB".toList n = "SSB".toList := strlcpy_short _ n (by simpa using hn)
  have ec : strlcpy "CW".toList n = "CW".toList :=
    strlcpy_short _ n (by simp only [String.toList, List.length_cons, List.length_nil]; omega)
  have key : ∀ k : List Char, (strstr (line.map toupper) k).isSome = true ↔
      k <:+: line.map toupper := fun k => strstr_isSome_iff _ k
  have hFT8 : "FT8".toList <:+: line.map toupper → getModeFromLine line f n = "FT8".toList := by
    intro h
    simp only [getModeFromLine, strlcpy_line line hlen, (key _).mpr h, if_true, e3]
  have hSSB : ¬ "FT8".toList <:+: line.map toupper → ¬ "FT4".toList <:+: line.map toupper →
      ("SSB".toList <:+: line.map toupper ∨ "USB".toList <:+: line.map toupper ∨
        "LSB".toList <:+: line.map toupper) →
      getModeFromLine line f n = "SSB".toList := by
    intro h8 h4 h
    have n8 : ¬ (strstr (line.map toupper) "FT8".toList).isSome = true := fun e => h8 ((key _).mp e)
    have n4 : ¬ (strstr (line.map toupper) "FT4".toList).isSome = true := fun e => h4 ((key _).mp e)
    simp only [getModeFromLine, strlcpy_line line hlen, n8, n4, Bool.false_eq_true, if_false]
    by_cases c1 : (strstr (line.map toupper) "SSB".toList).isSome = true
    · simp only [c1, Bool.false_eq_true, if_false, if_true, es]
    · by_cases c2 : (strstr (line.map toupper) "USB".toList).isSome = true
      · simp only [c1, c2, Bool.false_eq_true, if_true, if_false, es]
      · by_cases c3 : (strstr (line.map toupper) "LSB".toList).isSome = true
        · simp only [c1, c2, c3, Bool.false_eq_true, if_true, if_false, es]
        · rcases h with h | h | h
          · exact absurd ((key _).mpr h) c1
          · exact absurd ((key _).mpr h) c2
          · exact absurd ((key _).mpr h) c3
  refine ⟨hFT8, ?_, hSSB, ?_, ?_, ?_⟩
  · intro h8 h4
    have n8 : ¬ (strstr (line.map toupper) "FT8".toList).isSome = true := fun e => h8 ((key _).mp e)
    simp only [getModeFromLine, strlcpy_line line hlen, n8, (key _).mpr h4, Bool.false_eq_true, if_true, if_false, e4]
  · intro h8 h4 hs hu hl h
    have n8 : ¬ (strstr (line.map toupper) "FT8".toList).isSome = true := fun e => h8 ((key _).mp e)
    have n4 : ¬ (strstr (line.map toupper) "FT4".toList).isSome = true := fun e => h4 ((key _).mp e)
    have ns : ¬ (strstr (line.map toupper) "SSB".toList).isSome = true := fun e => hs ((key _).mp e)
    have nu : ¬ (strstr (line.map toupper) "USB".toList).isSome = true := fun e => hu ((key _).mp e)
    have nl : ¬ (strstr (line.map toupper) "LSB".toList).isSome = true := fun e => hl ((key _).mp e)
    simp only [getModeFromLine, strlcpy_line line hlen, n8, n4, ns, nu, nl, Bool.false_eq_true, if_false]
    by_cases c1 : (strstr (line.map toupper) "CW".toList).isSome = true
    · simp only [c1, Bool.false_eq_true, if_false, if_true, ec]
    · rcases h with h | h
      · exact absurd ((key _).mpr h) c1
      · simp only [c1, (key _).mpr h, Bool.false_eq_true, if_true, if_false, ec]
  · intro v hv hin h8 h4
    have := infix_map_toupper v line hin
    rw [hv] at this
    exact hSSB h8 h4 (Or.inr (Or.inl this))
  · intro _ h
    exact hFT8 (infix_map_toupper _ line h)

theorem C4_getModeFromLine_keywords_witness :
    getModeFromLine "DX de W1AW: 14250.0 K1ABC usb cw 1234Z".toList (CFloat.finite 14250) 5
      = "SSB".toList :=
  (C4_getModeFromLine_keywords "DX de W1AW: 14250.0 K1ABC usb cw 1234Z".toList
    (CFloat.finite 14250) 5 (by decide) (by decide)).2.2.2.2.1 "usb".toList (by decide)
    (by decide) (by decide) (by decide)

theorem infix_upper_of_truncated (k line : List Char)
    (h : k <:+: (strlcpy line TELNET_LINE_BUFFER_SIZE).map toupper) : k <:+: line.map toupper := by
  have hp : (strlcpy line TELNET_LINE_BUFFER_SIZE).map toupper <+: line.map toupper := by
    simp only [strlcpy, List.map_take]
    exact List.take_prefix _ _
  exact h.trans hp.isInfix

theorem strstr_truncated_none (k line : List Char) (h : ¬ k <:+: line.map toupper) :
    (strstr ((strlcpy line TELNET_LINE_BUFFER_SIZE).map toupper) k).isSome = false := by
  cases hs : (strstr ((strlcpy line TELNET_LINE_BUFFER_SIZE).map toupper) k).isSome with
  | false => rfl
  | true => exact absurd (infix_upper_of_truncated k line ((strstr_isSome_iff _ _).mp hs)) h

/-- C5: for a line whose upper-cased text contains none of FT8, FT4, SSB, USB,
LSB, CW, WPM and an integer frequency f in kHz, getModeFromLine returns SSB
exactly when f lies in one of the ten inclusive ranges of the band plan, and
returns - otherwise; 7100 gives SSB and 14000 gives -. The mode buffer holds
at least 4 bytes (5 in the program). -/
theorem C5_getModeFromLine_band_plan (line : List Char) (f : Int) (n : Nat) (hn : 4 ≤ n)
    (hnone : ∀ k ∈ ["FT8", "FT4", "SSB", "USB", "LSB", "CW", "WPM"],
      ¬ k.toList <:+: line.map toupper) :
    (getModeFromLine line (CFloat.finite f) n = "SSB".toList ↔
      ((1840 ≤ f ∧ f ≤ 2000) ∨ (3600 ≤ f ∧ f ≤ 3800) ∨ (5330 ≤ f ∧ f ≤ 5410) ∨
       (7050 ≤ f ∧ f ≤ 7200) ∨ (14100 ≤ f ∧ f ≤ 14350) ∨ (18110 ≤ f ∧ f ≤ 18168) ∨
       (21150 ≤ f ∧ f ≤ 21450) ∨ (24920 ≤ f ∧ f ≤ 24990) ∨ (28300 ≤ f ∧ f ≤ 29000) ∨
       (50100 ≤ f ∧ f ≤ 51000))) ∧
    (¬ ((1840 ≤ f ∧ f ≤ 2000) ∨ (3600 ≤ f ∧ f ≤ 3800) ∨ (5330 ≤ f ∧ f ≤ 5410) ∨
       (7050 ≤ f ∧ f ≤ 7200) ∨ (14100 ≤ f ∧ f ≤ 14350) ∨ (18110 ≤ f ∧ f ≤ 18168) ∨
       (21150 ≤ f ∧ f ≤ 21450) ∨ (24920 ≤ f ∧ f ≤ 24990) ∨ (28300 ≤ f ∧ f ≤ 29000) ∨
       (50100 ≤ f ∧ f ≤ 51000)) →
      getModeFromLine line (CFloat.finite f) n = "-".toList) ∧
    getModeFromLine line (CFloat.finite (7100 : Int)) n = "SSB".toList ∧
    getModeFromLine line (CFloat.finite (14000 : Int)) n = "-".toList := by
  have es : strlcpy "SSB".toList n = "SSB".toList := strlcpy_short _ n (by simpa using hn)
  have ed : strlcpy "-".toList n = "-".toList :=
    strlcpy_short _ n (by simp only [String.toList, List.length_cons, List.length_nil]; omega)
  have h1 := strstr_truncated_none _ line (hnone "FT8" (by simp))
  have h2 := strstr_truncated_none _ line (hnone "FT4" (by simp))
  have h3 := strstr_truncated_none _ line (hnone "SSB" (by simp))
  have h4 := strstr_truncated_none _ line (hnone "USB" (by simp))
  have h5 := strstr_truncated_none _ line (hnone "LSB" (by simp))
  have h6 := strstr_truncated_none _ line (hnone "CW" (by simp))
  have h7 := strstr_truncated_none _ line (hnone "WPM" (by simp))
  have key : ∀ g : Int, getModeFromLine line (CFloat.finite g) n =
      if ((1840 ≤ g ∧ g ≤ 2000) ∨ (3600 ≤ g ∧ g ≤ 3800) ∨ (5330 ≤ g ∧ g ≤ 5410) ∨
       (7050 ≤ g ∧ g ≤ 7200) ∨ (14100 ≤ g ∧ g ≤ 14350) ∨ (18110 ≤ g ∧ g ≤ 18168) ∨
       (21150 ≤ g ∧ g ≤ 21450) ∨ (24920 ≤ g ∧ g ≤ 24990) ∨ (28300 ≤ g ∧ g ≤ 29000) ∨
       (50100 ≤ g ∧ g ≤ 51000)) then "SSB".toList else "-".toList := by
    intro g
    simp only [getModeFromLine, h1, h2, h3, h4, h5, h6, h7, Bool.false_eq_true, if_false,
      CFloat.ge, CFloat.le, es, ed, Bool.or_eq_true, Bool.and_eq_true, decide_eq_true_eq,
      or_assoc]
    norm_cast
  refine ⟨?_, ?_, ?_, ?_⟩
  · rw [key f]
    constructor
    · intro h
      by_contra hc
      rw [if_neg hc] at h
      exact absurd h (by decide)
    · intro h
      rw [if_pos h]
  · intro h
    rw [key f, if_neg h]
  · rw [key 7100]; rfl
  · rw [key 14000]; rfl

theorem C5_getModeFromLine_band_plan_witness :
    getModeFromLine "DX de W1AW: 3700.0 K1ABC cq 1234Z".toList (CFloat.finite (3700 : Int)) 5
      = "SSB".toList :=
  (C5_getModeFromLine_band_plan "DX de W1AW: 3700.0 K1ABC cq 1234Z".toList 3700 5 (by decide)
    (by decide)).1.mpr (by decide)

/-! ## Theorems: telnet line decoder -/

theorem telnetLoop_append {σ : Type} (parse : List Char → σ → σ) (t : TelnetLoop σ)
    (a b : List Char) : telnetLoop parse t (a ++ b) = telnetLoop parse (telnetLoop parse t a) b := by
  simp [telnetLoop, List.foldl_append]

/-- Bytes other than terminators are stored one after the other while they fit. -/
theorem telnetLoop_feed {σ : Type} (parse : List Char → σ → σ) (L : List Char) :
    ∀ (pre rest : List Char) (st : σ) (flag : Bool),
      (∀ c ∈ L, c ≠ '\n' ∧ c ≠ '\r') → pre.length + L.length ≤ 255 → L.length ≤ rest.length →
      telnetLoop parse
          { lineBuffer := pre ++ rest, bufferPos := pre.length, state := st,
            newSpotReceived := flag } L
        = { lineBuffer := pre ++ L ++ rest.drop L.length, bufferPos := pre.length + L.length,
            state := st, newSpotReceived := flag } := by
  induction L with
  | nil => intro pre rest st flag _ _ _; simp [telnetLoop]
  | cons c L ih =>
    intro pre rest st flag hL hcap hrest
    have hc := hL c (by simp)
    cases rest with
    | nil => simp at hrest
    | cons r rest =>
      simp only [List.length_cons] at hcap hrest
      have hstep : telnetByte parse
          { lineBuffer := pre ++ r :: rest, bufferPos := pre.length, state := st,
            newSpotReceived := flag } c
          = { lineBuffer := (pre ++ [c]) ++ rest, bufferPos := (pre ++ [c]).length, state := st,
              newSpotReceived := flag } := by
        have hlt : pre.length < TELNET_LINE_BUFFER_SIZE - 1 := by
          simp only [TELNET_LINE_BUFFER_SIZE]; omega
        simp [telnetByte, hc.1, hc.2, hlt]
      have := ih (pre ++ [c]) rest st flag (fun x hx => hL x (by simp [hx]))
        (by simp only [List.length_append, List.length_singleton]; omega) (by omega)
      simp only [telnetLoop, List.foldl_cons] at this ⊢
      rw [hstep, this]
      simp only [List.length_append, List.length_singleton, List.append_assoc,
        List.singleton_append, List.drop_succ_cons, List.length_cons, List.cons_append,
        List.nil_append, Nat.add_assoc, Nat.add_comm 1 L.length, List.length_nil, Nat.zero_add]

/-- The trimming loop leaves in the buffer the line without its trailing white space. -/
theorem cstr_trimTrailing (L : List Char) :
    ∀ rest : List Char, (∀ c ∈ L, c ≠ NUL) →
      cstr (trimTrailing (L ++ NUL :: rest) L.length) = L.rdropWhile isspace := by
  induction L using List.reverseRecOn with
  | nil => intro rest _; simp [trimTrailing, cstr]
  | append_singleton L x ih =>
    intro rest hL
    have hL1 : ∀ c ∈ L, c ≠ NUL := fun c hc => hL c (by simp [hc])
    have hx : x ≠ NUL := hL x (by simp)
    have hget : (L ++ [x] ++ NUL :: rest).getD L.length NUL = x := by
      rw [List.append_assoc, List.getD_append_right L _ NUL L.length (Nat.le_refl _)]
      simp
    have hset : (L ++ [x] ++ NUL :: rest).set L.length NUL = L ++ NUL :: NUL :: rest := by
      simp
    simp only [List.length_append, List.length_singleton, trimTrailing, hget, hset]
    by_cases hsp : isspace x = true
    · rw [if_pos hsp, ih (NUL :: rest) hL1, List.rdropWhile_concat_pos _ _ _ hsp]
    · rw [if_neg hsp, List.rdropWhile_concat_neg _ _ _ hsp]
      have : ∀ a ∈ L ++ [x], (fun c => c != NUL) a = true := by
        intro a ha
        simpa using hL a ha
      simp only [cstr]
      rw [List.takeWhile_append_of_pos this]
      simp

theorem trimTrailing_length (k : Nat) : ∀ buf : List Char,
    (trimTrailing buf k).length = buf.length := by
  induction k with
  | zero => intro buf; rfl
  | succ k ih =>
    intro buf
    simp only [trimTrailing]
    split
    · rw [ih]; simp
    · rfl

/-- A complete line: at most 255 bytes without terminator or NUL, then a
terminator, decoded from an empty buffer. -/
theorem telnetLoop_line {σ : Type} (parse : List Char → σ → σ) (buf0 L : List Char) (t : Char)
    (st : σ) (flag : Bool) (hbuf : buf0.length = 256) (hlen : L.length ≤ 255)
    (hL : ∀ c ∈ L, c ≠ '\n' ∧ c ≠ '\r' ∧ c ≠ NUL) (ht : t = '\n' ∨ t = '\r') :
    ∃ B : List Char, B.length = 256 ∧
      telnetLoop parse
          { lineBuffer := buf0, bufferPos := 0, state := st, newSpotReceived := flag } (L ++ [t])
        = { lineBuffer := B, bufferPos := 0,
            state := if L.rdropWhile isspace = [] then st else parse (L.rdropWhile isspace) st,
            newSpotReceived := if L.rdropWhile isspace = [] then flag else true } := by
  have hfeed := telnetLoop_feed parse L [] buf0 st flag (fun c hc => ⟨(hL c hc).1, (hL c hc).2.1⟩)
    (by simpa using hlen) (by omega)
  simp only [List.nil_append, List.length_nil, Nat.zero_add] at hfeed
  rw [telnetLoop_append, hfeed]
  have htt : (t = '\n' ∨ t = '\r') = True := eq_true ht
  cases L with
  | nil =>
    refine ⟨buf0, hbuf, ?_⟩
    simp [telnetLoop, telnetByte, htt, List.rdropWhile]
  | cons x xs =>
    have hd : (buf0.drop (x :: xs).length).length = 256 - (x :: xs).length := by
      rw [List.length_drop, hbuf]
    obtain ⟨r, rest, hrest⟩ : ∃ r rest, buf0.drop (x :: xs).length = r :: rest := by
      cases hdr : buf0.drop (x :: xs).length with
      | nil => rw [hdr] at hd; simp only [List.length_nil] at hd; omega
      | cons r rest => exact ⟨r, rest, rfl⟩
    rw [hrest]
    have hset : ((x :: xs) ++ r :: rest).set (x :: xs).length NUL = (x :: xs) ++ NUL :: rest := by
      simp
    have hcs := cstr_trimTrailing (x :: xs) rest (fun c hc => (hL c hc).2.2)
    refine ⟨trimTrailing ((x :: xs) ++ NUL :: rest) (x :: xs).length, ?_, ?_⟩
    · rw [trimTrailing_length]
      have : (r :: rest).length = 256 - (x :: xs).length := by rw [← hrest, hd]
      simp only [List.length_append, List.length_cons] at this ⊢
      omega
    · have hpos : 0 < (x :: xs).length := by simp
      simp only [telnetLoop, List.foldl_cons, List.foldl_nil, telnetByte, htt, if_true, hpos,
        hset, hcs]
      by_cases he : (x :: xs).rdropWhile isspace = []
      · simp [he]
      · have : 0 < ((x :: xs).rdropWhile isspace).length := List.length_pos.mpr he
        simp [he, this]

theorem telnetByte_terminator_empty {σ : Type} (parse : List Char → σ → σ) (t : TelnetLoop σ)
    (c : Char) (hc : c = '\n' ∨ c = '\r') (hpos : t.bufferPos = 0) : telnetByte parse t c = t := by
  simp [telnetByte, hc, hpos]

/-- What one call of the decoder returns for a complete line, for any line handler. -/
theorem readTelnetWith_line {σ : Type} (parse : List Char → σ → σ) (d : LineDecoder) (L : List Char)
    (t : Char) (st : σ) (hpos : d.bufferPos = 0) (hbuf : d.lineBuffer.length = 256)
    (hlen : L.length ≤ 255) (hL : ∀ c ∈ L, c ≠ '\n' ∧ c ≠ '\r' ∧ c ≠ NUL)
    (ht : t = '\n' ∨ t = '\r') :
    (readTelnetWith parse d st (L ++ [t])).1.bufferPos = 0 ∧
    (readTelnetWith parse d st (L ++ [t])).2.1 =
      (if L.rdropWhile isspace = [] then st else parse (L.rdropWhile isspace) st) ∧
    ∀ t2 : Char, t2 = '\n' ∨ t2 = '\r' →
      readTelnetWith parse d st (L ++ [t, t2]) = readTelnetWith parse d st (L ++ [t]) := by
  obtain ⟨B, _, hB⟩ := telnetLoop_line parse d.lineBuffer L t st false hbuf hlen hL ht
  refine ⟨?_, ?_, ?_⟩
  · simp only [readTelnetWith, hpos, hB]
  · simp only [readTelnetWith, hpos, hB]
  · intro t2 ht2
    have e : L ++ [t, t2] = (L ++ [t]) ++ [t2] := by simp
    simp only [readTelnetWith, hpos, e, telnetLoop_append, hB]
    simp only [telnetLoop, List.foldl_cons, List.foldl_nil]
    rw [telnetByte_terminator_empty parse _ t2 ht2 rfl]

/-- C6: from an empty line buffer, a line L of at most 255 bytes without LF, CR
or NUL, followed by one terminator, is handed to parseSpot exactly once, as L
without its trailing white space, when that is non-empty, and is not handed on
when L is empty or all white space; the buffer is empty afterwards, and a
second terminator right after the first (CR LF) changes nothing: the line is
delivered once. -/
theorem C6_readTelnetSpots_line (atof : List Char → CFloat) (d : LineDecoder)
    (state : ApplicationState) (L : List Char) (t : Char)
    (hpos : d.bufferPos = 0) (hbuf : d.lineBuffer.length = 256) (hlen : L.length ≤ 255)
    (hL : ∀ c ∈ L, c ≠ '\n' ∧ c ≠ '\r' ∧ c ≠ NUL) (ht : t = '\n' ∨ t = '\r') :
    (readTelnetSpots atof d state (L ++ [t])).1.bufferPos = 0 ∧
    (L.rdropWhile isspace ≠ [] →
      linesHanded d (L ++ [t]) = [L.rdropWhile isspace] ∧
      (readTelnetSpots atof d state (L ++ [t])).2.1 = parseSpot atof (L.rdropWhile isspace) state) ∧
    ((∀ c ∈ L, isspace c = true) →
      linesHanded d (L ++ [t]) = [] ∧ (readTelnetSpots atof d state (L ++ [t])).2.1 = state) ∧
    linesHanded d (L ++ ['\r', '\n']) = linesHanded d (L ++ ['\r']) ∧
    readTelnetSpots atof d state (L ++ ['\r', '\n']) = readTelnetSpots atof d state (L ++ ['\r']) := by
  have h1 := readTelnetWith_line (parseSpot atof) d L t state hpos hbuf hlen hL ht
  have h2 := readTelnetWith_line (fun line acc => acc ++ [line]) d L t [] hpos hbuf hlen hL ht
  have h3 := readTelnetWith_line (parseSpot atof) d L '\r' state hpos hbuf hlen hL (Or.inr rfl)
  have h4 := readTelnetWith_line (fun line acc => acc ++ [line]) d L '\r' [] hpos hbuf hlen hL
    (Or.inr rfl)
  refine ⟨h1.1, ?_, ?_, ?_, ?_⟩
  · intro hne
    refine ⟨?_, ?_⟩
    · simp only [linesHanded, h2.2.1, if_neg hne, List.nil_append]
    · simp only [readTelnetSpots, h1.2.1, if_neg hne]
  · intro hall
    have he : L.rdropWhile isspace = [] := List.rdropWhile_eq_nil_iff.mpr hall
    refine ⟨?_, ?_⟩
    · simp only [linesHanded, h2.2.1, if_pos he]
    · simp only [readTelnetSpots, h1.2.1, if_pos he]
  · simp only [linesHanded, h4.2.2 '\n' (Or.inl rfl)]
  · simp only [readTelnetSpots, h3.2.2 '\n' (Or.inl rfl)]

theorem C6_readTelnetSpots_line_witness :
    linesHanded decoder0 ("CQ DX  ".toList ++ ['\r', '\n']) = linesHanded decoder0 ("CQ DX  ".toList ++ ['\r']) ∧
    linesHanded decoder0 ("CQ DX  ".toList ++ ['\r']) = ["CQ DX".toList] :=
  ⟨(C6_readTelnetSpots_line atofZero decoder0 state0 "CQ DX  ".toList '\r' rfl
      (List.length_replicate 256 NUL) (by decide) (by decide) (Or.inr rfl)).2.2.2.1,
    ((C6_readTelnetSpots_line atofZero decoder0 state0 "CQ DX  ".toList '\r' rfl
      (List.length_replicate 256 NUL) (by decide) (by decide) (Or.inr rfl)).2.1 (by decide)).1⟩

theorem telnetByte_samePersistent {σ : Type} (parse : List Char → σ → σ) (t u : TelnetLoop σ)
    (c : Char) (h : samePersistent t u) :
    samePersistent (telnetByte parse t c) (telnetByte parse u c) := by
  obtain ⟨h1, h2, h3⟩ := h
  unfold telnetByte
  rw [h1, h2, h3]
  simp only []
  split
  · split
    · split
      · exact ⟨rfl, rfl, rfl⟩
      · exact ⟨rfl, rfl, rfl⟩
    · exact ⟨h1, h2, h3⟩
  · split
    · exact ⟨rfl, rfl, rfl⟩
    · exact ⟨h1, h2, h3⟩

theorem telnetLoop_samePersistent {σ : Type} (parse : List Char → σ → σ) (avail : List Char) :
    ∀ t u : TelnetLoop σ, samePersistent t u →
      samePersistent (telnetLoop parse t avail) (telnetLoop parse u avail) := by
  induction avail with
  | nil => intro t u h; exact h
  | cons c cs ih =>
    intro t u h
    exact ih _ _ (telnetByte_samePersistent parse t u c h)

/-- C7: the line decoder is resumable. For every decoder state, application
state and byte sequences a and b, one call of readTelnetSpots that drains
a ++ b leaves the same line buffer, buffer position and application state
(spots array, spotCount and latestSpotIndex included) as a call that drains a
followed by a call that drains b. -/
theorem C7_readTelnetSpots_resumable (atof : List Char → CFloat) (d : LineDecoder)
    (state : ApplicationState) (a b : List Char) :
    (readTelnetSpots atof d state (a ++ b)).1 =
      (readTelnetSpots atof (readTelnetSpots atof d state a).1
        (readTelnetSpots atof d state a).2.1 b).1 ∧
    (readTelnetSpots atof d state (a ++ b)).2.1 =
      (readTelnetSpots atof (readTelnetSpots atof d state a).1
        (readTelnetSpots atof d state a).2.1 b).2.1 := by
  have h := telnetLoop_samePersistent (parseSpot atof) b
    (telnetLoop (parseSpot atof)
      { lineBuffer := d.lineBuffer, bufferPos := d.bufferPos, state := state,
        newSpotReceived := false } a)
    { lineBuffer := (telnetLoop (parseSpot atof)
        { lineBuffer := d.lineBuffer, bufferPos := d.bufferPos, state := state,
          newSpotReceived := false } a).lineBuffer,
      bufferPos := (telnetLoop (parseSpot atof)
        { lineBuffer := d.lineBuffer, bufferPos := d.bufferPos, state := state,
          newSpotReceived := false } a).bufferPos,
      state := (telnetLoop (parseSpot atof)
        { lineBuffer := d.lineBuffer, bufferPos := d.bufferPos, state := state,
          newSpotReceived := false } a).state,
      newSpotReceived := false } ⟨rfl, rfl, rfl⟩
  obtain ⟨h1, h2, h3⟩ := h
  simp only [readTelnetSpots, readTelnetWith, telnetLoop_append]
  exact ⟨by rw [h1, h2], h3⟩

theorem telnetByte_bounds {σ : Type} (parse : List Char → σ → σ) (t : TelnetLoop σ) (c : Char)
    (hpos : t.bufferPos ≤ 255) (hbuf : t.lineBuffer.length = 256) :
    (telnetByte parse t c).bufferPos ≤ 255 ∧ (telnetByte parse t c).lineBuffer.length = 256 := by
  unfold telnetByte
  simp only [TELNET_LINE_BUFFER_SIZE]
  split
  · split
    · split
      · exact ⟨by simp, by simp [trimTrailing_length, hbuf]⟩
      · exact ⟨by simp, by simp [trimTrailing_length, hbuf]⟩
    · exact ⟨hpos, hbuf⟩
  · split
    · rename_i h
      exact ⟨by simp only []; omega, by simp [hbuf]⟩
    · exact ⟨hpos, hbuf⟩

theorem telnetLoop_bounds {σ : Type} (parse : List Char → σ → σ) (avail : List Char) :
    ∀ t : TelnetLoop σ, t.bufferPos ≤ 255 → t.lineBuffer.length = 256 →
      (telnetLoop parse t avail).bufferPos ≤ 255 ∧
      (telnetLoop parse t avail).lineBuffer.length = 256 := by
  induction avail with
  | nil => intro t h1 h2; exact ⟨h1, h2⟩
  | cons c cs ih =>
    intro t h1 h2
    obtain ⟨h3, h4⟩ := telnetByte_bounds parse t c h1 h2
    exact ih _ h3 h4

/-- With the buffer full, bytes other than terminators are dropped. -/
theorem telnetLoop_full {σ : Type} (parse : List Char → σ → σ) (X : List Char) :
    ∀ t : TelnetLoop σ, t.bufferPos = 255 → (∀ c ∈ X, c ≠ '\n' ∧ c ≠ '\r') →
      telnetLoop parse t X = t := by
  induction X with
  | nil => intro t _ _; rfl
  | cons c cs ih =>
    intro t hpos hX
    have hc := hX c (by simp)
    have hstep : telnetByte parse t c = t := by
      simp [telnetByte, hc.1, hc.2, hpos, TELNET_LINE_BUFFER_SIZE]
    simp only [telnetLoop, List.foldl_cons, hstep]
    exact ih t hpos (fun x hx => hX x (by simp [hx]))

/-- A line of more than 255 bytes is decoded as its first 255 bytes. -/
theorem telnetLoop_overlong {σ : Type} (parse : List Char → σ → σ) (buf0 L : List Char)
    (st : σ) (flag : Bool) (hbuf : buf0.length = 256) (hlen : 255 < L.length)
    (hL : ∀ c ∈ L, c ≠ '\n' ∧ c ≠ '\r') :
    telnetLoop parse
        { lineBuffer := buf0, bufferPos := 0, state := st, newSpotReceived := flag } L
      = telnetLoop parse
        { lineBuffer := buf0, bufferPos := 0, state := st, newSpotReceived := flag }
        (L.take 255) := by
  have hsplit : L = L.take 255 ++ L.drop 255 := (List.take_append_drop 255 L).symm
  have htl : (L.take 255).length = 255 := by rw [List.length_take]; omega
  have hfeed := telnetLoop_feed parse (L.take 255) [] buf0 st flag
    (fun c hc => hL c (List.mem_of_mem_take hc)) (by simp only [List.length_nil]; omega)
    (by omega)
  simp only [List.nil_append, List.length_nil, Nat.zero_add] at hfeed
  conv_lhs => rw [hsplit]
  rw [telnetLoop_append, hfeed]
  exact telnetLoop_full parse _ _ htl (fun c hc => hL c (List.mem_of_mem_drop hc))

theorem readTelnetWith_overlong {σ : Type} (parse : List Char → σ → σ) (d : LineDecoder)
    (L rest : List Char) (t : Char) (st : σ) (hpos : d.bufferPos = 0)
    (hbuf : d.lineBuffer.length = 256) (hlen : 255 < L.length)
    (hL : ∀ c ∈ L, c ≠ '\n' ∧ c ≠ '\r') :
    readTelnetWith parse d st (L ++ t :: rest) = readTelnetWith parse d st (L.take 255 ++ t :: rest) := by
  simp only [readTelnetWith, hpos, telnetLoop_append,
    telnetLoop_overlong parse d.lineBuffer L st false hbuf hlen hL]

theorem telnetByte_terminator_pos {σ : Type} (parse : List Char → σ → σ) (t : TelnetLoop σ)
    (c : Char) (hc : c = '\n' ∨ c = '\r') : (telnetByte parse t c).bufferPos = 0 := by
  unfold telnetByte
  simp only [hc, if_true]
  split
  · split <;> rfl
  · omega

/-- C8: in every state reached by feeding bytes to readTelnetSpots the buffer
position is at most 255 and the buffer keeps its 256 bytes, so each write
(at the position, or below it when trimming) is in bounds. When more than 255
bytes other than terminators arrive before a terminator, the call behaves as
if only the first 255 of them had arrived: the same line is handed on, the
other bytes of the line are dropped, the position is 0 after the terminator
and the bytes after it are decoded as a fresh line. -/
theorem C8_line_buffer_bounds (atof : List Char → CFloat) (d : LineDecoder)
    (state : ApplicationState) (avail : List Char)
    (hpos : d.bufferPos ≤ 255) (hbuf : d.lineBuffer.length = 256) :
    ((readTelnetSpots atof d state avail).1.bufferPos ≤ 255 ∧
      (readTelnetSpots atof d state avail).1.lineBuffer.length = 256) ∧
    ∀ (L rest : List Char) (t : Char), d.bufferPos = 0 → 255 < L.length →
      (∀ c ∈ L, c ≠ '\n' ∧ c ≠ '\r') → (t = '\n' ∨ t = '\r') →
      readTelnetSpots atof d state (L ++ t :: rest)
        = readTelnetSpots atof d state (L.take 255 ++ t :: rest) ∧
      linesHanded d (L ++ t :: rest) = linesHanded d (L.take 255 ++ t :: rest) ∧
      (readTelnetSpots atof d state (L ++ [t])).1.bufferPos = 0 ∧
      ((∀ c ∈ L.take 255, c ≠ NUL) →
        linesHanded d (L ++ [t]) =
          if (L.take 255).rdropWhile isspace = [] then []
          else [(L.take 255).rdropWhile isspace]) := by
  refine ⟨?_, ?_⟩
  · exact telnetLoop_bounds (parseSpot atof) avail _ hpos hbuf
  · intro L rest t h0 hlen hL ht
    refine ⟨readTelnetWith_overlong (parseSpot atof) d L rest t state h0 hbuf hlen hL,
      ?_, ?_, ?_⟩
    · simp only [linesHanded,
        readTelnetWith_overlong (fun line acc => acc ++ [line]) d L rest t [] h0 hbuf hlen hL]
    · simp only [readTelnetSpots, readTelnetWith, telnetLoop_append]
      exact telnetByte_terminator_pos _ _ t ht
    · intro hnul
      have htl : (L.take 255).length ≤ 255 := by rw [List.length_take]; omega
      have h := readTelnetWith_line (fun line acc => acc ++ [line]) d (L.take 255) t [] h0 hbuf
        htl (fun c hc => ⟨(hL c (List.mem_of_mem_take hc)).1, (hL c (List.mem_of_mem_take hc)).2,
          hnul c hc⟩) ht
      simp only [linesHanded,
        readTelnetWith_overlong (fun line acc => acc ++ [line]) d L [] t [] h0 hbuf hlen hL,
        h.2.1, List.nil_append]

theorem C8_line_buffer_bounds_witness :
    linesHanded decoder0 (List.replicate 300 'x' ++ ['\n']) =
      if ((List.replicate 300 'x').take 255).rdropWhile isspace = [] then []
      else [((List.replicate 300 'x').take 255).rdropWhile isspace] :=
  ((C8_line_buffer_bounds atofZero decoder0 state0 [] (Nat.zero_le 255)
      (List.length_replicate 256 NUL)).2 (List.replicate 300 'x') [] '\n' rfl
    (by rw [List.length_replicate]; decide)
    (fun c hc => by rw [List.eq_of_mem_replicate hc]; decide) (Or.inl rfl)).2.2.2
    (fun c hc => by rw [List.eq_of_mem_replicate (List.mem_of_mem_take hc)]; decide)


/-! ## Theorems: propagation parser -/

theorem strchr_suffix (s : List Char) (c : Char) (r : List Char) (h : strchr s c = some r) :
    r <:+ s := by
  induction s with
  | nil => simp [strchr] at h
  | cons x xs ih =>
    unfold strchr at h
    split at h
    · cases h; exact List.suffix_refl _
    · exact (ih h).trans (List.suffix_cons x xs)

theorem handleBandTag_suffix {beyond : List Char} (p : List Char) (s : ApplicationState) :
    (handleBandTag beyond p s).1 <:+ p := by
  unfold handleBandTag
  cases h : strchr p '>' with
  | none => exact List.suffix_refl _
  | some e =>
    exact ((List.drop_suffix _ _).trans (List.drop_suffix 1 e)).trans (strchr_suffix p _ e h)

theorem handlePhenomenonTag_suffix {beyond : List Char} (p : List Char) (s : ApplicationState) :
    (handlePhenomenonTag beyond p s).1 <:+ p := by
  unfold handlePhenomenonTag
  cases h : strchr p '>' with
  | none => exact List.suffix_refl _
  | some e =>
    exact ((List.drop_suffix _ _).trans (List.drop_suffix 1 e)).trans (strchr_suffix p _ e h)

/-- The position returned by parseTag is at or after the position it was given. -/
theorem parseSimpleTag_suffix (tagName p : List Char) (s : ApplicationState) :
    (parseSimpleTag tagName p s).1 <:+ p := by
  unfold parseSimpleTag
  refine (List.drop_suffix _ _).trans ?_
  have h2 : (List.dropWhile (fun c => c != '>') p) <:+ p := List.dropWhile_suffix _
  split
  · exact (List.drop_suffix 1 _).trans h2
  · exact h2

theorem parseTag_suffix {beyond : List Char} (p : List Char) (s : ApplicationState) : (parseTag beyond p s).1 <:+ p := by
  unfold parseTag
  dsimp only
  split
  · exact (handleBandTag_suffix _ s).trans (List.drop_suffix _ _)
  · split
    · exact (handlePhenomenonTag_suffix _ s).trans (List.drop_suffix _ _)
    · exact (parseSimpleTag_suffix _ _ s).trans (List.drop_suffix _ _)

theorem parseTag_length {beyond : List Char} (p : List Char) (s : ApplicationState) :
    (parseTag beyond p s).1.length ≤ p.length := (parseTag_suffix p s).length_le

/-- The loop of parse needs no more iterations than the payload has characters. -/
theorem parseLoop_fuel {beyond : List Char} (n : Nat) : ∀ (m : Nat) (p : List Char) (s : ApplicationState),
    p.length ≤ n → p.length ≤ m → parseLoop beyond n p s = parseLoop beyond m p s := by
  induction n with
  | zero =>
    intro m p s hn _
    have : p = [] := List.length_eq_zero.mp (Nat.le_zero.mp hn)
    subst this
    cases m <;> rfl
  | succ n ih =>
    intro m p s hn hm
    cases p with
    | nil => cases m <;> rfl
    | cons c rest =>
      cases m with
      | zero => simp at hm
      | succ m =>
        simp only [List.length_cons, Nat.add_le_add_iff_right] at hn hm
        simp only [parseLoop]
        split
        · exact ih m _ _ ((parseTag_length rest s).trans hn) ((parseTag_length rest s).trans hm)
        · exact ih m _ _ hn hm

/-- An invariant of the state that every tag at a position of the payload
(just after an opening angle bracket) preserves holds after the loop. -/
theorem parseLoop_inv {beyond : List Char} (x : List Char) (Inv : ApplicationState → Prop)
    (hstep : ∀ (rest : List Char) (s : ApplicationState), ('<' :: rest) <:+ x → Inv s →
      Inv (parseTag beyond rest s).2) :
    ∀ (fuel : Nat) (p : List Char) (s : ApplicationState), p <:+ x → Inv s →
      Inv (parseLoop beyond fuel p s) := by
  intro fuel
  induction fuel with
  | zero => intro p s _ hs; cases p <;> exact hs
  | succ n ih =>
    intro p s hp hs
    cases p with
    | nil => exact hs
    | cons c rest =>
      have hrest : rest <:+ x := (List.suffix_cons c rest).trans hp
      simp only [parseLoop]
      split
      · rename_i hc
        have hp2 : ('<' :: rest) <:+ x := by rw [← hc.1]; exact hp
        exact ih _ _ ((parseTag_suffix rest s).trans hrest) (hstep rest s hp2 hs)
      · exact ih _ _ hrest hs


theorem readTagName_prefix (p : List Char) : readTagName p <+: p :=
  (List.take_prefix _ _).trans (List.takeWhile_prefix _)

/-- A payload without the text of an opening tag holds no such tag. -/
theorem not_hasTag_of_not_infix (x name : List Char) (h : ¬ ('<' :: name) <:+: x) :
    ¬ hasTag x name := by
  rintro ⟨rest, hsuf, hname⟩
  apply h
  have hp : ('<' :: name) <+: ('<' :: rest) := by
    rw [← hname]
    obtain ⟨t, ht⟩ := readTagName_prefix rest
    exact ⟨t, by rw [List.cons_append, ht]⟩
  exact hp.isInfix.trans hsuf.isInfix

theorem storeBand_same (name time : List Char) (c : PropagationCondition)
    (s1 s2 : ApplicationState) (h : sameConditions s1 s2) :
    sameConditions (storeBand name time c s1) (storeBand name time c s2) := by
  obtain ⟨h1, h2⟩ := h
  unfold storeBand
  split_ifs <;> simp [sameConditions, setPropagation, h1, h2]

theorem handleBandTag_same {beyond : List Char} (p : List Char) (s1 s2 : ApplicationState)
    (h : sameConditions s1 s2) :
    (handleBandTag beyond p s1).1 = (handleBandTag beyond p s2).1 ∧
    sameConditions (handleBandTag beyond p s1).2 (handleBandTag beyond p s2).2 := by
  unfold handleBandTag
  cases strchr p '>' with
  | none => exact ⟨rfl, h⟩
  | some e => exact ⟨rfl, storeBand_same _ _ _ s1 s2 h⟩

theorem handlePhenomenonTag_same {beyond : List Char} (p : List Char) (s1 s2 : ApplicationState)
    (h : sameConditions s1 s2) :
    (handlePhenomenonTag beyond p s1).1 = (handlePhenomenonTag beyond p s2).1 ∧
    sameConditions (handlePhenomenonTag beyond p s1).2 (handlePhenomenonTag beyond p s2).2 := by
  obtain ⟨h1, h2⟩ := h
  unfold handlePhenomenonTag
  cases strchr p '>' with
  | none => exact ⟨rfl, h1, h2⟩
  | some e => exact ⟨rfl, by simp [h1], by simp [h2]⟩

theorem assignContent_conditions (tagName start : List Char) (sd : SolarPropagationData) :
    (assignContent tagName start sd).propagation = sd.propagation ∧
    (assignContent tagName start sd).vhf = sd.vhf := by
  unfold assignContent
  split_ifs <;> exact ⟨rfl, rfl⟩

theorem parseSimpleTag_same (tagName p : List Char) (s1 s2 : ApplicationState)
    (h : sameConditions s1 s2) :
    (parseSimpleTag tagName p s1).1 = (parseSimpleTag tagName p s2).1 ∧
    sameConditions (parseSimpleTag tagName p s1).2 (parseSimpleTag tagName p s2).2 := by
  obtain ⟨h1, h2⟩ := h
  unfold parseSimpleTag
  refine ⟨rfl, ?_, ?_⟩
  · simp only [(assignContent_conditions _ _ _).1, h1]
  · simp only [(assignContent_conditions _ _ _).2, h2]

theorem parseTag_same {beyond : List Char} (p : List Char) (s1 s2 : ApplicationState) (h : sameConditions s1 s2) :
    (parseTag beyond p s1).1 = (parseTag beyond p s2).1 ∧
    sameConditions (parseTag beyond p s1).2 (parseTag beyond p s2).2 := by
  unfold parseTag
  dsimp only
  split
  · exact handleBandTag_same _ s1 s2 h
  · split
    · exact handlePhenomenonTag_same _ s1 s2 h
    · exact parseSimpleTag_same _ _ s1 s2 h

theorem parseLoop_same {beyond : List Char} (fuel : Nat) : ∀ (p : List Char) (s1 s2 : ApplicationState),
    sameConditions s1 s2 → sameConditions (parseLoop beyond fuel p s1) (parseLoop beyond fuel p s2) := by
  induction fuel with
  | zero => intro p s1 s2 h; cases p <;> exact h
  | succ n ih =>
    intro p s1 s2 h
    cases p with
    | nil => exact h
    | cons c rest =>
      simp only [parseLoop]
      split
      · rw [(parseTag_same rest s1 s2 h).1]
        exact ih _ _ _ (parseTag_same rest s1 s2 h).2
      · exact ih _ _ _ h

/-- A tag other than band leaves the condition array alone. -/
theorem parseTag_propagation {beyond : List Char} (p : List Char) (s : ApplicationState)
    (h : readTagName p ≠ "band".toList) :
    (parseTag beyond p s).2.solarData.propagation = s.solarData.propagation := by
  unfold parseTag
  dsimp only
  rw [if_neg h]
  split
  · unfold handlePhenomenonTag
    cases strchr _ '>' <;> rfl
  · unfold parseSimpleTag
    exact (assignContent_conditions _ _ _).1

theorem parse_propagation_no_band {beyond : List Char} (x : List Char) (s : ApplicationState)
    (h : ¬ hasTag x "band".toList) :
    (parse beyond x s).solarData.propagation = List.replicate 8 PropagationCondition.UNKNOWN := by
  unfold parse
  refine parseLoop_inv x
    (fun st => st.solarData.propagation = List.replicate 8 PropagationCondition.UNKNOWN)
    ?_ x.length x (resetPropagation s) (List.suffix_refl x) rfl
  intro rest st hsuf hst
  have hne : readTagName rest ≠ "band".toList := fun e => h ⟨rest, hsuf, e⟩
  show (parseTag beyond rest st).2.solarData.propagation = _
  rw [parseTag_propagation rest st hne]
  exact hst

/-- C9 (fails on the code): a slot whose band tag the second payload omits is
not always UNKNOWN after the second parse, and the conditions are not a
function of the payload alone. After a first payload with a band tag for slot
0, a second payload whose only band tags are one without a time attribute and
one for slot 1 leaves slot 0 GOOD, and one whose band tags are one without a
name attribute and one for slot 4 leaves slot 0 POOR: getAttrValue searches to
the end of the payload and takes the missing attribute from the later tag. On
the payload that ends with the text name after a band tag with a time but no
name, the name is read from the memory after the terminator, so slot 0 is GOOD
with one content of that memory and UNKNOWN with another, from the same prior
state. What does hold: with the same memory after the payload the condition
array and the VHF strings do not depend on the prior state, and a payload
without any band tag leaves all eight slots UNKNOWN whatever an earlier
payload stored. -/
theorem C9_omitted_band_slot_written :
    (∀ beyond : List Char,
      (parse beyond "<band name=\"80m-40m\" time=\"day\">Good</band>".toList
          state0).solarData.propagation[0]? = some PropagationCondition.GOOD ∧
      (parse beyond
          "<band name=\"80m-40m\">Good</band><band name=\"30m-20m\" time=\"day\">Fair</band>".toList
          (parse beyond "<band name=\"80m-40m\" time=\"day\">Good</band>".toList
            state0)).solarData.propagation
        = [PropagationCondition.GOOD, PropagationCondition.FAIR, PropagationCondition.UNKNOWN,
           PropagationCondition.UNKNOWN, PropagationCondition.UNKNOWN,
           PropagationCondition.UNKNOWN, PropagationCondition.UNKNOWN,
           PropagationCondition.UNKNOWN] ∧
      (parse beyond
          "<band time=\"day\">Poor</band><band name=\"80m-40m\" time=\"night\">Fair</band>".toList
          (parse beyond "<band name=\"80m-40m\" time=\"day\">Good</band>".toList
            state0)).solarData.propagation
        = [PropagationCondition.POOR, PropagationCondition.UNKNOWN, PropagationCondition.UNKNOWN,
           PropagationCondition.UNKNOWN, PropagationCondition.FAIR,
           PropagationCondition.UNKNOWN, PropagationCondition.UNKNOWN,
           PropagationCondition.UNKNOWN]) ∧
    "<band time=\"day\">Good</band>name".toList.length = 32 ∧
    getAttrValueFirstRead 32 " time=\"day\">Good</band>name".toList "name".toList = some 34 ∧
    (parse "?80m-40m".toList "<band time=\"day\">Good</band>name".toList
        state0).solarData.propagation
      = [PropagationCondition.GOOD, PropagationCondition.UNKNOWN, PropagationCondition.UNKNOWN,
         PropagationCondition.UNKNOWN, PropagationCondition.UNKNOWN, PropagationCondition.UNKNOWN,
         PropagationCondition.UNKNOWN, PropagationCondition.UNKNOWN] ∧
    (parse [] "<band time=\"day\">Good</band>name".toList state0).solarData.propagation
      = List.replicate 8 PropagationCondition.UNKNOWN ∧
    (∀ (beyond x : List Char) (s1 s2 : ApplicationState),
      (parse beyond x s1).solarData.propagation = (parse beyond x s2).solarData.propagation ∧
      (parse beyond x s1).solarData.vhf = (parse beyond x s2).solarData.vhf) ∧
    (∀ (beyond x1 x2 : List Char) (s : ApplicationState), ¬ hasTag x2 "band".toList →
      (parse beyond x2 (parse beyond x1 s)).solarData.propagation
        = List.replicate 8 PropagationCondition.UNKNOWN) := by
  refine ⟨fun beyond => ⟨rfl, rfl, rfl⟩, by decide, by decide, by decide, by decide, ?_, ?_⟩
  · intro beyond x s1 s2
    exact parseLoop_same x.length x (resetPropagation s1) (resetPropagation s2) ⟨rfl, rfl⟩
  · intro beyond x1 x2 s h
    exact parse_propagation_no_band x2 _ h

theorem assignContent_other (tagName start : List Char) (sd : SolarPropagationData)
    (h : ∀ k ∈ scalarTags, tagName ≠ k.toList) : assignContent tagName start sd = sd := by
  unfold assignContent
  rw [if_neg (h "solarflux" (by decide)), if_neg (h "aindex" (by decide)),
    if_neg (h "kindex" (by decide)), if_neg (h "sunspots" (by decide)),
    if_neg (h "xray" (by decide)), if_neg (h "geomagfield" (by decide)),
    if_neg (h "signalnoise" (by decide))]

theorem storeBand_scalars (name time : List Char) (c : PropagationCondition)
    (s : ApplicationState) :
    scalarFields (storeBand name time c s).solarData = scalarFields s.solarData := by
  unfold storeBand
  split_ifs <;> rfl

/-- A tag that is none of the seven scalar tags leaves the scalar fields alone. -/
theorem parseTag_scalars {beyond : List Char} (p : List Char) (s : ApplicationState)
    (h : ∀ k ∈ scalarTags, readTagName p ≠ k.toList) :
    scalarFields (parseTag beyond p s).2.solarData = scalarFields s.solarData := by
  unfold parseTag
  dsimp only
  split
  · unfold handleBandTag
    cases strchr _ '>' with
    | none => rfl
    | some e => exact storeBand_scalars _ _ _ s
  · split
    · unfold handlePhenomenonTag
      cases strchr _ '>' <;> rfl
    · unfold parseSimpleTag
      dsimp only
      rw [assignContent_other _ _ _ h]

theorem C10_scalars_not_reset_counterexample :
    state0.solarData.solarFlux = 0 ∧ state0.solarData.xray = [] ∧
    (parse [] "<solarflux>150</solarflux><xray>M1.2</xray>".toList state0).solarData.solarFlux = 150 ∧
    (parse [] [] (parse [] "<solarflux>150</solarflux><xray>M1.2</xray>".toList
      state0)).solarData.solarFlux = 150 ∧
    (parse [] [] (parse [] "<solarflux>150</solarflux><xray>M1.2</xray>".toList
      state0)).solarData.xray = "M1.2".toList ∧
    ¬ ((parse [] [] (parse [] "<solarflux>150</solarflux><xray>M1.2</xray>".toList
        state0)).solarData.solarFlux = state0.solarData.solarFlux ∧
      (parse [] [] (parse [] "<solarflux>150</solarflux><xray>M1.2</xray>".toList
        state0)).solarData.xray = []) := by
  decide

/-- C10 (amended): the reset at the start of a parse covers the condition array
(UNKNOWN) and the four VHF strings (empty) and leaves the scalar fields as they
were; for every prior state and every payload that holds no solarflux, aindex,
kindex, sunspots, xray, geomagfield or signalnoise tag, solarFlux, aIndex,
kIndex, sunspots, xray, geomagneticField and signalNoiseLevel have after the
parse the values they had before it. -/
theorem C10_scalars_kept (beyond : List Char) (x : List Char) (s : ApplicationState)
    (h : ∀ k ∈ scalarTags, ¬ hasTag x k.toList) :
    (resetPropagation s).solarData.propagation = List.replicate 8 PropagationCondition.UNKNOWN ∧
    (resetPropagation s).solarData.vhf =
      { aurora := [], eSkipEurope2m := [], eSkipEurope4m := [], eSkipEurope6m := [] } ∧
    scalarFields (resetPropagation s).solarData = scalarFields s.solarData ∧
    (parse beyond x s).solarData.solarFlux = s.solarData.solarFlux ∧
    (parse beyond x s).solarData.aIndex = s.solarData.aIndex ∧
    (parse beyond x s).solarData.kIndex = s.solarData.kIndex ∧
    (parse beyond x s).solarData.sunspots = s.solarData.sunspots ∧
    (parse beyond x s).solarData.xray = s.solarData.xray ∧
    (parse beyond x s).solarData.geomagneticField = s.solarData.geomagneticField ∧
    (parse beyond x s).solarData.signalNoiseLevel = s.solarData.signalNoiseLevel := by
  have key : scalarFields (parse beyond x s).solarData = scalarFields s.solarData := by
    unfold parse
    refine parseLoop_inv x (fun st => scalarFields st.solarData = scalarFields s.solarData)
      ?_ x.length x (resetPropagation s) (List.suffix_refl x) rfl
    intro rest st hsuf hst
    have hne : ∀ k ∈ scalarTags, readTagName rest ≠ k.toList :=
      fun k hk e => h k hk ⟨rest, hsuf, e⟩
    show scalarFields (parseTag beyond rest st).2.solarData = _
    rw [parseTag_scalars rest st hne]
    exact hst
  simp only [scalarFields, Prod.mk.injEq] at key
  obtain ⟨k1, k2, k3, k4, k5, k6, k7⟩ := key
  exact ⟨rfl, rfl, rfl, k1, k2, k3, k4, k5, k6, k7⟩

theorem C10_scalars_kept_witness :
    (parse [] "<band name=\"80m-40m\" time=\"day\">Good</band>".toList
      (parse [] "<solarflux>150</solarflux>".toList state0)).solarData.solarFlux
      = (parse [] "<solarflux>150</solarflux>".toList state0).solarData.solarFlux :=
  (C10_scalars_kept [] "<band name=\"80m-40m\" time=\"day\">Good</band>".toList
    (parse [] "<solarflux>150</solarflux>".toList state0)
    (fun k hk => not_hasTag_of_not_infix _ _
      ((by decide : ∀ k ∈ scalarTags, ¬ ('<' :: k.toList) <:+:
        "<band name=\"80m-40m\" time=\"day\">Good</band>".toList) k hk))).2.2.2.1

/-! ## Theorems: condition values -/

theorem upper_letter_cases (c : Char) (h1 : 65 ≤ c.toNat) (h2 : c.toNat ≤ 90) :
    c ∈ "ABCDEFGHIJKLMNOPQRSTUVWXYZ".toList := by
  have h := Char.ofNat_toNat c
  generalize c.toNat = n at h h1 h2
  subst h
  interval_cases n <;> decide

theorem tolower_eq_iff (c d : Char) (hd : d ∈ "godfairp".toList) :
    tolower c = d ↔ c = d ∨ c = toupper d := by
  constructor
  · intro h
    by_cases hr : 65 ≤ c.toNat ∧ c.toNat ≤ 90
    · have hc := upper_letter_cases c hr.1 hr.2
      have key : ∀ x ∈ "ABCDEFGHIJKLMNOPQRSTUVWXYZ".toList, ∀ y ∈ "godfairp".toList,
          tolower x = y → x = y ∨ x = toupper y := by decide
      exact key c hc d hd h
    · left
      rw [tolower, if_neg hr] at h
      exact h
  · have k1 : ∀ y ∈ "godfairp".toList, tolower y = y ∧ tolower (toupper y) = y := by decide
    rintro (h | h)
    · rw [h]; exact (k1 d hd).1
    · rw [h]; exact (k1 d hd).2

theorem map_tolower_eq_iff (w : List Char) : ∀ v : List Char, (∀ d ∈ w, d ∈ "godfairp".toList) →
    (v.map tolower = w ↔ v ∈ caseVariants w) := by
  induction w with
  | nil => intro v _; simp [caseVariants]
  | cons d ds ih =>
    intro v hw
    have hd : d ∈ "godfairp".toList := hw d (by simp)
    have hds : ∀ x ∈ ds, x ∈ "godfairp".toList := fun x hx => hw x (by simp [hx])
    cases v with
    | nil => simp [caseVariants]
    | cons c cs =>
      simp only [List.map_cons, List.cons.injEq, caseVariants, List.mem_append, List.mem_map,
        tolower_eq_iff c d hd, ih cs hds]
      constructor
      · rintro ⟨h | h, hcs⟩
        · exact Or.inl ⟨cs, hcs, h.symm, rfl⟩
        · exact Or.inr ⟨cs, hcs, h.symm, rfl⟩
      · rintro (⟨a, ha, e1, e2⟩ | ⟨a, ha, e1, e2⟩)
        · exact ⟨Or.inl e1.symm, e2 ▸ ha⟩
        · exact ⟨Or.inr e1.symm, e2 ▸ ha⟩

/-- The lower-cased 15-character copy made by toConditionValue equals a word
of four letters exactly for the case variants of the word. -/
theorem lowerVal_eq_iff (w v : List Char) (hw : ∀ d ∈ w, d ∈ "godfairp".toList)
    (hlen : w.length = 4) : (strlcpy v 16).map tolower = w ↔ v ∈ caseVariants w := by
  rw [← map_tolower_eq_iff w v hw]
  constructor
  · intro h
    have hl : ((strlcpy v 16).map tolower).length = 4 := by rw [h, hlen]
    simp only [strlcpy, List.length_map, List.length_take] at hl
    have hv : v.take (16 - 1) = v := List.take_of_length_le (by omega)
    rw [strlcpy, hv] at h
    exact h
  · intro h
    have hl : (v.map tolower).length = 4 := by rw [h, hlen]
    simp only [List.length_map] at hl
    have hv : v.take (16 - 1) = v := List.take_of_length_le (by omega)
    rw [strlcpy, hv]
    exact h

/-- C12: toConditionValue gives GOOD, FAIR or POOR exactly for the strings that
equal good, fair or poor up to ASCII letter case, and UNKNOWN for every other
string; the empty string, a word with white space around it and every string
of 16 or more characters are UNKNOWN. -/
theorem C12_toConditionValue_table (v : List Char) :
    (toConditionValue v = PropagationCondition.GOOD ↔ v ∈ caseVariants "good".toList) ∧
    (toConditionValue v = PropagationCondition.FAIR ↔ v ∈ caseVariants "fair".toList) ∧
    (toConditionValue v = PropagationCondition.POOR ↔ v ∈ caseVariants "poor".toList) ∧
    (toConditionValue v = PropagationCondition.UNKNOWN ↔
      v ∉ caseVariants "good".toList ∧ v ∉ caseVariants "fair".toList ∧
      v ∉ caseVariants "poor".toList) ∧
    toConditionValue [] = PropagationCondition.UNKNOWN ∧
    toConditionValue " good".toList = PropagationCondition.UNKNOWN ∧
    toConditionValue "good ".toList = PropagationCondition.UNKNOWN ∧
    (16 ≤ v.length → toConditionValue v = PropagationCondition.UNKNOWN) := by
  have hg := lowerVal_eq_iff "good".toList v (by decide) rfl
  have hf := lowerVal_eq_iff "fair".toList v (by decide) rfl
  have hp := lowerVal_eq_iff "poor".toList v (by decide) rfl
  have main : (toConditionValue v = PropagationCondition.GOOD ↔ v ∈ caseVariants "good".toList) ∧
      (toConditionValue v = PropagationCondition.FAIR ↔ v ∈ caseVariants "fair".toList) ∧
      (toConditionValue v = PropagationCondition.POOR ↔ v ∈ caseVariants "poor".toList) ∧
      (toConditionValue v = PropagationCondition.UNKNOWN ↔
        v ∉ caseVariants "good".toList ∧ v ∉ caseVariants "fair".toList ∧
        v ∉ caseVariants "poor".toList) := by
    rw [← hg, ← hf, ← hp]
    unfold toConditionValue
    dsimp only
    have dgf : "good".toList ≠ "fair".toList := by decide
    have dgp : "good".toList ≠ "poor".toList := by decide
    have dfp : "fair".toList ≠ "poor".toList := by decide
    generalize List.map tolower (strlcpy v 16) = L
    generalize "good".toList = G at dgf dgp ⊢
    generalize "fair".toList = F at dgf dfp ⊢
    generalize "poor".toList = P at dgp dfp ⊢
    by_cases c1 : L = G
    · subst c1
      rw [if_pos rfl]
      exact ⟨by simp, by simp [dgf], by simp [dgp], by simp⟩
    · rw [if_neg c1]
      by_cases c2 : L = F
      · subst c2
        rw [if_pos rfl]
        exact ⟨by simp [c1], by simp, by simp [dfp], by simp⟩
      · rw [if_neg c2]
        by_cases c3 : L = P
        · subst c3
          rw [if_pos rfl]
          exact ⟨by simp [c1], by simp [c2], by simp, by simp⟩
        · rw [if_neg c3]
          exact ⟨by simp [c1], by simp [c2], by simp [c3], by simp [c1, c2, c3]⟩
  refine ⟨main.1, main.2.1, main.2.2.1, main.2.2.2, by decide, by decide, by decide, ?_⟩
  intro h16
  have hlen : ∀ w : List Char, w.length = 4 → v ∉ caseVariants w := by
    intro w hw hmem
    have key : ∀ (w : List Char) (u : List Char), u ∈ caseVariants w → u.length = w.length := by
      intro w
      induction w with
      | nil => intro u hu; simp [caseVariants] at hu; simp [hu]
      | cons d ds ih =>
        intro u hu
        simp only [caseVariants, List.mem_append, List.mem_map] at hu
        rcases hu with ⟨a, ha, rfl⟩ | ⟨a, ha, rfl⟩ <;> simp [ih a ha]
    have := key w v hmem
    omega
  exact main.2.2.2.mpr ⟨hlen _ rfl, hlen _ rfl, hlen _ rfl⟩

/-! ## Theorems: parsing one tag -/

theorem strstr_some_starts (hay needle r : List Char) (h : strstr hay needle = some r) :
    needle <+: r := by
  induction hay with
  | nil =>
    unfold strstr at h
    split at h
    · rename_i hn; cases h; rw [hn]
    · cases h
  | cons c cs ih =>
    unfold strstr at h
    split at h
    · rename_i hp; cases h; exact List.isPrefixOf_iff_prefix.mp hp
    · exact ih h

/-- A match found inside a text is still the first match when more text follows. -/
theorem strstr_append_of_some (P Q needle r : List Char) (h : strstr P needle = some r) :
    strstr (P ++ Q) needle = some (r ++ Q) := by
  induction P with
  | nil =>
    unfold strstr at h
    split at h
    · rename_i hn
      cases h
      subst hn
      cases Q <;> simp [strstr]
    · cases h
  | cons c cs ih =>
    unfold strstr at h
    split at h
    · rename_i hp
      cases h
      have : needle.isPrefixOf ((c :: cs) ++ Q) = true :=
        List.isPrefixOf_iff_prefix.mpr
          ((List.isPrefixOf_iff_prefix.mp hp).trans (List.prefix_append _ _))
      simp only [List.cons_append] at this ⊢
      simp [strstr, this]
    · rename_i hp
      have hlen : needle.length ≤ (c :: cs).length := by
        have h1 := (strstr_some_starts cs needle r h).length_le
        have h2 := (strstr_suffix cs needle r h).length_le
        simp only [List.length_cons]
        omega
      have hnp : ¬ needle.isPrefixOf (c :: (cs ++ Q)) = true := by
        intro hq
        apply hp
        have hq2 : needle <+: (c :: cs) ++ Q := List.isPrefixOf_iff_prefix.mp hq
        exact List.isPrefixOf_iff_prefix.mpr
          (List.prefix_of_prefix_length_le hq2 (List.prefix_append _ _) hlen)
      simp only [List.cons_append]
      unfold strstr
      rw [if_neg hnp]
      exact ih h

theorem takeWhile_append_of_stop (p : Char → Bool) (A Q : List Char)
    (h : ∃ a ∈ A, p a = false) : (A ++ Q).takeWhile p = A.takeWhile p := by
  induction A with
  | nil => obtain ⟨a, ha, _⟩ := h; cases ha
  | cons x xs ih =>
    simp only [List.cons_append, List.takeWhile_cons]
    by_cases hx : p x = true
    · simp only [hx, if_true]
      obtain ⟨a, ha, hpa⟩ := h
      rcases List.mem_cons.mp ha with e | e
      · rw [e, hx] at hpa; cases hpa
      · rw [ih ⟨a, e, hpa⟩]
    · simp only [hx, Bool.false_eq_true, if_false]

/-- An attribute whose value is closed by a quote inside p is read the same
whatever text follows p. -/
theorem getAttrValue_append {beyond : List Char} (P Q attrName : List Char) (len : Nat)
    (h : attrInside P attrName = true) :
    (getAttrValue beyond (P ++ Q) attrName [] len).2 = (getAttrValue beyond P attrName [] len).2 := by
  unfold attrInside at h
  cases hs : strstr P attrName with
  | none => rw [hs] at h; cases h
  | some r =>
    rw [hs] at h
    simp only [decide_eq_true_eq] at h
    have hk : attrName.length + 2 ≤ r.length := by
      by_contra hc
      rw [List.drop_eq_nil_of_le (by omega)] at h
      cases h
    have hk2 : attrName.length + 2 ≤ (r ++ Q).length := by
      rw [List.length_append]
      omega
    simp only [getAttrValue, hs, strstr_append_of_some P Q attrName r hs, if_pos hk, if_pos hk2]
    rw [List.drop_append_of_le_length hk]
    rw [takeWhile_append_of_stop _ _ Q ⟨'"', h, by decide⟩]

theorem takeWhile_take_content (X rest : List Char) (n : Nat) (hX : X.length ≤ n)
    (hlt : '<' ∉ X) :
    ((X ++ '<' :: rest).takeWhile (fun c => c != '<')).take n = X := by
  have h1 : ∀ a ∈ X, (fun c => c != '<') a = true := by
    intro a ha
    have : a ≠ '<' := fun e => hlt (e ▸ ha)
    simpa using this
  rw [List.takeWhile_append_of_pos h1]
  simp only [List.takeWhile_cons, bne_self_eq_false, Bool.false_eq_true, if_false,
    List.append_nil]
  exact List.take_of_length_le hX

/-- After the last tag the loop of parse only skips: text without an opening
tag leaves the state as it is. -/
theorem parseLoop_noOpenTag {beyond : List Char} (fuel : Nat) : ∀ (p : List Char) (s : ApplicationState),
    noOpenTag p → parseLoop beyond fuel p s = s := by
  induction fuel with
  | zero => intro p s _; cases p <;> rfl
  | succ n ih =>
    intro p s hp
    cases p with
    | nil => rfl
    | cons c rest =>
      have hrest : noOpenTag rest := fun r hr => hp r (hr.trans (List.suffix_cons c rest))
      simp only [parseLoop]
      split
      · rename_i hc
        have := hp rest (by rw [← hc.1])
        exact absurd this hc.2
      · exact ih rest s hrest

theorem noOpenTag_closing (t : List Char) (ht : '<' ∉ t) :
    noOpenTag ('<' :: '/' :: (t ++ ['>'])) := by
  intro rest hr
  rcases List.suffix_cons_iff.mp hr with e | h2
  · cases e; rfl
  · exfalso
    have hmem : '<' ∈ '/' :: (t ++ ['>']) := h2.subset (by simp)
    simp only [List.mem_cons, List.mem_append, List.mem_singleton] at hmem
    rcases hmem with e | e | e
    · exact absurd e (by decide)
    · exact ht e
    · rcases e with e | e
      · exact absurd e (by decide)
      · cases e

/-- The first step of parse on a payload that starts with an opening tag. -/
theorem parse_first_tag {beyond : List Char} (rest : List Char) (s : ApplicationState)
    (h : rest.head? ≠ some '/') :
    parse beyond ('<' :: rest) s =
      parseLoop beyond rest.length (parseTag beyond rest (resetPropagation s)).1
        (parseTag beyond rest (resetPropagation s)).2 := by
  simp only [parse, List.length_cons, parseLoop]
  rw [if_pos ⟨trivial, h⟩]

theorem readTagName_append (t rest : List Char) (c : Char) (hc : c = ' ' ∨ c = '>')
    (ht : ∀ x ∈ t, x ≠ ' ' ∧ x ≠ '>') (hlen : t.length ≤ 31) :
    readTagName (t ++ c :: rest) = t := by
  have h1 : ∀ a ∈ t, (fun c => c != ' ' && c != '>') a = true := by
    intro a ha
    simpa using ht a ha
  have h2 : (c != ' ' && c != '>') = false := by
    rcases hc with e | e <;> rw [e] <;> decide
  unfold readTagName
  rw [List.takeWhile_append_of_pos h1, List.takeWhile_cons, h2]
  simp only [Bool.false_eq_true, if_false, List.append_nil]
  exact List.take_of_length_le hlen

/-- The method handleBandTag on a well-formed tag: attributes A without a closing
bracket that hold name and time, then the content X and the rest of the payload. -/
theorem handleBandTag_eval {beyond : List Char} (A X S : List Char) (s : ApplicationState) (hA : '>' ∉ A)
    (h1 : attrInside A "name".toList = true) (h2 : attrInside A "time".toList = true)
    (hX : X.length ≤ 15) (hlt : '<' ∉ X) :
    handleBandTag beyond (A ++ '>' :: (X ++ '<' :: S)) s =
      ('<' :: S, storeBand (getAttrValue beyond A "name".toList [] 16).2
        (getAttrValue beyond A "time".toList [] 8).2 (toConditionValue X) s) := by
  unfold handleBandTag
  rw [strchr_append A _ '>' hA]
  simp only [List.drop_succ_cons, List.drop_zero]
  rw [getAttrValue_append A _ _ 16 h1, getAttrValue_append A _ _ 8 h2,
    takeWhile_take_content X S 15 hX hlt, List.drop_left]

/-- The parse of a payload that consists of one band tag. -/
theorem parse_band_payload {beyond : List Char} (A X : List Char) (s : ApplicationState) (hA : '>' ∉ ' ' :: A)
    (h1 : attrInside (' ' :: A) "name".toList = true)
    (h2 : attrInside (' ' :: A) "time".toList = true)
    (hX : X.length ≤ 15) (hlt : '<' ∉ X) :
    parse beyond ('<' :: ("band".toList ++ ' ' :: (A ++ '>' ::
        (X ++ '<' :: '/' :: ("band".toList ++ ['>']))))) s =
      storeBand (getAttrValue beyond (' ' :: A) "name".toList [] 16).2
        (getAttrValue beyond (' ' :: A) "time".toList [] 8).2 (toConditionValue X)
        (resetPropagation s) := by
  rw [parse_first_tag _ s (by simp)]
  have hname : readTagName ("band".toList ++ ' ' :: (A ++ '>' ::
      (X ++ '<' :: '/' :: ("band".toList ++ ['>'])))) = "band".toList :=
    readTagName_append _ _ ' ' (Or.inl rfl) (by decide) (by decide)
  have htag : parseTag beyond ("band".toList ++ ' ' :: (A ++ '>' ::
      (X ++ '<' :: '/' :: ("band".toList ++ ['>'])))) (resetPropagation s) =
      ('<' :: '/' :: ("band".toList ++ ['>']),
        storeBand (getAttrValue beyond (' ' :: A) "name".toList [] 16).2
          (getAttrValue beyond (' ' :: A) "time".toList [] 8).2 (toConditionValue X)
          (resetPropagation s)) := by
    unfold parseTag
    dsimp only
    rw [hname, if_pos rfl, List.drop_left]
    exact handleBandTag_eval (' ' :: A) X _ _ hA h1 h2 hX hlt
  rw [htag]
  exact parseLoop_noOpenTag _ _ _ (noOpenTag_closing _ (by decide))

theorem storeBand_reset_propagation (name time : List Char) (c : PropagationCondition)
    (s : ApplicationState) (i : Nat)
    (h : ∀ st : ApplicationState, storeBand name time c st = setPropagation st i c) :
    (storeBand name time c (resetPropagation s)).solarData.propagation =
      (List.replicate 8 PropagationCondition.UNKNOWN).set i c := by
  rw [h]
  rfl

/-- C11: for the band name B at position b of (80m-40m, 30m-20m, 17m-15m,
12m-10m), a time of day or night and a content X of at most 15 characters
without an opening angle bracket, parsing the payload that consists of the one
band tag with these values sets slot b (day) or b + 4 (night) of the condition
array to toConditionValue(X) and leaves the other seven slots UNKNOWN; with
80m-40m, day and the content Good, GOOD or good slot 0 is GOOD. -/
theorem C11_band_tag_slot (beyond : List Char) (b : Nat) (B : String) (night : Bool) (X : List Char)
    (s : ApplicationState) (hB : bandTagNames[b]? = some B) (hX : X.length ≤ 15)
    (hlt : '<' ∉ X) :
    (parse beyond ("<band name=\"".toList ++ B.toList ++ "\" time=\"".toList ++
        (if night then "night" else "day").toList ++ "\">".toList ++ X ++
        "</band>".toList) s).solarData.propagation
      = (List.replicate 8 PropagationCondition.UNKNOWN).set (if night then b + 4 else b)
          (toConditionValue X) ∧
    (∀ G ∈ ["Good", "GOOD", "good"],
      (parse beyond ("<band name=\"80m-40m\" time=\"day\">".toList ++ String.toList G ++
        "</band>".toList) s).solarData.propagation[0]? = some PropagationCondition.GOOD) := by
  have main : ∀ (b : Nat) (B : String) (night : Bool) (X : List Char),
      bandTagNames[b]? = some B → X.length ≤ 15 → '<' ∉ X →
      (parse beyond ("<band name=\"".toList ++ B.toList ++ "\" time=\"".toList ++
        (if night then "night" else "day").toList ++ "\">".toList ++ X ++
        "</band>".toList) s).solarData.propagation
      = (List.replicate 8 PropagationCondition.UNKNOWN).set (if night then b + 4 else b)
          (toConditionValue X) := by
    intro b B night X hB hX hlt
    have hb : b < 4 := by
      by_contra hc
      have : bandTagNames[b]? = none := List.getElem?_eq_none (by simp [bandTagNames]; omega)
      rw [this] at hB
      cases hB
    have step : ∀ A : List Char, '>' ∉ ' ' :: A →
        attrInside (' ' :: A) "name".toList = true →
        attrInside (' ' :: A) "time".toList = true →
        ∀ i : Nat, (∀ st : ApplicationState,
          storeBand (getAttrValue beyond (' ' :: A) "name".toList [] 16).2
            (getAttrValue beyond (' ' :: A) "time".toList [] 8).2 (toConditionValue X) st
            = setPropagation st i (toConditionValue X)) →
        (parse beyond ('<' :: ("band".toList ++ ' ' :: (A ++ '>' ::
          (X ++ '<' :: '/' :: ("band".toList ++ ['>']))))) s).solarData.propagation
        = (List.replicate 8 PropagationCondition.UNKNOWN).set i (toConditionValue X) := by
      intro A hA h1 h2 i hi
      rw [parse_band_payload A X s hA h1 h2 hX hlt]
      exact storeBand_reset_propagation _ _ _ s i hi
    interval_cases b <;> cases night <;> cases hB
    · exact step "name=\"80m-40m\" time=\"day\"".toList (by decide) (by decide) (by decide) 0
        (fun _ => rfl)
    · exact step "name=\"80m-40m\" time=\"night\"".toList (by decide) (by decide) (by decide) 4
        (fun _ => rfl)
    · exact step "name=\"30m-20m\" time=\"day\"".toList (by decide) (by decide) (by decide) 1
        (fun _ => rfl)
    · exact step "name=\"30m-20m\" time=\"night\"".toList (by decide) (by decide) (by decide) 5
        (fun _ => rfl)
    · exact step "name=\"17m-15m\" time=\"day\"".toList (by decide) (by decide) (by decide) 2
        (fun _ => rfl)
    · exact step "name=\"17m-15m\" time=\"night\"".toList (by decide) (by decide) (by decide) 6
        (fun _ => rfl)
    · exact step "name=\"12m-10m\" time=\"day\"".toList (by decide) (by decide) (by decide) 3
        (fun _ => rfl)
    · exact step "name=\"12m-10m\" time=\"night\"".toList (by decide) (by decide) (by decide) 7
        (fun _ => rfl)
  refine ⟨main b B night X hB hX hlt, ?_⟩
  intro G hG
  have hG2 : String.toList G ∈ ["Good".toList, "GOOD".toList, "good".toList] := by
    simp only [List.mem_cons, List.mem_singleton, List.not_mem_nil, or_false] at hG ⊢
    rcases hG with e | e | e <;> simp [e]
  have hprops : ∀ Y ∈ ["Good".toList, "GOOD".toList, "good".toList],
      Y.length ≤ 15 ∧ '<' ∉ Y ∧ toConditionValue Y = PropagationCondition.GOOD := by decide
  obtain ⟨p1, p2, p3⟩ := hprops _ hG2
  have := main 0 "80m-40m" false (String.toList G) rfl p1 p2
  rw [p3] at this
  have e : ("<band name=\"80m-40m\" time=\"day\">".toList ++ String.toList G ++
      "</band>".toList) = ("<band name=\"".toList ++ "80m-40m".toList ++ "\" time=\"".toList ++
        (if false then "night" else "day").toList ++ "\">".toList ++ String.toList G ++
        "</band>".toList) := rfl
  rw [e, this]
  rfl

theorem C11_band_tag_slot_witness :
    (parse [] ("<band name=\"".toList ++ "17m-15m".toList ++ "\" time=\"".toList ++
        (if true then "night" else "day").toList ++ "\">".toList ++ "Fair".toList ++
        "</band>".toList) state0).solarData.propagation
      = (List.replicate 8 PropagationCondition.UNKNOWN).set (if true then 2 + 4 else 2)
          (toConditionValue "Fair".toList) :=
  (C11_band_tag_slot [] 2 "17m-15m" true "Fair".toList state0 rfl (by decide) (by decide)).1

/-! ## Theorems: simple content tags -/

theorem rdropWhile_cons_of_not (p : Char → Bool) (x : Char) (xs : List Char)
    (h : p x = false) : (x :: xs).rdropWhile p = x :: xs.rdropWhile p := by
  induction xs using List.reverseRecOn with
  | nil =>
    have := List.rdropWhile_concat_neg p [] x (by simp [h])
    simpa using this
  | append_singleton l y ih =>
    have e : x :: (l ++ [y]) = (x :: l) ++ [y] := rfl
    rw [e, List.rdropWhile_concat, List.rdropWhile_concat]
    split
    · exact ih
    · rfl

theorem trimContent_eq (c : List Char) :
    trimContent c = (c.dropWhile isspace).rdropWhile isspace := by
  unfold trimContent
  cases h : c.dropWhile isspace with
  | nil => simp [List.rdropWhile]
  | cons x xs =>
    have hx : isspace x = false := by
      have := List.head_dropWhile_not isspace c (by rw [h]; simp)
      simpa [h] using this
    simp only [rdropWhile_cons_of_not isspace x xs hx]

theorem rdropWhile_append_of_all (p : Char → Bool) (l ws : List Char)
    (h : ∀ c ∈ ws, p c = true) : (l ++ ws).rdropWhile p = l.rdropWhile p := by
  induction ws using List.reverseRecOn with
  | nil => simp
  | append_singleton w y ih =>
    rw [← List.append_assoc, List.rdropWhile_concat_pos _ _ _ (h y (by simp))]
    exact ih (fun c hc => h c (by simp [hc]))

theorem rdropWhile_of_all_not (p : Char → Bool) (l : List Char)
    (h : ∀ c ∈ l, p c = false) : l.rdropWhile p = l := by
  rw [List.rdropWhile_eq_self_iff]
  intro hl
  rw [h _ (List.getLast_mem hl)]
  simp

/-- Text without white space, padded with white space on both sides, is
trimmed to the text itself. -/
theorem trimContent_padded (ws1 body ws2 : List Char) (h1 : ∀ c ∈ ws1, isspace c = true)
    (h2 : ∀ c ∈ ws2, isspace c = true) (hb : ∀ c ∈ body, isspace c = false)
    (hne : body ≠ []) : trimContent (ws1 ++ (body ++ ws2)) = body := by
  rw [trimContent_eq, dropWhile_append_of_all isspace ws1 _ h1,
    dropWhile_of_head isspace body hne hb, rdropWhile_append_of_all isspace body ws2 h2,
    rdropWhile_of_all_not isspace body hb]

theorem atoiDigits_eq (ds : List Char) : ∀ acc : Int, (∀ d ∈ ds, isdigit d = true) →
    atoiDigits ds acc = acc * 10 ^ ds.length + (decimalValue ds : Int) := by
  induction ds with
  | nil => intro acc _; simp [atoiDigits, decimalValue]
  | cons d ds ih =>
    intro acc h
    have hd : isdigit d = true := h d (by simp)
    have hds : ∀ x ∈ ds, isdigit x = true := fun x hx => h x (by simp [hx])
    have h48 : 48 ≤ d.toNat := by
      simp only [isdigit, Bool.and_eq_true, decide_eq_true_eq] at hd
      exact hd.1
    simp only [atoiDigits, hd, if_true]
    rw [ih _ hds]
    simp only [decimalValue, List.map_cons, List.reverse_cons, Nat.ofDigits_append,
      Nat.ofDigits_singleton, List.length_reverse, List.length_map, List.length_cons]
    push_cast [Nat.cast_sub h48]
    ring

theorem atoiValue_digits (ds : List Char) (neg : Bool) (h : ∀ d ∈ ds, isdigit d = true)
    (hne : ds ≠ []) :
    atoiValue ((if neg then ['-'] else []) ++ ds) =
      (if neg then - (decimalValue ds : Int) else (decimalValue ds : Int)) := by
  obtain ⟨d, rest, rfl⟩ := List.exists_cons_of_ne_nil hne
  have hd : isdigit d = true := h d (by simp)
  have hsp : isspace d = false := isdigit_not_space d hd
  have hm : d ≠ '-' := isdigit_ne d '-' hd (by decide)
  have hp : d ≠ '+' := isdigit_ne d '+' hd (by decide)
  cases neg with
  | true =>
    have e : (if true = true then ['-'] else []) ++ d :: rest = '-' :: d :: rest := rfl
    have hs : isspace '-' = false := by decide
    rw [e]
    simp only [atoiValue, List.dropWhile_cons, hs, Bool.false_eq_true, if_false,
      List.head?_cons, if_true, List.drop_succ_cons, List.drop_zero]
    rw [atoiDigits_eq _ 0 h]
    simp
  | false =>
    have e : (if false = true then ['-'] else []) ++ d :: rest = d :: rest := rfl
    rw [e]
    simp only [atoiValue, List.dropWhile_cons, hsp, Bool.false_eq_true, if_false,
      List.head?_cons, Option.some.injEq, hm, hp]
    rw [atoiDigits_eq _ 0 h]
    simp

/-- The method parseTag on a simple content tag: a name t without space or
angle bracket, the closing bracket, a content c of at most 63 characters and
the rest of the payload. -/
theorem parseTag_simple {beyond : List Char} (t c S : List Char) (s : ApplicationState)
    (ht : ∀ x ∈ t, x ≠ ' ' ∧ x ≠ '>')
    (hb : t.take 31 ≠ "band".toList) (hp : t.take 31 ≠ "phenomenon".toList)
    (hc : '<' ∉ c) (hclen : c.length ≤ 63) :
    parseTag beyond (t ++ '>' :: (c ++ '<' :: S)) s =
      ('<' :: S, { s with solarData := assignContent (t.take 31) (trimContent c) s.solarData }) := by
  have hsplit : t ++ '>' :: (c ++ '<' :: S) = t.take 31 ++ (t.drop 31 ++ '>' :: (c ++ '<' :: S)) := by
    rw [← List.append_assoc, List.take_append_drop]
  have hname : readTagName (t ++ '>' :: (c ++ '<' :: S)) = t.take 31 := by
    have h1 : ∀ a ∈ t, (fun c => c != ' ' && c != '>') a = true := by
      intro a ha
      simpa using ht a ha
    unfold readTagName
    rw [List.takeWhile_append_of_pos h1, List.takeWhile_cons]
    simp only [bne_self_eq_false, Bool.and_false, Bool.false_eq_true, if_false, List.append_nil]
  have hdrop : ∀ a ∈ t.drop 31, (fun c => c != '>') a = true := by
    intro a ha
    simpa using (ht a (List.mem_of_mem_drop ha)).2
  unfold parseTag
  dsimp only
  rw [hname, if_neg hb, if_neg hp]
  conv_lhs => rw [hsplit, List.drop_left]
  unfold parseSimpleTag
  dsimp only
  rw [dropWhile_append_of_all _ (t.drop 31) _ hdrop]
  simp only [List.dropWhile_cons, bne_self_eq_false, Bool.false_eq_true, if_false,
    List.head?_cons, if_true, List.drop_succ_cons, List.drop_zero]
  rw [takeWhile_take_content c S 63 hclen hc, List.drop_left]

/-- The parse of a payload that consists of one simple content tag. -/
theorem parse_simple_payload {beyond : List Char} (t c : List Char) (s : ApplicationState)
    (ht : ∀ x ∈ t, x ≠ ' ' ∧ x ≠ '>' ∧ x ≠ '<') (ht1 : t.head? ≠ some '/')
    (hb : t.take 31 ≠ "band".toList) (hp : t.take 31 ≠ "phenomenon".toList)
    (hc : '<' ∉ c) (hclen : c.length ≤ 63) :
    (parse beyond ('<' :: (t ++ '>' :: (c ++ '<' :: '/' :: (t ++ ['>'])))) s).solarData =
      assignContent (t.take 31) (trimContent c) (resetPropagation s).solarData := by
  have hhead : (t ++ '>' :: (c ++ '<' :: '/' :: (t ++ ['>']))).head? ≠ some '/' := by
    cases t with
    | nil => simp
    | cons x xs => simpa using ht1
  rw [parse_first_tag _ s hhead,
    parseTag_simple t c _ _ (fun x hx => ⟨(ht x hx).1, (ht x hx).2.1⟩) hb hp hc hclen,
    parseLoop_noOpenTag _ _ _ (noOpenTag_closing t (fun hm => (ht _ hm).2.2 rfl))]

theorem isspace_ne_lt (c : Char) (h : isspace c = true) : c ≠ '<' := by
  intro e
  rw [e] at h
  exact absurd h (by decide)

theorem isdigit_ne_lt (c : Char) (h : isdigit c = true) : c ≠ '<' :=
  isdigit_ne c '<' h (by decide)

theorem mem_caseVariants_map_tolower (w : List Char) : ∀ u : List Char,
    (∀ d ∈ w, d ∈ "abcdefghijklmnopqrstuvwxyz".toList) → u ∈ caseVariants w →
    u.map tolower = w := by
  have k1 : ∀ y ∈ "abcdefghijklmnopqrstuvwxyz".toList,
      tolower y = y ∧ tolower (toupper y) = y := by decide
  induction w with
  | nil => intro u _ hu; simp [caseVariants] at hu; simp [hu]
  | cons d ds ih =>
    intro u hw hu
    have hd := k1 d (hw d (by simp))
    have hds : ∀ x ∈ ds, x ∈ "abcdefghijklmnopqrstuvwxyz".toList :=
      fun x hx => hw x (by simp [hx])
    simp only [caseVariants, List.mem_append, List.mem_map] at hu
    rcases hu with ⟨a, ha, rfl⟩ | ⟨a, ha, rfl⟩
    · simp [hd.1, ih a hds ha]
    · simp [hd.2, ih a hds ha]

/-- A tag name that differs from a scalar tag name in letter case, or by a
prefix or a suffix, is read as none of the names that parseTag knows. -/
theorem take_not_known (t : List Char)
    (hdiff : ∃ k ∈ scalarTags, (t ∈ caseVariants k.toList ∧ t ≠ k.toList) ∨
      (∃ pre suf : List Char, t = pre ++ k.toList ++ suf ∧ (pre ≠ [] ∨ suf ≠ []))) :
    ∀ k2 ∈ knownTags, t.take 31 ≠ k2.toList := by
  intro k2 hk2 he
  have hshort : ∀ k ∈ knownTags, k.toList.length < 31 := by decide
  have hlen : (t.take 31).length < 31 := by rw [he]; exact hshort k2 hk2
  have ht : t.take 31 = t := by
    rw [List.length_take] at hlen
    exact List.take_of_length_le (by omega)
  rw [ht] at he
  obtain ⟨k, hk, hcase | ⟨pre, suf, hps, hne⟩⟩ := hdiff
  · have hlow : ∀ k ∈ scalarTags, ∀ d ∈ k.toList, d ∈ "abcdefghijklmnopqrstuvwxyz".toList := by
      decide
    have h1 := mem_caseVariants_map_tolower k.toList t (hlow k hk) hcase.1
    have hfix : ∀ k ∈ knownTags, k.toList.map tolower = k.toList := by decide
    rw [he, hfix k2 hk2] at h1
    exact hcase.2 (he.trans h1)
  · have hinf : k.toList <:+: k2.toList := ⟨pre, suf, by rw [← he, hps]⟩
    have huniq : ∀ k ∈ scalarTags, ∀ k2 ∈ knownTags, k.toList <:+: k2.toList →
        k2.toList = k.toList := by decide
    have h2 := huniq k hk k2 hk2 hinf
    have hl : (pre ++ k.toList ++ suf).length = k.toList.length := by rw [← hps, he, h2]
    simp only [List.length_append] at hl
    rcases hne with h | h
    · exact h (List.length_eq_zero.mp (by omega))
    · exact h (List.length_eq_zero.mp (by omega))

theorem C13_integer_overflow_counterexample :
    decimalInt false "99999999999".toList = 99999999999 ∧
    (parse [] (simpleTagPayload "solarflux".toList "99999999999".toList) state0).solarData.solarFlux
      = 2147483647 ∧
    (parse [] "<solarflux>99999999999</solarflux>".toList state0).solarData.solarFlux ≠
      decimalInt false "99999999999".toList := by
  decide

/-- The four integer fields after parsing an integer tag whose content is a
decimal integer between white space. -/
theorem parse_integer_tag {beyond : List Char} (t : List Char) (s : ApplicationState) (ws1 ws2 ds : List Char)
    (neg : Bool) (ht : t ∈ ["solarflux".toList, "aindex".toList, "kindex".toList,
      "sunspots".toList])
    (h1 : ∀ c ∈ ws1, isspace c = true) (h2 : ∀ c ∈ ws2, isspace c = true)
    (hne : ds ≠ []) (hds : ∀ d ∈ ds, isdigit d = true)
    (hlen : (ws1 ++ (decimalText neg ds ++ ws2)).length ≤ 63) :
    (parse beyond (simpleTagPayload t (ws1 ++ (decimalText neg ds ++ ws2))) s).solarData =
      assignContent t (decimalText neg ds) (resetPropagation s).solarData ∧
    atoi (decimalText neg ds) = max INT_MIN (min INT_MAX (decimalInt neg ds)) := by
  have hbody : ∀ c ∈ decimalText neg ds, isspace c = false ∧ c ≠ '<' := by
    intro c hc
    simp only [decimalText, List.mem_append] at hc
    rcases hc with hc | hc
    · cases neg with
      | true =>
        simp only [if_true, List.mem_singleton] at hc
        rw [hc]; decide
      | false => simp at hc
    · exact ⟨isdigit_not_space c (hds c hc), isdigit_ne_lt c (hds c hc)⟩
  have hbne : decimalText neg ds ≠ [] := by
    simp only [decimalText]
    intro e
    exact hne (List.append_eq_nil.mp e).2
  have hlt : '<' ∉ ws1 ++ (decimalText neg ds ++ ws2) := by
    intro hm
    simp only [List.mem_append] at hm
    rcases hm with hm | hm | hm
    · exact isspace_ne_lt _ (h1 _ hm) rfl
    · exact (hbody _ hm).2 rfl
    · exact isspace_ne_lt _ (h2 _ hm) rfl
  have hprops : ∀ t ∈ ["solarflux".toList, "aindex".toList, "kindex".toList,
      "sunspots".toList], (∀ x ∈ t, x ≠ ' ' ∧ x ≠ '>' ∧ x ≠ '<') ∧ t.head? ≠ some '/' ∧
      t.take 31 ≠ "band".toList ∧ t.take 31 ≠ "phenomenon".toList ∧ t.take 31 = t := by
    decide
  obtain ⟨p1, p2, p3, p4, p5⟩ := hprops t ht
  refine ⟨?_, ?_⟩
  · unfold simpleTagPayload
    rw [parse_simple_payload t _ s p1 p2 p3 p4 hlt hlen, p5,
      trimContent_padded ws1 _ ws2 h1 h2 (fun c hc => (hbody c hc).1) hbne]
  · simp only [atoi, decimalText, decimalInt, atoiValue_digits ds neg hds hne]

/-- C13 (amended): for a payload that consists of one simple content tag t with
content c. When t is solarflux, aindex, kindex or sunspots and c is a decimal
integer within the range of int, between optional white space and of at most
63 characters in all, the integer field of t equals that integer after the
parse (beyond the range of int the field holds INT_MAX or INT_MIN). When t is
xray, geomagfield or signalnoise and c has at most 63 characters, the string
field equals c without leading and trailing white space, cut to 7, 15 and 7
characters. A tag whose name differs from the seven names in letter case, or by
a prefix or a suffix, sets none of the seven fields. -/
theorem C13_simple_tags (beyond : List Char) (s : ApplicationState) :
    (∀ (ws1 ws2 ds : List Char) (neg : Bool),
      (∀ c ∈ ws1, isspace c = true) → (∀ c ∈ ws2, isspace c = true) →
      ds ≠ [] → (∀ d ∈ ds, isdigit d = true) →
      (ws1 ++ (decimalText neg ds ++ ws2)).length ≤ 63 →
      INT_MIN ≤ decimalInt neg ds → decimalInt neg ds ≤ INT_MAX →
      (parse beyond (simpleTagPayload "solarflux".toList (ws1 ++ (decimalText neg ds ++ ws2)))
        s).solarData.solarFlux = decimalInt neg ds ∧
      (parse beyond (simpleTagPayload "aindex".toList (ws1 ++ (decimalText neg ds ++ ws2)))
        s).solarData.aIndex = decimalInt neg ds ∧
      (parse beyond (simpleTagPayload "kindex".toList (ws1 ++ (decimalText neg ds ++ ws2)))
        s).solarData.kIndex = decimalInt neg ds ∧
      (parse beyond (simpleTagPayload "sunspots".toList (ws1 ++ (decimalText neg ds ++ ws2)))
        s).solarData.sunspots = decimalInt neg ds) ∧
    (∀ c : List Char, '<' ∉ c → c.length ≤ 63 →
      (parse beyond (simpleTagPayload "xray".toList c) s).solarData.xray
        = ((c.dropWhile isspace).rdropWhile isspace).take 7 ∧
      (parse beyond (simpleTagPayload "geomagfield".toList c) s).solarData.geomagneticField
        = ((c.dropWhile isspace).rdropWhile isspace).take 15 ∧
      (parse beyond (simpleTagPayload "signalnoise".toList c) s).solarData.signalNoiseLevel
        = ((c.dropWhile isspace).rdropWhile isspace).take 7) ∧
    (∀ t c : List Char, (∀ x ∈ t, x ≠ ' ' ∧ x ≠ '>' ∧ x ≠ '<') → t.head? ≠ some '/' →
      (∃ k ∈ scalarTags, (t ∈ caseVariants k.toList ∧ t ≠ k.toList) ∨
        (∃ pre suf : List Char, t = pre ++ k.toList ++ suf ∧ (pre ≠ [] ∨ suf ≠ []))) →
      '<' ∉ c → c.length ≤ 63 →
      scalarFields (parse beyond (simpleTagPayload t c) s).solarData = scalarFields s.solarData) := by
  refine ⟨?_, ?_, ?_⟩
  · intro ws1 ws2 ds neg h1 h2 hne hds hlen hmin hmax
    have hat : atoi (decimalText neg ds) = decimalInt neg ds := by
      rw [(@parse_integer_tag beyond "solarflux".toList s ws1 ws2 ds neg (by simp) h1 h2 hne hds
        hlen).2]
      omega
    refine ⟨?_, ?_, ?_, ?_⟩
    · rw [(@parse_integer_tag beyond "solarflux".toList s ws1 ws2 ds neg (by simp) h1 h2 hne hds
        hlen).1]
      exact hat
    · rw [(@parse_integer_tag beyond "aindex".toList s ws1 ws2 ds neg (by simp) h1 h2 hne hds hlen).1]
      exact hat
    · rw [(@parse_integer_tag beyond "kindex".toList s ws1 ws2 ds neg (by simp) h1 h2 hne hds hlen).1]
      exact hat
    · rw [(@parse_integer_tag beyond "sunspots".toList s ws1 ws2 ds neg (by simp) h1 h2 hne hds
        hlen).1]
      exact hat
  · intro c hc hclen
    have hprops : ∀ t ∈ ["xray".toList, "geomagfield".toList, "signalnoise".toList],
        (∀ x ∈ t, x ≠ ' ' ∧ x ≠ '>' ∧ x ≠ '<') ∧ t.head? ≠ some '/' ∧
        t.take 31 ≠ "band".toList ∧ t.take 31 ≠ "phenomenon".toList ∧ t.take 31 = t := by
      decide
    have hx := hprops "xray".toList (by simp)
    have hg := hprops "geomagfield".toList (by simp)
    have hn := hprops "signalnoise".toList (by simp)
    refine ⟨?_, ?_, ?_⟩
    · unfold simpleTagPayload
      rw [parse_simple_payload _ c s hx.1 hx.2.1 hx.2.2.1 hx.2.2.2.1 hc hclen, hx.2.2.2.2,
        trimContent_eq]
      rfl
    · unfold simpleTagPayload
      rw [parse_simple_payload _ c s hg.1 hg.2.1 hg.2.2.1 hg.2.2.2.1 hc hclen, hg.2.2.2.2,
        trimContent_eq]
      rfl
    · unfold simpleTagPayload
      rw [parse_simple_payload _ c s hn.1 hn.2.1 hn.2.2.1 hn.2.2.2.1 hc hclen, hn.2.2.2.2,
        trimContent_eq]
      rfl
  · intro t c ht ht1 hdiff hc hclen
    have hk := take_not_known t hdiff
    have hsc : ∀ k ∈ scalarTags, t.take 31 ≠ k.toList := by
      intro k hk1
      have hmem : ∀ k ∈ scalarTags, k ∈ knownTags := by decide
      exact hk k (hmem k hk1)
    unfold simpleTagPayload
    rw [parse_simple_payload t c s ht ht1 (hk "band" (by decide)) (hk "phenomenon" (by decide))
      hc hclen, assignContent_other _ _ _ hsc]
    rfl

theorem C13_simple_tags_witness :
    (parse [] (simpleTagPayload "kindex".toList (" ".toList ++ (decimalText false "3".toList ++
        "\n".toList))) state0).solarData.kIndex = decimalInt false "3".toList ∧
    (parse [] (simpleTagPayload "xray".toList "  M1.2  ".toList) state0).solarData.xray
      = (("  M1.2  ".toList.dropWhile isspace).rdropWhile isspace).take 7 ∧
    scalarFields (parse [] (simpleTagPayload "SolarFlux".toList "150".toList) state0).solarData
      = scalarFields state0.solarData :=
  ⟨((C13_simple_tags [] state0).1 " ".toList "\n".toList "3".toList false (by decide) (by decide)
      (by decide) (by decide) (by decide) (by decide) (by decide)).2.2.1,
    ((C13_simple_tags [] state0).2.1 "  M1.2  ".toList (by decide) (by decide)).1,
    (C13_simple_tags [] state0).2.2 "SolarFlux".toList "150".toList (by decide) (by decide)
      ⟨"solarflux", by decide, Or.inl (by decide)⟩ (by decide) (by decide)⟩

/-! ## Theorems: reads of getAttrValue -/

/-- C14 (fails on the code): on the payload of 10 characters that holds a band
tag without attributes followed by the text name, parse calls parseTag after
the opening bracket, parseTag reads the name band and calls handleBandTag at
the closing bracket, which is found, so getAttrValue is called; it finds name
at the end of the payload and, after skipping 6 characters, reads index 12,
beyond the terminator at index 10: the name it returns is the string that the
memory holds from the second byte after the terminator on. -/
theorem C14_getAttrValue_reads_past_end (beyond : List Char) :
    "<band>name".toList.length = 10 ∧
    parse beyond "<band>name".toList state0 =
      parseLoop beyond 9 (parseTag beyond "band>name".toList (resetPropagation state0)).1
        (parseTag beyond "band>name".toList (resetPropagation state0)).2 ∧
    readTagName "band>name".toList = "band".toList ∧
    parseTag beyond "band>name".toList (resetPropagation state0) =
      handleBandTag beyond ">name".toList (resetPropagation state0) ∧
    (strchr ">name".toList '>').isSome = true ∧
    strstr ">name".toList "name".toList = some "name".toList ∧
    getAttrValueFirstRead 10 ">name".toList "name".toList = some 12 ∧
    getAttrValueFirstRead 26 " name=\"80m-40m\" time>".toList "time".toList = some 27 ∧
    (getAttrValue beyond ">name".toList "name".toList [] 16).2 =
      ((cstr (beyond.drop 1)).takeWhile (fun c => c != '"')).take 15 :=
  ⟨by decide, rfl, by decide, rfl, by decide, by decide, by decide, by decide, rfl⟩

/-! ## Theorems: elapsed time of a spot -/

/-- C15: for a spot with hour h in 0..23 and minute m in 0..59 and a current
UTC second of day t in 0..86399, the elapsed seconds computed for the spots
list equal (t - (3600 h + 60 m)) mod 86400 and lie in 0..86399; a spot logged
at 23:50 and observed at 00:05:00 has 900 elapsed seconds, shown as 15m. -/
theorem C15_elapsed_seconds (h m t : Int) (h1 : 0 ≤ h) (h2 : h ≤ 23) (h3 : 0 ≤ m) (h4 : m ≤ 59)
    (h5 : 0 ≤ t) (h6 : t ≤ 86399) :
    elapsedSeconds t h m = (t - (3600 * h + 60 * m)) % 86400 ∧
    0 ≤ elapsedSeconds t h m ∧ elapsedSeconds t h m ≤ 86399 ∧
    elapsedSeconds (currentTimeInSeconds 0 5 0) 23 50 = 900 ∧
    formatElapsedMinutes (elapsedSeconds (currentTimeInSeconds 0 5 0) 23 50) = "15m" := by
  refine ⟨?_, ?_, ?_, by decide, by decide⟩
  · simp only [elapsedSeconds]
    split <;> omega
  · simp only [elapsedSeconds]
    split <;> omega
  · simp only [elapsedSeconds]
    split <;> omega

theorem C15_elapsed_seconds_witness :
    elapsedSeconds 60 12 30 = (60 - (3600 * 12 + 60 * 30)) % 86400 :=
  (C15_elapsed_seconds 12 30 60 (by decide) (by decide) (by decide) (by decide) (by decide)
    (by decide)).1

/-! ## Theorems: touch on the grace period screen -/

theorem C16_touch_outside_button_counterexample :
    (handleTouch (fun st _ _ => (st, [TouchEffect.otherHandler]))
      { state0 with activeScreen := ActiveScreen.SCREEN_SLEEP_GRACE_PERIOD,
                    power := { scheduledSleepEnabled := true } }
      true 0 0 320 240 5000 5001).1.activeScreen = ActiveScreen.SCREEN_SLEEP_GRACE_PERIOD ∧
    (handleTouch (fun st _ _ => (st, [TouchEffect.otherHandler]))
      { state0 with activeScreen := ActiveScreen.SCREEN_SLEEP_GRACE_PERIOD,
                    power := { scheduledSleepEnabled := true } }
      true 0 0 320 240 5000 5001).1.power.scheduledSleepEnabled = true := by
  decide

/-- C16 (amended): on the grace period screen a touch inside the cancel button
(200 by 40, centred, 30 above the bottom edge) cancels the pending sleep:
afterwards activeScreen is SCREEN_SPOTS, lastInteractionTime is the current
time and scheduledSleepEnabled is false. A touch outside the button only
records lastInteractionTime: the grace period screen stays active and the rest
of the state is as before. In both cases enterDeepSleep is not called. -/
theorem C16_grace_period_touch
    (others : ApplicationState → Int → Int → ApplicationState × List TouchEffect)
    (state : ApplicationState) (t_x t_y width height : Int) (now1 now2 : Nat)
    (hs : state.activeScreen = ActiveScreen.SCREEN_SLEEP_GRACE_PERIOD) :
    (isButtonTouched t_x t_y ((width - 200).tdiv 2) (height - 40 - 30) 200 40 = true →
      (handleTouch others state true t_x t_y width height now1 now2).1.activeScreen
        = ActiveScreen.SCREEN_SPOTS ∧
      (handleTouch others state true t_x t_y width height now1 now2).1.power.lastInteractionTime
        = now2 ∧
      (handleTouch others state true t_x t_y width height now1
        now2).1.power.scheduledSleepEnabled = false) ∧
    (isButtonTouched t_x t_y ((width - 200).tdiv 2) (height - 40 - 30) 200 40 = false →
      (handleTouch others state true t_x t_y width height now1 now2).1 =
        { state with power := { state.power with lastInteractionTime := now1 } }) ∧
    TouchEffect.enterDeepSleep ∉
      (handleTouch others state true t_x t_y width height now1 now2).2 := by
  have e : handleTouch others state true t_x t_y width height now1 now2 =
      handleTouchGracePeriod
        { state with power := { state.power with lastInteractionTime := now1 } }
        t_x t_y width height now2 := by
    simp only [handleTouch, if_true, hs]
  rw [e]
  unfold handleTouchGracePeriod
  simp only [GRACE_PERIOD_BTN_W, GRACE_PERIOD_BTN_H, GRACE_PERIOD_BTN_Y_MARGIN]
  refine ⟨?_, ?_, ?_⟩
  · intro hb
    rw [if_pos hb]
    exact ⟨rfl, rfl, rfl⟩
  · intro hb
    rw [if_neg (by rw [hb]; simp)]
  · split <;> simp

theorem C16_grace_period_touch_witness :
    (handleTouch (fun st _ _ => (st, [TouchEffect.otherHandler]))
      { state0 with activeScreen := ActiveScreen.SCREEN_SLEEP_GRACE_PERIOD,
                    power := { scheduledSleepEnabled := true } }
      true 160 190 320 240 5000 5001).1.activeScreen = ActiveScreen.SCREEN_SPOTS :=
  ((C16_grace_period_touch (fun st _ _ => (st, [TouchEffect.otherHandler]))
    { state0 with activeScreen := ActiveScreen.SCREEN_SLEEP_GRACE_PERIOD,
                  power := { scheduledSleepEnabled := true } }
    160 190 320 240 5000 5001 rfl).1 (by decide)).1

/-! ## Theorems: redraw request of the line decoder -/

/-- The buffer, the position and the flag of the loop do not depend on the
line handler. -/
theorem telnetByte_handler_independent {σ τ : Type} (f : List Char → σ → σ)
    (g : List Char → τ → τ) (t : TelnetLoop σ) (u : TelnetLoop τ) (c : Char)
    (h : t.lineBuffer = u.lineBuffer ∧ t.bufferPos = u.bufferPos ∧
      t.newSpotReceived = u.newSpotReceived) :
    (telnetByte f t c).lineBuffer = (telnetByte g u c).lineBuffer ∧
    (telnetByte f t c).bufferPos = (telnetByte g u c).bufferPos ∧
    (telnetByte f t c).newSpotReceived = (telnetByte g u c).newSpotReceived := by
  obtain ⟨h1, h2, h3⟩ := h
  unfold telnetByte
  rw [h1, h2]
  simp only []
  split
  · split
    · split
      · exact ⟨rfl, rfl, rfl⟩
      · exact ⟨rfl, rfl, h3⟩
    · exact ⟨h1, h2, h3⟩
  · split
    · exact ⟨rfl, rfl, h3⟩
    · exact ⟨h1, h2, h3⟩

theorem telnetLoop_handler_independent {σ τ : Type} (f : List Char → σ → σ)
    (g : List Char → τ → τ) (avail : List Char) :
    ∀ (t : TelnetLoop σ) (u : TelnetLoop τ),
      (t.lineBuffer = u.lineBuffer ∧ t.bufferPos = u.bufferPos ∧
        t.newSpotReceived = u.newSpotReceived) →
      (telnetLoop f t avail).newSpotReceived = (telnetLoop g u avail).newSpotReceived := by
  induction avail with
  | nil => intro t u h; exact h.2.2
  | cons c cs ih =>
    intro t u h
    exact ih _ _ (telnetByte_handler_independent f g t u c h)

/-- With the recording handler the flag is set exactly when a line was recorded. -/
theorem telnetLoop_flag_iff_lines (avail : List Char) :
    ∀ t : TelnetLoop (List (List Char)), (t.newSpotReceived = true ↔ t.state ≠ []) →
      ((telnetLoop (fun line acc => acc ++ [line]) t avail).newSpotReceived = true ↔
        (telnetLoop (fun line acc => acc ++ [line]) t avail).state ≠ []) := by
  induction avail with
  | nil => intro t h; exact h
  | cons c cs ih =>
    intro t h
    apply ih
    unfold telnetByte
    simp only []
    split
    · split
      · split
        · simp
        · exact h
      · exact h
    · split
      · exact h
      · exact h

theorem C17_redraw_without_spot_counterexample :
    (readTelnetSpots atofZero decoder0 state0 "hello\n".toList).2.2 = true ∧
    (readTelnetSpots atofZero decoder0 state0 "hello\n".toList).2.1 = state0 ∧
    linesHanded decoder0 "hello\n".toList = ["hello".toList] ∧
    parseSpot atofZero "hello".toList state0 = state0 := by
  decide

/-- C17 (amended): readTelnetSpots requests a redraw of the active screen
exactly when at least one line of the batch, non-empty after trimming, was
handed to parseSpot, whether parseSpot appended a spot or rejected the line;
a batch that completes no non-empty line requests no redraw. -/
theorem C17_redraw_iff_line_handed (atof : List Char → CFloat) (d : LineDecoder)
    (state : ApplicationState) (avail : List Char) :
    ((readTelnetSpots atof d state avail).2.2 = true ↔ linesHanded d avail ≠ []) ∧
    (linesHanded d avail = [] → (readTelnetSpots atof d state avail).2.2 = false) := by
  have h1 := telnetLoop_handler_independent (parseSpot atof)
    (fun (line : List Char) (acc : List (List Char)) => acc ++ [line]) avail
    { lineBuffer := d.lineBuffer, bufferPos := d.bufferPos, state := state,
      newSpotReceived := false }
    { lineBuffer := d.lineBuffer, bufferPos := d.bufferPos, state := [],
      newSpotReceived := false } ⟨rfl, rfl, rfl⟩
  have h2 := telnetLoop_flag_iff_lines avail
    { lineBuffer := d.lineBuffer, bufferPos := d.bufferPos, state := [],
      newSpotReceived := false } (by simp)
  have key : (readTelnetSpots atof d state avail).2.2 = true ↔ linesHanded d avail ≠ [] := by
    simp only [readTelnetSpots, readTelnetWith, linesHanded]
    rw [h1]
    exact h2
  refine ⟨key, ?_⟩
  intro hl
  cases hf : (readTelnetSpots atof d state avail).2.2 with
  | false => rfl
  | true => exact absurd hl (key.mp hf)

/-! ## Theorems: time stamp of a spot -/

/-- C18: when the other checks of parseSpot pass (marker, colon, frequency and
call tokens found) and the text after the last space of the line has at least
4 characters, parseSpot appends the record r that it builds, whose hour is atoi
of characters 0-1 and whose minute is atoi of characters 2-3 of that text, with
no range check: four decimal digits d1 d2 d3 d4 give hour 10 d1 + d2 and minute
10 d3 + d4 whatever their value, and the example line ending in 9999Z is
appended with hour 99 and minute 99. -/
theorem C18_parseSpot_time_unchecked (atof : List Char → CFloat) (state : ApplicationState)
    (line pre post de_ptr colon_ptr freq_end call_end : List Char) (r : DxSpot)
    (hl : line = pre ++ ' ' :: post) (hpost : ' ' ∉ post) (hlen : 4 ≤ post.length)
    (h1 : strstr line "DX de ".toList = some de_ptr)
    (h2 : strchr (de_ptr.drop 6) ':' = some colon_ptr)
    (h3 : strchr ((colon_ptr.drop 1).dropWhile isspace) ' ' = some freq_end)
    (h4 : strchr ((freq_end.drop 1).dropWhile isspace) ' ' = some call_end)
    (hr : r = buildSpot atof line (de_ptr.drop 6) colon_ptr
      ((colon_ptr.drop 1).dropWhile isspace) freq_end ((freq_end.drop 1).dropWhile isspace)
      call_end post) :
    parseSpot atof line state = addSpot r state ∧
    r.spotHour = atoi (cstr [post.getD 0 NUL, post.getD 1 NUL]) ∧
    r.spotMinute = atoi (cstr [post.getD 2 NUL, post.getD 3 NUL]) ∧
    (∀ (d1 d2 d3 d4 : Char) (rest : List Char), post = d1 :: d2 :: d3 :: d4 :: rest →
      isdigit d1 = true → isdigit d2 = true → isdigit d3 = true → isdigit d4 = true →
      r.spotHour = 10 * digitVal d1 + digitVal d2 ∧
      r.spotMinute = 10 * digitVal d3 + digitVal d4) ∧
    parseSpot atof "DX de SP7ABC:  14074.0  K1ABC  FT8 -10dB  9999Z".toList state
      = addSpot
          { spotter := "SP7ABC".toList, freq := "14074.0".toList, call := "K1ABC".toList,
            spotHour := 99, spotMinute := 99, mode := "FT8".toList } state := by
  have hs : strrchr line ' ' = some (' ' :: post) := by
    rw [hl]; exact strrchr_append pre post ' ' hpost
  subst hr
  refine ⟨?_, rfl, rfl, ?_, rfl⟩
  · unfold parseSpot
    rw [h1]
    simp only
    rw [h2]
    simp only
    rw [h3]
    simp only
    rw [h4]
    simp only
    rw [hs]
    simp only [List.drop_succ_cons, List.drop_zero]
    rw [if_neg (by omega)]
  · intro d1 d2 d3 d4 rest hp hd1 hd2 hd3 hd4
    subst hp
    simp only [buildSpot, List.getD_cons_zero, List.getD_cons_succ]
    exact ⟨atoi_two_digits d1 d2 hd1 hd2, atoi_two_digits d3 d4 hd3 hd4⟩

theorem C18_parseSpot_time_unchecked_witness :
    parseSpot atofZero "DX de W1AW: 7100.0 DL1XYZ CQ 2575Z".toList state0
      = addSpot
          { spotter := "W1AW".toList, freq := "7100.0".toList, call := "DL1XYZ".toList,
            spotHour := 25, spotMinute := 75, mode := "-".toList } state0 :=
  (C18_parseSpot_time_unchecked atofZero state0 "DX de W1AW: 7100.0 DL1XYZ CQ 2575Z".toList
    "DX de W1AW: 7100.0 DL1XYZ CQ".toList "2575Z".toList
    "DX de W1AW: 7100.0 DL1XYZ CQ 2575Z".toList ": 7100.0 DL1XYZ CQ 2575Z".toList
    " DL1XYZ CQ 2575Z".toList " CQ 2575Z".toList
    { spotter := "W1AW".toList, freq := "7100.0".toList, call := "DL1XYZ".toList,
      spotHour := 25, spotMinute := 75, mode := "-".toList }
    (by decide) (by decide) (by decide) (by decide) (by decide) (by decide) (by decide)
    (by decide)).1

/-! ## Theorems: ring buffer invariants and clearing -/

/-- The newest-first read after appending to an empty ring: row i is a valid
slot and holds the record at position N - 1 - i. -/
theorem addSpots_read (rs : List DxSpot) (s0 : ApplicationState)
    (hc : s0.spotCount = 0) (hl : s0.latestSpotIndex = -1) (hlen : s0.spots.length = 6)
    (i : Nat) (hi : (i : Int) < (addSpots rs s0).spotCount) :
    i < rs.length ∧ i < 6 ∧
    (addSpots rs s0).spots[(displayIndex (addSpots rs s0) i).toNat]? = rs[rs.length - 1 - i]? := by
  obtain ⟨_, h2, h3, h4⟩ := addSpots_inv rs s0 hc hl hlen
  rw [h2] at hi
  have hiN : i < rs.length := by omega
  have hi6 : i < 6 := by omega
  have hne : rs.length ≠ 0 := by omega
  have hidx : displayIndex (addSpots rs s0) i = (((rs.length - 1 - i) % 6 : Nat) : Int) := by
    simp only [displayIndex, h3, hne, if_false, MAX_SPOTS]
    rw [Int.tmod_eq_emod (by omega) (by omega)]
    omega
  refine ⟨hiN, hi6, ?_⟩
  rw [hidx, Int.toNat_ofNat, h4 (rs.length - 1 - i) (by omega) (by omega)]

theorem runOps_snoc (ops : List SpotOp) (op : SpotOp) (s : ApplicationState) :
    runOps (ops ++ [op]) s = applyOp (runOps ops s) op := by
  simp [runOps, List.foldl_append]

theorem sinceClear_snoc (ops : List SpotOp) (op : SpotOp) :
    sinceClear (ops ++ [op]) =
      match op with
      | SpotOp.add r => sinceClear ops ++ [r]
      | SpotOp.clear => [] := by
  simp [sinceClear, List.foldl_append]

/-- Every reachable state is the result of appending the records added since
the last clear to an empty ring. -/
theorem runOps_eq_addSpots (ops : List SpotOp) (s0 : ApplicationState)
    (hc : s0.spotCount = 0) (hl : s0.latestSpotIndex = -1) (hlen : s0.spots.length = 6) :
    ∃ base : ApplicationState, base.spotCount = 0 ∧ base.latestSpotIndex = -1 ∧
      base.spots.length = 6 ∧ runOps ops s0 = addSpots (sinceClear ops) base := by
  induction ops using List.reverseRecOn with
  | nil => exact ⟨s0, hc, hl, hlen, rfl⟩
  | append_singleton ops op ih =>
    obtain ⟨base, b1, b2, b3, hb⟩ := ih
    rw [runOps_snoc, sinceClear_snoc]
    cases op with
    | add r =>
      refine ⟨base, b1, b2, b3, ?_⟩
      simp only [applyOp, hb, addSpots_snoc]
    | clear =>
      refine ⟨clearSpots (runOps ops s0), rfl, rfl, ?_, rfl⟩
      rw [hb]
      exact (addSpots_inv (sinceClear ops) base b1 b2 b3).1

/-- C19: in every state reached from the initial state (spotCount = 0,
latestSpotIndex = -1) by addSpot and clearSpots calls, spotCount is in 0..6,
latestSpotIndex is -1 when spotCount is 0 and in 0..5 otherwise, and
latestSpotIndex = spotCount - 1 while spotCount is below 6; every row i below
spotCount of the newest-first read is a slot written since the last clear: it
holds the record appended i-th from last since then. -/
theorem C19_ring_invariants (ops : List SpotOp) (s0 : ApplicationState)
    (hc : s0.spotCount = 0) (hl : s0.latestSpotIndex = -1) (hlen : s0.spots.length = 6) :
    (0 ≤ (runOps ops s0).spotCount ∧ (runOps ops s0).spotCount ≤ 6) ∧
    ((runOps ops s0).spotCount = 0 → (runOps ops s0).latestSpotIndex = -1) ∧
    ((runOps ops s0).spotCount ≠ 0 →
      0 ≤ (runOps ops s0).latestSpotIndex ∧ (runOps ops s0).latestSpotIndex ≤ 5) ∧
    ((runOps ops s0).spotCount < 6 →
      (runOps ops s0).latestSpotIndex = (runOps ops s0).spotCount - 1) ∧
    (∀ i : Nat, (i : Int) < (runOps ops s0).spotCount →
      ∃ r : DxSpot, (sinceClear ops)[(sinceClear ops).length - 1 - i]? = some r ∧
        (runOps ops s0).spots[(displayIndex (runOps ops s0) i).toNat]? = some r) := by
  obtain ⟨base, b1, b2, b3, hb⟩ := runOps_eq_addSpots ops s0 hc hl hlen
  obtain ⟨_, h2, h3, _⟩ := addSpots_inv (sinceClear ops) base b1 b2 b3
  rw [hb]
  refine ⟨?_, ?_, ?_, ?_, ?_⟩
  · rw [h2]; omega
  · intro h0
    rw [h2] at h0
    rw [h3, if_pos (by omega)]
  · intro h0
    rw [h2] at h0
    rw [h3, if_neg (by omega)]
    omega
  · intro h6
    rw [h2] at h6
    rw [h3, h2]
    split <;> omega
  · intro i hi
    obtain ⟨hiN, _, hread⟩ := addSpots_read (sinceClear ops) base b1 b2 b3 i hi
    refine ⟨(sinceClear ops)[(sinceClear ops).length - 1 - i], ?_, ?_⟩
    · exact List.getElem?_eq_getElem (by omega)
    · rw [hread]
      exact List.getElem?_eq_getElem (by omega)

theorem C19_ring_invariants_witness :
    (runOps [SpotOp.add (spotN 1), SpotOp.add (spotN 2), SpotOp.clear, SpotOp.add (spotN 3)]
        state0).latestSpotIndex =
      (runOps [SpotOp.add (spotN 1), SpotOp.add (spotN 2), SpotOp.clear, SpotOp.add (spotN 3)]
        state0).spotCount - 1 :=
  (C19_ring_invariants
    [SpotOp.add (spotN 1), SpotOp.add (spotN 2), SpotOp.clear, SpotOp.add (spotN 3)]
    state0 rfl rfl rfl).2.2.2.1 (by decide)

/-- C20: appending records after clearSpots gives the same spotCount, the same
latestSpotIndex and the same newest-first sequence of records as appending them
to a freshly created buffer, although clearSpots leaves the slots as they were. -/
theorem C20_clearSpots_as_fresh (s fresh : ApplicationState) (rs : List DxSpot)
    (hlen : s.spots.length = 6) (hc : fresh.spotCount = 0) (hl : fresh.latestSpotIndex = -1)
    (hflen : fresh.spots.length = 6) :
    (addSpots rs (clearSpots s)).spotCount = (addSpots rs fresh).spotCount ∧
    (addSpots rs (clearSpots s)).latestSpotIndex = (addSpots rs fresh).latestSpotIndex ∧
    newestFirst (addSpots rs (clearSpots s)) = newestFirst (addSpots rs fresh) ∧
    (clearSpots s).spots = s.spots := by
  obtain ⟨_, a2, a3, _⟩ := addSpots_inv rs (clearSpots s) rfl rfl hlen
  obtain ⟨_, f2, f3, _⟩ := addSpots_inv rs fresh hc hl hflen
  have hcount : (addSpots rs (clearSpots s)).spotCount = (addSpots rs fresh).spotCount := by
    rw [a2, f2]
  refine ⟨hcount, by rw [a3, f3], ?_, rfl⟩
  unfold newestFirst
  rw [hcount]
  apply List.map_congr_left
  intro i hi
  have hi2 : (i : Int) < (addSpots rs fresh).spotCount := by
    have := List.mem_range.mp hi
    omega
  rw [(addSpots_read rs fresh hc hl hflen i hi2).2.2,
    (addSpots_read rs (clearSpots s) rfl rfl hlen i (by rw [hcount]; exact hi2)).2.2]

theorem C20_clearSpots_as_fresh_witness :
    newestFirst (addSpots [spotN 7, spotN 8]
        (clearSpots (addSpots [spotN 1, spotN 2, spotN 3] state0))) =
      newestFirst (addSpots [spotN 7, spotN 8] state0) :=
  (C20_clearSpots_as_fresh (addSpots [spotN 1, spotN 2, spotN 3] state0) state0
    [spotN 7, spotN 8] (by decide) rfl rfl rfl).2.2.1

/-! ## Theorems: fields of an appended spot -/

theorem parseSpot_eq_spotOfLine (atof : List Char → CFloat) (line : List Char)
    (state : ApplicationState) :
    parseSpot atof line state =
      match spotOfLine atof line with
      | none => state
      | some r => addSpot r state := by
  unfold parseSpot spotOfLine
  cases strstr line "DX de ".toList with
  | none => rfl
  | some de_ptr =>
    dsimp only
    cases strchr (de_ptr.drop 6) ':' with
    | none => rfl
    | some colon_ptr =>
      dsimp only
      cases strchr ((colon_ptr.drop 1).dropWhile isspace) ' ' with
      | none => rfl
      | some freq_end =>
        dsimp only
        cases strchr ((freq_end.drop 1).dropWhile isspace) ' ' with
        | none => rfl
        | some call_end =>
          dsimp only
          cases strrchr line ' ' with
          | none => rfl
          | some time_ptr =>
            dsimp only
            split <;> rfl

theorem strchr_split (s : List Char) (c : Char) (r : List Char) (h : strchr s c = some r) :
    ∃ pre rest : List Char, s = pre ++ c :: rest ∧ r = c :: rest ∧ c ∉ pre := by
  induction s with
  | nil => simp [strchr] at h
  | cons x xs ih =>
    unfold strchr at h
    split at h
    · rename_i hx
      cases h
      exact ⟨[], xs, by rw [hx]; rfl, by rw [hx], by simp⟩
    · rename_i hx
      obtain ⟨pre, rest, h1, h2, h3⟩ := ih h
      refine ⟨x :: pre, rest, by rw [h1]; rfl, h2, ?_⟩
      intro hm
      rcases List.mem_cons.mp hm with e | e
      · exact hx e.symm
      · exact h3 e

/-- A text is the white space at its start followed by the rest, which does not
start with white space. -/
theorem dropWhile_isspace_split (l : List Char) :
    l = l.takeWhile isspace ++ l.dropWhile isspace ∧
    (∀ c ∈ l.takeWhile isspace, isspace c = true) ∧
    (∀ c, (l.dropWhile isspace).head? = some c → isspace c = false) := by
  refine ⟨(List.takeWhile_append_dropWhile isspace l).symm,
    fun c hc => List.mem_takeWhile_imp hc, ?_⟩
  induction l with
  | nil => intro c hc; cases hc
  | cons x xs ih =>
    intro c hc
    by_cases hx : isspace x = true
    · rw [List.dropWhile_cons_of_pos hx] at hc
      exact ih c hc
    · rw [List.dropWhile_cons_of_neg hx] at hc
      simp only [List.head?_cons, Option.some.injEq] at hc
      rw [← hc]
      simpa using hx

/-- The copy made by strncpy in parseSpot from a token that ends at the pointer
stop: the leading part of the token, cut to the capacity of the field. -/
theorem take_token (tok rest : List Char) (c : Char) (cap : Nat) :
    (tok ++ c :: rest).take (min ((tok ++ c :: rest).length - (c :: rest).length) cap)
      = tok.take cap := by
  have hl : (tok ++ c :: rest).length - (c :: rest).length = tok.length := by simp
  rw [hl, Nat.min_comm, ← List.take_take, List.take_left]

/-- The tokens of a line that parseSpot accepts: the line is split at the first
marker, the first colon after it, the white space after the colon, the first
space after the frequency token, the white space after it and the first space
after the call token; the three fields of the record are the leading parts of
the three tokens. -/
theorem spotOfLine_tokens (atof : List Char → CFloat) (line : List Char) (r : DxSpot)
    (h : spotOfLine atof line = some r) :
    ∃ pre spotterTok ws1 freqTok ws2 callTok rest : List Char,
      spotTokens line pre spotterTok ws1 freqTok ws2 callTok rest ∧
      r.spotter = spotterTok.take 11 ∧ r.freq = freqTok.take 9 ∧ r.call = callTok.take 11 := by
  unfold spotOfLine at h
  cases h1 : strstr line "DX de ".toList with
  | none => rw [h1] at h; cases h
  | some de_ptr =>
    rw [h1] at h
    dsimp only at h
    cases h2 : strchr (de_ptr.drop 6) ':' with
    | none => rw [h2] at h; cases h
    | some colon_ptr =>
      rw [h2] at h
      dsimp only at h
      cases h3 : strchr ((colon_ptr.drop 1).dropWhile isspace) ' ' with
      | none => rw [h3] at h; cases h
      | some freq_end =>
        rw [h3] at h
        dsimp only at h
        cases h4 : strchr ((freq_end.drop 1).dropWhile isspace) ' ' with
        | none => rw [h4] at h; cases h
        | some call_end =>
          rw [h4] at h
          dsimp only at h
          cases h5 : strrchr line ' ' with
          | none => rw [h5] at h; cases h
          | some time_ptr =>
            rw [h5] at h
            dsimp only at h
            split at h
            · cases h
            · cases h
              obtain ⟨tokS, restS, aS, bS, nS⟩ := strchr_split _ _ _ h2
              subst bS
              simp only [List.drop_succ_cons, List.drop_zero] at h3 h4 ⊢
              obtain ⟨tokF, restF, aF, bF, nF⟩ := strchr_split _ _ _ h3
              subst bF
              simp only [List.drop_succ_cons, List.drop_zero] at h4 ⊢
              obtain ⟨tokC, restC, aC, bC, nC⟩ := strchr_split _ _ _ h4
              subst bC
              obtain ⟨pre, hpre⟩ := strstr_suffix _ _ _ h1
              have hmark : "DX de ".toList <+: de_ptr := strstr_some_starts _ _ _ h1
              have hde : de_ptr = "DX de ".toList ++ de_ptr.drop 6 := by
                obtain ⟨t, ht⟩ := hmark
                rw [← ht, List.drop_left']
                rfl
              obtain ⟨w1, w1s, w1h⟩ := dropWhile_isspace_split restS
              obtain ⟨w2, w2s, w2h⟩ := dropWhile_isspace_split restF
              have hdrop : line.drop pre.length = de_ptr := by
                rw [← hpre, List.drop_left]
              have hF : ∃ c, tokF.head? = some c ∧ isspace c = false := by
                cases tokF with
                | nil =>
                  have := w1h ' ' (by rw [aF]; rfl)
                  exact absurd this (by decide)
                | cons c cs => exact ⟨c, rfl, w1h c (by rw [aF]; rfl)⟩
              have hC : ∃ c, tokC.head? = some c ∧ isspace c = false := by
                cases tokC with
                | nil =>
                  have := w2h ' ' (by rw [aC]; rfl)
                  exact absurd this (by decide)
                | cons c cs => exact ⟨c, rfl, w2h c (by rw [aC]; rfl)⟩
              refine ⟨pre, tokS, restS.takeWhile isspace, tokF, restF.takeWhile isspace, tokC,
                restC, ⟨?_, ?_, nS, w1s, hF, nF, w2s, hC, nC⟩, ?_, ?_, ?_⟩
              · rw [← aC, ← w2, ← aF, ← w1, ← aS, ← hde, hpre]
              · rw [hdrop]
                exact h1
              · show List.take _ _ = _
                rw [aS]
                exact take_token tokS restS ':' 11
              · show List.take _ _ = _
                rw [aF]
                exact take_token tokF restF ' ' 9
              · show List.take _ _ = _
                rw [aC]
                exact take_token tokC restC ' ' 11

theorem split_at_char_unique (a b a2 b2 : List Char) (c : Char)
    (h : a ++ c :: b = a2 ++ c :: b2) (ha : c ∉ a) (ha2 : c ∉ a2) : a = a2 ∧ b = b2 := by
  induction a generalizing a2 with
  | nil =>
    cases a2 with
    | nil => simpa using h
    | cons y ys =>
      simp only [List.nil_append, List.cons_append, List.cons.injEq] at h
      exact absurd (h.1 ▸ List.mem_cons_self _ _) ha2
  | cons x xs ih =>
    cases a2 with
    | nil =>
      simp only [List.nil_append, List.cons_append, List.cons.injEq] at h
      exact absurd (h.1 ▸ List.mem_cons_self _ _) ha
    | cons y ys =>
      simp only [List.cons_append, List.cons.injEq] at h
      obtain ⟨e1, e2⟩ := ih ys h.2 (fun hm => ha (List.mem_cons_of_mem _ hm))
        (fun hm => ha2 (List.mem_cons_of_mem _ hm))
      exact ⟨by rw [h.1, e1], e2⟩

theorem split_at_space_unique (w t w2 t2 : List Char) (h : w ++ t = w2 ++ t2)
    (hw : ∀ c ∈ w, isspace c = true) (hw2 : ∀ c ∈ w2, isspace c = true)
    (ht : ∃ c, t.head? = some c ∧ isspace c = false)
    (ht2 : ∃ c, t2.head? = some c ∧ isspace c = false) : w = w2 ∧ t = t2 := by
  induction w generalizing w2 with
  | nil =>
    cases w2 with
    | nil => simpa using h
    | cons y ys =>
      obtain ⟨c, hc, hs⟩ := ht
      simp only [List.nil_append, List.cons_append] at h
      rw [h] at hc
      simp only [List.head?_cons, Option.some.injEq] at hc
      have := hw2 y (List.mem_cons_self _ _)
      rw [hc, hs] at this
      cases this
  | cons x xs ih =>
    cases w2 with
    | nil =>
      obtain ⟨c, hc, hs⟩ := ht2
      simp only [List.nil_append, List.cons_append] at h
      rw [← h] at hc
      simp only [List.head?_cons, Option.some.injEq] at hc
      have := hw x (List.mem_cons_self _ _)
      rw [hc, hs] at this
      cases this
    | cons y ys =>
      simp only [List.cons_append, List.cons.injEq] at h
      obtain ⟨e1, e2⟩ := ih ys h.2 (fun c hm => hw c (List.mem_cons_of_mem _ hm))
        (fun c hm => hw2 c (List.mem_cons_of_mem _ hm))
      exact ⟨by rw [h.1, e1], e2⟩

/-- The split of a line into tokens is unique. -/
theorem spotTokens_unique (line pre s w1 f w2 c rest pre2 s2 w12 f2 w22 c2 rest2 : List Char)
    (h : spotTokens line pre s w1 f w2 c rest)
    (h2 : spotTokens line pre2 s2 w12 f2 w22 c2 rest2) : s2 = s ∧ f2 = f ∧ c2 = c := by
  obtain ⟨a1, a2, a3, a4, a5, a6, a7, a8, a9⟩ := h
  obtain ⟨b1, b2, b3, b4, b5, b6, b7, b8, b9⟩ := h2
  have hd : line.drop pre.length = line.drop pre2.length := by
    rw [a2] at b2
    exact Option.some.inj b2
  have d1 : line.drop pre.length = "DX de ".toList ++ (s ++ ':' :: (w1 ++ (f ++ ' ' ::
      (w2 ++ (c ++ ' ' :: rest))))) := by
    conv_lhs => rw [a1]
    rw [List.drop_left]
  have d2 : line.drop pre2.length = "DX de ".toList ++ (s2 ++ ':' :: (w12 ++ (f2 ++ ' ' ::
      (w22 ++ (c2 ++ ' ' :: rest2))))) := by
    conv_lhs => rw [b1]
    rw [List.drop_left]
  rw [d1, d2] at hd
  have e0 := List.append_cancel_left hd
  obtain ⟨es, e1⟩ := split_at_char_unique _ _ _ _ ':' e0 a3 b3
  obtain ⟨_, e2⟩ := split_at_space_unique _ _ _ _ e1 a4 b4
    (by obtain ⟨x, hx, hs⟩ := a5; exact ⟨x, by cases f <;> simp_all, hs⟩)
    (by obtain ⟨x, hx, hs⟩ := b5; exact ⟨x, by cases f2 <;> simp_all, hs⟩)
  obtain ⟨ef, e3⟩ := split_at_char_unique _ _ _ _ ' ' e2 a6 b6
  obtain ⟨_, e4⟩ := split_at_space_unique _ _ _ _ e3 a7 b7
    (by obtain ⟨x, hx, hs⟩ := a8; exact ⟨x, by cases c <;> simp_all, hs⟩)
    (by obtain ⟨x, hx, hs⟩ := b8; exact ⟨x, by cases c2 <;> simp_all, hs⟩)
  obtain ⟨ec, _⟩ := split_at_char_unique _ _ _ _ ' ' e4 a9 b9
  exact ⟨es.symm, ef.symm, ec.symm⟩

theorem getModeFromLine_values (line : List Char) (f : CFloat) :
    getModeFromLine line f 5 ∈
      ["FT8".toList, "FT4".toList, "SSB".toList, "CW".toList, "-".toList] := by
  have e1 : strlcpy "FT8".toList 5 = "FT8".toList := rfl
  have e2 : strlcpy "FT4".toList 5 = "FT4".toList := rfl
  have e3 : strlcpy "SSB".toList 5 = "SSB".toList := rfl
  have e4 : strlcpy "CW".toList 5 = "CW".toList := rfl
  have e5 : strlcpy "-".toList 5 = "-".toList := rfl
  unfold getModeFromLine
  dsimp only
  rw [e1, e2, e3, e4, e5]
  split_ifs <;> simp

/-- C21: every record r that parseSpot appends for a line has a spotter of at
most 11 characters, a frequency text of at most 9 and a call of at most 11,
each the leading part of that length of its token in the line, and a mode that
is one of FT8, FT4, SSB, CW and -. The tokens are those of the split of the
line that spotTokens describes (spotter token after the first marker up to the
colon, then the frequency token and the call token, each after white space and
up to the next space), and this split is the only one. -/
theorem C21_spot_fields_bounded (atof : List Char → CFloat) (line : List Char)
    (state : ApplicationState) (r : DxSpot) (h : spotOfLine atof line = some r) :
    parseSpot atof line state = addSpot r state ∧
    r.spotter.length ≤ 11 ∧ r.freq.length ≤ 9 ∧ r.call.length ≤ 11 ∧
    (∃ pre spotterTok ws1 freqTok ws2 callTok rest : List Char,
      spotTokens line pre spotterTok ws1 freqTok ws2 callTok rest ∧
      r.spotter = spotterTok.take 11 ∧ r.freq = freqTok.take 9 ∧ r.call = callTok.take 11 ∧
      ∀ pre2 spotterTok2 ws12 freqTok2 ws22 callTok2 rest2 : List Char,
        spotTokens line pre2 spotterTok2 ws12 freqTok2 ws22 callTok2 rest2 →
        spotterTok2 = spotterTok ∧ freqTok2 = freqTok ∧ callTok2 = callTok) ∧
    r.mode ∈ ["FT8".toList, "FT4".toList, "SSB".toList, "CW".toList, "-".toList] := by
  have hparse := parseSpot_eq_spotOfLine atof line state
  rw [h] at hparse
  have htok := spotOfLine_tokens atof line r h
  have hmode : r.mode ∈ ["FT8".toList, "FT4".toList, "SSB".toList, "CW".toList, "-".toList] := by
    unfold spotOfLine at h
    split at h
    · cases h
    · split at h
      · cases h
      · split at h
        · cases h
        · split at h
          · cases h
          · split at h
            · cases h
            · split at h
              · cases h
              · injection h with h
                subst h
                exact getModeFromLine_values line _
  obtain ⟨pre, tokS, ws1, tokF, ws2, tokC, rest, hsplit, eS, eF, eC⟩ := htok
  refine ⟨hparse, ?_, ?_, ?_,
    ⟨pre, tokS, ws1, tokF, ws2, tokC, rest, hsplit, eS, eF, eC, ?_⟩, hmode⟩
  · rw [eS, List.length_take]; omega
  · rw [eF, List.length_take]; omega
  · rw [eC, List.length_take]; omega
  · intro pre2 s2 w12 f2 w22 c2 rest2 h2
    exact spotTokens_unique line pre tokS ws1 tokF ws2 tokC rest pre2 s2 w12 f2 w22 c2 rest2
      hsplit h2

theorem C21_spot_fields_bounded_witness :
    parseSpot atofZero
        "DX de VERYLONGSPOTTER1: 14074.123456 VERYLONGCALLSIGN FT8 1234Z".toList state0
      = addSpot
          { spotter := "VERYLONGSPO".toList, freq := "14074.123".toList,
            call := "VERYLONGCAL".toList, spotHour := 12, spotMinute := 34,
            mode := "FT8".toList } state0 :=
  (C21_spot_fields_bounded atofZero
    "DX de VERYLONGSPOTTER1: 14074.123456 VERYLONGCALLSIGN FT8 1234Z".toList state0
    { spotter := "VERYLONGSPO".toList, freq := "14074.123".toList,
      call := "VERYLONGCAL".toList, spotHour := 12, spotMinute := 34,
      mode := "FT8".toList } (by decide)).1

/-! ## Theorems: sign of the elapsed time -/

theorem C24_negative_elapsed_counterexample :
    spotOfLine atofZero "DX de SP7ABC:  14074.0  K1ABC  FT8 -10dB  9999Z".toList =
      some { spotter := "SP7ABC".toList, freq := "14074.0".toList, call := "K1ABC".toList,
             spotHour := 99, spotMinute := 99, mode := "FT8".toList } ∧
    elapsedSeconds 0 99 99 = -275940 ∧
    elapsedSeconds 86399 99 99 < 0 := by
  decide

theorem atoiDigits_short (l : List Char) (h : l.length ≤ 2) :
    0 ≤ atoiDigits l 0 ∧ atoiDigits l 0 ≤ 99 ∧ (l.length ≤ 1 → atoiDigits l 0 ≤ 9) := by
  have hd : ∀ c : Char, isdigit c = true → 48 ≤ (c.toNat : Int) ∧ (c.toNat : Int) ≤ 57 := by
    intro c hc
    simp only [isdigit, Bool.and_eq_true, decide_eq_true_eq] at hc
    omega
  rcases l with _ | ⟨x, _ | ⟨y, _ | ⟨z, zs⟩⟩⟩
  · simp [atoiDigits]
  · simp only [atoiDigits]
    split
    · rename_i hx
      have := hd x hx
      refine ⟨by omega, by omega, fun _ => by omega⟩
    · simp
  · simp only [atoiDigits]
    split
    · rename_i hx
      have h1 := hd x hx
      split
      · rename_i hy
        have h2 := hd y hy
        refine ⟨by omega, by omega, fun hl => by simp at hl⟩
      · refine ⟨by omega, by omega, fun hl => by simp at hl⟩
    · refine ⟨by omega, by omega, fun _ => by omega⟩
  · simp only [List.length_cons] at h
    omega

/-- The value that atoi reads from two characters lies in -9..99. -/
theorem atoi_two_chars_range (a b : Char) :
    -9 ≤ atoi (cstr [a, b]) ∧ atoi (cstr [a, b]) ≤ 99 := by
  have hl : (cstr [a, b]).length ≤ 2 := by
    have := (List.takeWhile_prefix (fun c => c != NUL) (l := [a, b])).length_le
    simpa [cstr] using this
  generalize cstr [a, b] = l at hl
  have hp : (l.dropWhile isspace).length ≤ 2 :=
    (List.dropWhile_suffix (l := l) isspace).length_le.trans hl
  simp only [atoi, atoiValue, INT_MIN, INT_MAX]
  generalize l.dropWhile isspace = p at hp
  have h0 := atoiDigits_short p hp
  have h1 := atoiDigits_short (p.drop 1) (by rw [List.length_drop]; omega)
  have h9 := h1.2.2 (by rw [List.length_drop]; omega)
  split
  · omega
  · split <;> omega

/-- The hour and the minute of a record that parseSpot appends are values of
atoi on two characters. -/
theorem spotOfLine_time_range (atof : List Char → CFloat) (line : List Char) (r : DxSpot)
    (h : spotOfLine atof line = some r) :
    (-9 ≤ r.spotHour ∧ r.spotHour ≤ 99) ∧ (-9 ≤ r.spotMinute ∧ r.spotMinute ≤ 99) := by
  unfold spotOfLine at h
  split at h
  · cases h
  · split at h
    · cases h
    · split at h
      · cases h
      · split at h
        · cases h
        · split at h
          · cases h
          · split at h
            · cases h
            · injection h with h
              subst h
              simp only [buildSpot]
              exact ⟨atoi_two_chars_range _ _, atoi_two_chars_range _ _⟩

/-- C24 (amended): for a record that parseSpot appends and a current UTC second
of day t in 0..86399, the hour and the minute of the record lie in -9..99 and
are not checked further; the elapsed seconds computed for the record are not
negative exactly when 3600 hour + 60 minute is at most t + 86400; they are
never negative when the hour is in 0..23 and the minute in 0..59. -/
theorem C24_elapsed_sign (atof : List Char → CFloat) (line : List Char) (r : DxSpot) (t : Int)
    (h : spotOfLine atof line = some r) (h0 : 0 ≤ t) (h1 : t ≤ 86399) :
    (-9 ≤ r.spotHour ∧ r.spotHour ≤ 99 ∧ -9 ≤ r.spotMinute ∧ r.spotMinute ≤ 99) ∧
    (0 ≤ elapsedSeconds t r.spotHour r.spotMinute ↔
      3600 * r.spotHour + 60 * r.spotMinute ≤ t + 86400) ∧
    (0 ≤ r.spotHour ∧ r.spotHour ≤ 23 ∧ 0 ≤ r.spotMinute ∧ r.spotMinute ≤ 59 →
      0 ≤ elapsedSeconds t r.spotHour r.spotMinute) := by
  have hr := spotOfLine_time_range atof line r h
  refine ⟨⟨hr.1.1, hr.1.2, hr.2.1, hr.2.2⟩, ?_, ?_⟩
  · simp only [elapsedSeconds]
    split <;> constructor <;> intro _ <;> omega
  · intro hr
    simp only [elapsedSeconds]
    split <;> omega

theorem C24_elapsed_sign_witness :
    0 ≤ elapsedSeconds 300 12 34 :=
  (C24_elapsed_sign atofZero "DX de SP7ABC:  14074.0  K1ABC  FT8 -10dB  1234Z".toList
    { spotter := "SP7ABC".toList, freq := "14074.0".toList, call := "K1ABC".toList,
      spotHour := 12, spotMinute := 34, mode := "FT8".toList } 300 (by decide) (by decide)
    (by decide)).2.2 (by decide)

/-! ## Theorems: propagation fetch -/

/-- C22: fetchPropagationData returns true exactly when WiFi is connected and
the status code is 200; propDataAvailable equals the returned value afterwards;
when it returns false solarData and lastPropUpdateTime are unchanged; with WiFi
down no HTTP request is made; with status 200 it returns true for every
response body, the empty one included. -/
theorem C22_fetchPropagationData (beyond : List Char) (state : ApplicationState) (statusCode : Int)
    (responseBody : List Char) (now : Nat) :
    ((fetchPropagationData beyond state statusCode responseBody now).1 = true ↔
      state.network.isWifiConnected = true ∧ statusCode = 200) ∧
    (fetchPropagationData beyond state statusCode responseBody now).2.1.propDataAvailable =
      (fetchPropagationData beyond state statusCode responseBody now).1 ∧
    ((fetchPropagationData beyond state statusCode responseBody now).1 = false →
      (fetchPropagationData beyond state statusCode responseBody now).2.1.solarData = state.solarData ∧
      (fetchPropagationData beyond state statusCode responseBody now).2.1.lastPropUpdateTime =
        state.lastPropUpdateTime) ∧
    (state.network.isWifiConnected = false →
      (fetchPropagationData beyond state statusCode responseBody now).2.2 = false) ∧
    (state.network.isWifiConnected = true →
      (fetchPropagationData beyond state 200 responseBody now).1 = true ∧
      (fetchPropagationData beyond state 200 [] now).1 = true) := by
  unfold fetchPropagationData parsePropagationData
  by_cases hw : state.network.isWifiConnected = false
  · simp [hw]
  · have hw2 : state.network.isWifiConnected = true := by
      cases hb : state.network.isWifiConnected with
      | true => rfl
      | false => exact absurd hb hw
    by_cases hs : statusCode = 200
    · simp [hw2, hs]
    · simp [hw2, hs]

/-! ## Theorems: telnet login -/

theorem loginLoop_true_iff (lines : List (List Char)) :
    (loginLoop lines).1 = true ↔
      ∃ (pre : List (List Char)) (l : List Char) (post : List (List Char)),
        lines = pre ++ l :: post ∧
        (∀ m ∈ pre, ¬ "Hello ".toList <:+: m ∧ ¬ "Login failed".toList <:+: m) ∧
        "Hello ".toList <:+: l := by
  induction lines with
  | nil =>
    simp [loginLoop]
  | cons line rest ih =>
    unfold loginLoop
    by_cases hh : (strstr line "Hello ".toList).isSome = true
    · rw [if_pos hh]
      simp only [true_iff]
      exact ⟨[], line, rest, rfl, by simp, (strstr_isSome_iff _ _).mp hh⟩
    · rw [if_neg hh]
      have nh : ¬ "Hello ".toList <:+: line := fun e => hh ((strstr_isSome_iff _ _).mpr e)
      by_cases hf : (strstr line "Login failed".toList).isSome = true
      · rw [if_pos hf]
        have yf : "Login failed".toList <:+: line := (strstr_isSome_iff _ _).mp hf
        constructor
        · intro h; cases h
        · rintro ⟨pre, l, post, hl, hpre, hl2⟩
          cases pre with
          | nil =>
            simp only [List.nil_append, List.cons.injEq] at hl
            rw [← hl.1] at hl2
            exact absurd hl2 nh
          | cons m ms =>
            simp only [List.cons_append, List.cons.injEq] at hl
            have := hpre m (by simp)
            rw [← hl.1] at this
            exact absurd yf this.2
      · rw [if_neg hf, ih]
        have nf : ¬ "Login failed".toList <:+: line :=
          fun e => hf ((strstr_isSome_iff _ _).mpr e)
        constructor
        · rintro ⟨pre, l, post, hl, hpre, hl2⟩
          refine ⟨line :: pre, l, post, by rw [hl]; rfl, ?_, hl2⟩
          intro m hm
          rcases List.mem_cons.mp hm with e | e
          · rw [e]; exact ⟨nh, nf⟩
          · exact hpre m e
        · rintro ⟨pre, l, post, hl, hpre, hl2⟩
          cases pre with
          | nil =>
            simp only [List.nil_append, List.cons.injEq] at hl
            rw [← hl.1] at hl2
            exact absurd hl2 nh
          | cons m ms =>
            simp only [List.cons_append, List.cons.injEq] at hl
            exact ⟨ms, l, post, hl.2, fun x hx => hpre x (by simp [hx]), hl2⟩

theorem loginLoop_sent (lines : List (List Char)) :
    (loginLoop lines).2 =
      if (loginLoop lines).1 = true then [TelnetAction.println "sh/dx 6".toList] else [] := by
  induction lines with
  | nil => simp [loginLoop]
  | cons line rest ih =>
    unfold loginLoop
    split
    · rfl
    · split
      · rfl
      · exact ih

/-- C23: connectToTelnet returns false without a connection attempt when WiFi
is not connected; otherwise it returns true exactly when the connection
succeeds and, among the lines read before the login timeout, the first that
contains Hello or Login failed contains Hello; the command sh/dx 6 is sent
exactly when it returns true; the state, the spot buffer included, is
unchanged in every case. -/
theorem C23_connectToTelnet (state : ApplicationState) (connectOk : Bool)
    (lines : List (List Char)) :
    (state.network.isWifiConnected = false →
      (connectToTelnet state connectOk lines).1 = false ∧
      TelnetAction.connect ∉ (connectToTelnet state connectOk lines).2.2) ∧
    (state.network.isWifiConnected = true →
      ((connectToTelnet state connectOk lines).1 = true ↔
        connectOk = true ∧
        ∃ (pre : List (List Char)) (l : List Char) (post : List (List Char)),
          lines = pre ++ l :: post ∧
          (∀ m ∈ pre, ¬ "Hello ".toList <:+: m ∧ ¬ "Login failed".toList <:+: m) ∧
          "Hello ".toList <:+: l)) ∧
    (state.network.isWifiConnected = true → connectOk = true →
      (connectToTelnet state connectOk lines).2.2 =
        [TelnetAction.connect, TelnetAction.println state.network.telnetUsername,
          TelnetAction.println state.network.telnetPassword] ++
        (if (connectToTelnet state connectOk lines).1 = true
          then [TelnetAction.println "sh/dx 6".toList] else [])) ∧
    ((connectToTelnet state connectOk lines).1 = false →
      ∀ text, (connectToTelnet state connectOk lines).2.2.drop 3 ≠ [TelnetAction.println text]) ∧
    (connectToTelnet state connectOk lines).2.1 = state := by
  by_cases hw : state.network.isWifiConnected = false
  · have e : connectToTelnet state connectOk lines = (false, state, []) := by
      simp [connectToTelnet, hw]
    rw [e]
    simp [hw]
  · have hw2 : state.network.isWifiConnected = true := by
      cases hb : state.network.isWifiConnected with
      | true => rfl
      | false => exact absurd hb hw
    cases connectOk with
    | false =>
      have e : connectToTelnet state false lines = (false, state, [TelnetAction.connect]) := by
        simp [connectToTelnet, hw2]
      rw [e]
      simp [hw2]
    | true =>
      have e : connectToTelnet state true lines =
          ((loginLoop lines).1, state,
            [TelnetAction.connect, TelnetAction.println state.network.telnetUsername,
              TelnetAction.println state.network.telnetPassword] ++
            (if (loginLoop lines).1 = true then [TelnetAction.println "sh/dx 6".toList]
              else [])) := by
        rw [← loginLoop_sent]
        simp [connectToTelnet, hw2]
      rw [e]
      refine ⟨fun h => absurd h hw, fun _ => ?_, fun _ _ => rfl, ?_, rfl⟩
      · simp only [true_and]
        exact loginLoop_true_iff lines
      · intro hf text
        simp only at hf
        simp [hf]

/-! ## Theorems: attributes of a band tag -/

/-- C25 (fails on the code): the first band tag of the payload has no time
attribute between its own angle brackets, yet the parse stores its condition:
getAttrValue searches from the tag to the end of the payload and finds the
time attribute of the second tag, so slot 0 is GOOD, not UNKNOWN. -/
theorem C25_band_reads_later_attribute (beyond : List Char) :
    (parse beyond
        "<band name=\"80m-40m\">Good</band><band name=\"30m-20m\" time=\"day\">Fair</band>".toList
        state0).solarData.propagation =
      [PropagationCondition.GOOD, PropagationCondition.FAIR, PropagationCondition.UNKNOWN,
        PropagationCondition.UNKNOWN, PropagationCondition.UNKNOWN, PropagationCondition.UNKNOWN,
        PropagationCondition.UNKNOWN, PropagationCondition.UNKNOWN] ∧
    strstr " name=\"80m-40m\"".toList "time".toList = none ∧
    (getAttrValue beyond
        " name=\"80m-40m\">Good</band><band name=\"30m-20m\" time=\"day\">Fair</band>".toList
        "time".toList [] 8).2 = "day".toList ∧
    (parse beyond "<band name=\"80m-40m\">Good</band>".toList state0).solarData.propagation =
      List.replicate 8 PropagationCondition.UNKNOWN ∧
    (parse beyond
        "<band time=\"night\">Poor</band><band name=\"12m-10m\" time=\"day\">Fair</band>".toList
        state0).solarData.propagation =
      [PropagationCondition.UNKNOWN, PropagationCondition.UNKNOWN, PropagationCondition.UNKNOWN,
        PropagationCondition.FAIR, PropagationCondition.UNKNOWN, PropagationCondition.UNKNOWN,
        PropagationCondition.UNKNOWN, PropagationCondition.POOR] :=
  ⟨rfl, by decide, rfl, rfl, rfl⟩

/-! ## Theorems: unknown tags -/

/-- An invariant of the state that every opening tag of the payload (an opening
angle bracket not followed by a slash) preserves holds after the loop. -/
theorem parseLoop_inv_open {beyond : List Char} (x : List Char) (Inv : ApplicationState → Prop)
    (hstep : ∀ (rest : List Char) (s : ApplicationState), ('<' :: rest) <:+ x →
      rest.head? ≠ some '/' → Inv s → Inv (parseTag beyond rest s).2) :
    ∀ (fuel : Nat) (p : List Char) (s : ApplicationState), p <:+ x → Inv s →
      Inv (parseLoop beyond fuel p s) := by
  intro fuel
  induction fuel with
  | zero => intro p s _ hs; cases p <;> exact hs
  | succ n ih =>
    intro p s hp hs
    cases p with
    | nil => exact hs
    | cons c rest =>
      have hrest : rest <:+ x := (List.suffix_cons c rest).trans hp
      simp only [parseLoop]
      split
      · rename_i hc
        have hp2 : ('<' :: rest) <:+ x := by rw [← hc.1]; exact hp
        exact ih _ _ ((parseTag_suffix rest s).trans hrest) (hstep rest s hp2 hc.2 hs)
      · exact ih _ _ hrest hs

/-- A tag whose name is none of the nine names that parseTag knows changes nothing. -/
theorem parseTag_unknown {beyond : List Char} (p : List Char) (s : ApplicationState)
    (h : ∀ k ∈ knownTags, readTagName p ≠ k.toList) : (parseTag beyond p s).2 = s := by
  have hs : ∀ k ∈ scalarTags, readTagName p ≠ k.toList := by
    intro k hk
    apply h k
    revert k
    decide
  unfold parseTag
  dsimp only
  rw [if_neg (h "band" (by decide)), if_neg (h "phenomenon" (by decide))]
  unfold parseSimpleTag
  dsimp only
  rw [assignContent_other _ _ _ hs]

/-- C26: for every prior state and every payload in which each opening angle
bracket that is not followed by a slash is followed by a tag name other than
band, phenomenon, solarflux, aindex, kindex, sunspots, xray, geomagfield and
signalnoise, the parse does what the reset alone does: the seven scalar fields
keep their values, the eight condition slots are UNKNOWN and the four VHF
strings are empty. -/
theorem C26_unknown_tags_skipped (beyond : List Char) (x : List Char) (s : ApplicationState)
    (h : ∀ rest : List Char, ('<' :: rest) <:+ x → rest.head? ≠ some '/' →
      ∀ k ∈ knownTags, readTagName rest ≠ k.toList) :
    parse beyond x s = resetPropagation s ∧
    scalarFields (parse beyond x s).solarData = scalarFields s.solarData ∧
    (parse beyond x s).solarData.propagation = List.replicate 8 PropagationCondition.UNKNOWN ∧
    (parse beyond x s).solarData.vhf =
      { aurora := [], eSkipEurope2m := [], eSkipEurope4m := [], eSkipEurope6m := [] } := by
  have key : parse beyond x s = resetPropagation s := by
    unfold parse
    refine parseLoop_inv_open x (fun st => st = resetPropagation s) ?_ x.length x
      (resetPropagation s) (List.suffix_refl x) rfl
    intro rest st hsuf hhead hst
    show (parseTag beyond rest st).2 = _
    rw [parseTag_unknown rest st (h rest hsuf hhead)]
    exact hst
  rw [key]
  exact ⟨rfl, rfl, rfl, rfl⟩

theorem C26_unknown_tags_skipped_witness :
    parse [] "<solar><updated>now</updated><muf>12.5</muf></band></solar>".toList
        (parse [] "<solarflux>150</solarflux>".toList state0) =
      resetPropagation (parse [] "<solarflux>150</solarflux>".toList state0) ∧
    (parse [] "<solar><updated>now</updated><muf>12.5</muf></band></solar>".toList
        (parse [] "<solarflux>150</solarflux>".toList state0)).solarData.solarFlux = 150 :=
  ⟨(C26_unknown_tags_skipped [] "<solar><updated>now</updated><muf>12.5</muf></band></solar>".toList
    (parse [] "<solarflux>150</solarflux>".toList state0) (by
      intro rest hsuf
      exact (by decide : ∀ t ∈
          ("<solar><updated>now</updated><muf>12.5</muf></band></solar>".toList).tails,
          t.head? = some '<' → (t.drop 1).head? ≠ some '/' →
            ∀ k ∈ knownTags, readTagName (t.drop 1) ≠ k.toList)
        _ ((List.mem_tails _ _).mpr hsuf) rfl)).1, by decide⟩

/-! ## Theorems: termination and direction of the scan -/

theorem parseStep_suffix {beyond : List Char} (p : List Char) (st : ApplicationState) :
    (parseStep beyond (p, st)).1 <:+ p := by
  cases p with
  | nil => exact List.suffix_refl _
  | cons c rest =>
    simp only [parseStep]
    split
    · exact (parseTag_suffix rest st).trans (List.suffix_cons c rest)
    · exact List.suffix_cons c rest

theorem parseStep_length {beyond : List Char} (p : List Char) (st : ApplicationState) (hp : p ≠ []) :
    (parseStep beyond (p, st)).1.length < p.length := by
  cases p with
  | nil => exact absurd rfl hp
  | cons c rest =>
    simp only [parseStep, List.length_cons]
    split
    · exact Nat.lt_succ_of_le (parseTag_length rest st)
    · exact Nat.lt_succ_self _

/-- The loop of parse is the iteration of parseStep: with as many iterations as
the remaining text has characters the end of the payload is reached. -/
theorem parseStep_iterate {beyond : List Char} (fuel : Nat) : ∀ (p : List Char) (st : ApplicationState),
    p.length ≤ fuel → (parseStep beyond)^[fuel] (p, st) = ([], parseLoop beyond fuel p st) := by
  induction fuel with
  | zero =>
    intro p st hp
    have : p = [] := List.length_eq_zero.mp (Nat.le_zero.mp hp)
    subst this
    rfl
  | succ n ih =>
    intro p st hp
    rw [Function.iterate_succ_apply]
    cases p with
    | nil =>
      have e : parseStep beyond ([], st) = ([], st) := rfl
      rw [e, ih [] st (Nat.zero_le _)]
      cases n <;> rfl
    | cons c rest =>
      simp only [List.length_cons, Nat.add_le_add_iff_right] at hp
      simp only [parseStep, parseLoop]
      split
      · exact ih _ _ ((parseTag_length rest st).trans hp)
      · exact ih _ _ hp

theorem parseStep_iterate_suffix {beyond : List Char} (x : List Char) (st : ApplicationState) (n : Nat) :
    ((parseStep beyond)^[n] (x, st)).1 <:+ x := by
  induction n with
  | zero => exact List.suffix_refl _
  | succ n ih =>
    rw [Function.iterate_succ_apply']
    exact (parseStep_suffix _ _).trans ih

/-- C27: the propagation parser terminates on every payload and only moves
forward. After as many iterations of the main loop as the payload has
characters the scan is at the end of the payload with the state that parse
returns, and more iterations change nothing; each iteration away from the end
strictly increases the scan position; the position returned by parseTag,
handleBandTag and handlePhenomenonTag is at or after the one given and inside
the text; the scan position never exceeds the length of the payload. -/
theorem C27_parser_forward_only (beyond : List Char) (x : List Char) (s : ApplicationState) :
    (parseStep beyond)^[x.length] (x, resetPropagation s) = ([], parse beyond x s) ∧
    (∀ fuel : Nat, x.length ≤ fuel →
      (parseStep beyond)^[fuel] (x, resetPropagation s) = ([], parse beyond x s) ∧
      parseLoop beyond fuel x (resetPropagation s) = parse beyond x s) ∧
    (∀ (p : List Char) (st : ApplicationState), p <:+ x → p ≠ [] →
      (parseStep beyond (p, st)).1 <:+ p ∧
      scanPosition x p < scanPosition x (parseStep beyond (p, st)).1 ∧
      scanPosition x (parseStep beyond (p, st)).1 ≤ x.length) ∧
    (∀ (p : List Char) (st : ApplicationState),
      ((parseTag beyond p st).1 <:+ p ∧ (parseTag beyond p st).1.length ≤ p.length) ∧
      ((handleBandTag beyond p st).1 <:+ p ∧ (handleBandTag beyond p st).1.length ≤ p.length) ∧
      ((handlePhenomenonTag beyond p st).1 <:+ p ∧ (handlePhenomenonTag beyond p st).1.length ≤ p.length)) ∧
    (∀ n : Nat, ((parseStep beyond)^[n] (x, resetPropagation s)).1 <:+ x ∧
      scanPosition x ((parseStep beyond)^[n] (x, resetPropagation s)).1 ≤ x.length) := by
  refine ⟨parseStep_iterate _ _ _ (Nat.le_refl _), ?_, ?_, ?_, ?_⟩
  · intro fuel hf
    have e : parseLoop beyond fuel x (resetPropagation s) = parse beyond x s :=
      (parseLoop_fuel fuel x.length x _ hf (Nat.le_refl _))
    exact ⟨by rw [parseStep_iterate fuel x _ hf, e], e⟩
  · intro p st hp hne
    have h1 := @parseStep_length beyond p st hne
    have h2 := hp.length_le
    refine ⟨parseStep_suffix p st, ?_, ?_⟩
    · unfold scanPosition; omega
    · unfold scanPosition; omega
  · intro p st
    exact ⟨⟨parseTag_suffix p st, (parseTag_suffix p st).length_le⟩,
      ⟨handleBandTag_suffix p st, (handleBandTag_suffix p st).length_le⟩,
      ⟨handlePhenomenonTag_suffix p st, (handlePhenomenonTag_suffix p st).length_le⟩⟩
  · intro n
    refine ⟨parseStep_iterate_suffix x _ n, ?_⟩
    unfold scanPosition; omega

/-! ## Theorems: phenomenon tag -/

theorem C28_attribute_with_bracket_counterexample :
    (parse [] (phenomenonPayload "vhf-aurora".toList "a>b".toList "Hi".toList) state0).solarData.vhf
      = { aurora := "b\">Hi".toList, eSkipEurope2m := [], eSkipEurope4m := [],
          eSkipEurope6m := [] } ∧
    (parse [] (phenomenonPayload "vhf-aurora".toList "a>b".toList "Hi".toList) state0).solarData.vhf
      ≠ vhfSelected "vhf-aurora".toList "a>b".toList "Hi".toList ∧
    (parse [] (phenomenonPayload "vhf-aurora\" x=\"".toList "y".toList "Hi".toList)
        state0).solarData.vhf
      ≠ vhfSelected "vhf-aurora\" x=\"".toList "y".toList "Hi".toList := by
  decide

/-- The value that getAttrValue reads for an attribute written as the name, an
equals sign and a value N in double quotes, when the first occurrence of the
name in the text is this one. -/
theorem getAttrValue_quoted {beyond : List Char} (P attrName N rest : List Char) (len : Nat)
    (h : strstr P attrName = some (attrName ++ '=' :: '"' :: (N ++ '"' :: rest)))
    (hN : '"' ∉ N) :
    (getAttrValue beyond P attrName [] len).2 = N.take (len - 1) := by
  have h1 : ∀ a ∈ N, (fun c => c != '"') a = true := by
    intro a ha
    have : a ≠ '"' := fun e => hN (e ▸ ha)
    simpa using this
  have hk : attrName.length + 2 ≤ (attrName ++ '=' :: '"' :: (N ++ '"' :: rest)).length := by
    simp only [List.length_append, List.length_cons]
    omega
  simp only [getAttrValue, h, if_pos hk]
  have e : (attrName ++ '=' :: '"' :: (N ++ '"' :: rest)).drop (attrName.length + 2)
      = N ++ '"' :: rest := by
    rw [List.drop_append_eq_append_drop]
    simp
  rw [e, List.takeWhile_append_of_pos h1]
  simp

theorem take_eq_short (N k : List Char) (n : Nat) (hk : k.length < n) :
    N.take n = k ↔ N = k := by
  constructor
  · intro h
    have hl : (N.take n).length = k.length := by rw [h]
    rw [List.length_take] at hl
    have : N.length ≤ n := by omega
    rw [List.take_of_length_le this] at h
    exact h
  · intro h
    rw [h, List.take_of_length_le (Nat.le_of_lt hk)]

/-- The method handlePhenomenonTag on a tag whose attribute text A holds no
closing angle bracket, followed by a content X of at most 31 characters. -/
theorem handlePhenomenonTag_eval {beyond : List Char} (A X S : List Char) (s : ApplicationState) (hA : '>' ∉ A)
    (hX : X.length ≤ 31) (hlt : '<' ∉ X) :
    (handlePhenomenonTag beyond (A ++ '>' :: (X ++ '<' :: S)) s).1 = '<' :: S ∧
    (handlePhenomenonTag beyond (A ++ '>' :: (X ++ '<' :: S)) s).2.solarData.vhf =
      storeVhf (getAttrValue beyond (A ++ '>' :: (X ++ '<' :: S)) "name".toList [] 32).2
        (getAttrValue beyond (A ++ '>' :: (X ++ '<' :: S)) "location".toList [] 32).2 X
        s.solarData.vhf := by
  unfold handlePhenomenonTag
  rw [strchr_append A _ '>' hA]
  simp only [List.drop_succ_cons, List.drop_zero]
  rw [takeWhile_take_content X S 31 hX hlt, List.drop_left]
  exact ⟨rfl, rfl⟩

/-- The parse of a payload that consists of one phenomenon tag whose attribute
text A holds no closing angle bracket. -/
theorem parse_phenomenon_payload {beyond : List Char} (A X : List Char) (s : ApplicationState) (hA : '>' ∉ ' ' :: A)
    (hX : X.length ≤ 31) (hlt : '<' ∉ X) :
    (parse beyond ('<' :: ("phenomenon".toList ++ ' ' :: (A ++ '>' ::
        (X ++ '<' :: '/' :: ("phenomenon".toList ++ ['>']))))) s).solarData.vhf =
      storeVhf
        (getAttrValue beyond (' ' :: A ++ '>' :: (X ++ '<' :: '/' :: ("phenomenon".toList ++ ['>'])))
          "name".toList [] 32).2
        (getAttrValue beyond (' ' :: A ++ '>' :: (X ++ '<' :: '/' :: ("phenomenon".toList ++ ['>'])))
          "location".toList [] 32).2 X
        { aurora := [], eSkipEurope2m := [], eSkipEurope4m := [], eSkipEurope6m := [] } := by
  rw [parse_first_tag _ s (by simp)]
  have hname : readTagName ("phenomenon".toList ++ ' ' :: (A ++ '>' ::
      (X ++ '<' :: '/' :: ("phenomenon".toList ++ ['>'])))) = "phenomenon".toList :=
    readTagName_append _ _ ' ' (Or.inl rfl) (by decide) (by decide)
  have htag : parseTag beyond ("phenomenon".toList ++ ' ' :: (A ++ '>' ::
      (X ++ '<' :: '/' :: ("phenomenon".toList ++ ['>'])))) (resetPropagation s) =
      handlePhenomenonTag beyond ((' ' :: A) ++ '>' ::
        (X ++ '<' :: '/' :: ("phenomenon".toList ++ ['>']))) (resetPropagation s) := by
    unfold parseTag
    dsimp only
    rw [hname, if_neg (by decide), if_pos rfl, List.drop_left]
    rfl
  obtain ⟨e1, e2⟩ := handlePhenomenonTag_eval (' ' :: A) X
    ('/' :: ("phenomenon".toList ++ ['>'])) (resetPropagation s) hA hX hlt
  rw [htag, e1, parseLoop_noOpenTag _ _ _ (noOpenTag_closing _ (by decide)), e2]
  rfl

theorem phenomenonPayload_eq (N L X : List Char) :
    phenomenonPayload N L X =
      '<' :: ("phenomenon".toList ++ ' ' :: (("name=\"".toList ++ N ++ "\" location=\"".toList ++
        L ++ ['"']) ++ '>' :: (X ++ '<' :: '/' :: ("phenomenon".toList ++ ['>'])))) := by
  simp [phenomenonPayload]

/-- C28 (amended): for a name N and a location L that contain neither a double
quote nor a closing angle bracket and every content X of at most 15 characters
without an opening angle bracket, parsing the payload that consists of the one
phenomenon tag stores X, untrimmed, in aurora when N is vhf-aurora (for any
such L), in eSkipEurope2m, eSkipEurope4m or eSkipEurope6m when N is E-Skip and
L is europe, europe_4m or europe_6m, and nowhere for every other N and L; the
VHF strings not selected are empty. -/
theorem C28_phenomenon_tag (beyond : List Char) (N L X : List Char) (s : ApplicationState)
    (hN : '"' ∉ N ∧ '>' ∉ N) (hL : '"' ∉ L ∧ '>' ∉ L) (hX : X.length ≤ 15) (hlt : '<' ∉ X) :
    (parse beyond (phenomenonPayload N L X) s).solarData.vhf = vhfSelected N L X := by
  have hA : '>' ∉ ' ' :: ("name=\"".toList ++ N ++ "\" location=\"".toList ++ L ++ ['"']) := by
    simp [hN.2, hL.2]
  rw [phenomenonPayload_eq, parse_phenomenon_payload _ X s hA (by omega) hlt]
  have hname : (getAttrValue beyond (' ' :: ("name=\"".toList ++ N ++ "\" location=\"".toList ++ L ++
      ['"']) ++ '>' :: (X ++ '<' :: '/' :: ("phenomenon".toList ++ ['>']))) "name".toList [] 32).2
      = N.take 31 := by
    refine getAttrValue_quoted _ _ N (" location=\"".toList ++ L ++ ['"'] ++ '>' ::
      (X ++ '<' :: '/' :: ("phenomenon".toList ++ ['>']))) 32 ?_ hN.1
    simp [strstr, List.isPrefixOf]
  rw [hname]
  have hstr : strlcpy X 16 = X := strlcpy_short X 16 (by omega)
  by_cases h1 : N = "vhf-aurora".toList
  · subst h1
    simp only [storeVhf, vhfSelected, hstr]
    rfl
  · have h1t : N.take 31 ≠ "vhf-aurora".toList :=
      fun e => h1 ((take_eq_short N _ 31 (by decide)).mp e)
    by_cases h2 : N = "E-Skip".toList
    · subst h2
      have hloc : (getAttrValue beyond (' ' :: ("name=\"".toList ++ "E-Skip".toList ++
          "\" location=\"".toList ++ L ++ ['"']) ++ '>' ::
          (X ++ '<' :: '/' :: ("phenomenon".toList ++ ['>']))) "location".toList [] 32).2
          = L.take 31 := by
        refine getAttrValue_quoted _ _ L ('>' ::
          (X ++ '<' :: '/' :: ("phenomenon".toList ++ ['>']))) 32 ?_ hL.1
        simp [strstr, List.isPrefixOf]
      rw [hloc]
      have t1 := take_eq_short L "europe".toList 31 (by decide)
      have t2 := take_eq_short L "europe_4m".toList 31 (by decide)
      have t3 := take_eq_short L "europe_6m".toList 31 (by decide)
      have e0 : List.take 31 "E-Skip".toList = "E-Skip".toList := rfl
      have hne : ¬ "E-Skip".toList = "vhf-aurora".toList := by decide
      unfold storeVhf vhfSelected
      rw [e0, if_neg hne, if_pos rfl, if_neg hne]
      simp only [t1, t2, t3, true_and, hstr]
    · have h2t : N.take 31 ≠ "E-Skip".toList :=
        fun e => h2 ((take_eq_short N _ 31 (by decide)).mp e)
      unfold storeVhf vhfSelected
      rw [if_neg h1t, if_neg h2t, if_neg h1, if_neg (fun h => h2 h.1), if_neg (fun h => h2 h.1),
        if_neg (fun h => h2 h.1)]

theorem C28_phenomenon_tag_witness :
    (parse [] (phenomenonPayload "E-Skip".toList "europe_4m".toList " high MUF ".toList)
        state0).solarData.vhf =
      { aurora := [], eSkipEurope2m := [], eSkipEurope4m := " high MUF ".toList,
        eSkipEurope6m := [] } :=
  C28_phenomenon_tag [] "E-Skip".toList "europe_4m".toList " high MUF ".toList state0
    (by decide) (by decide) (by decide) (by decide)

/-! ## Theorems: idempotence of the parse -/

theorem assignContent_settled (tagName start : List Char) (u v a b : SolarPropagationData)
    (h : scalarsSettled u v a b) :
    scalarsSettled u v (assignContent tagName start a) (assignContent tagName start b) := by
  obtain ⟨h1, h2, h3, h4, h5, h6, h7⟩ := h
  unfold assignContent
  split_ifs
  · exact ⟨Or.inl rfl, h2, h3, h4, h5, h6, h7⟩
  · exact ⟨h1, Or.inl rfl, h3, h4, h5, h6, h7⟩
  · exact ⟨h1, h2, Or.inl rfl, h4, h5, h6, h7⟩
  · exact ⟨h1, h2, h3, Or.inl rfl, h5, h6, h7⟩
  · exact ⟨h1, h2, h3, h4, Or.inl rfl, h6, h7⟩
  · exact ⟨h1, h2, h3, h4, h5, Or.inl rfl, h7⟩
  · exact ⟨h1, h2, h3, h4, h5, h6, Or.inl rfl⟩
  · exact ⟨h1, h2, h3, h4, h5, h6, h7⟩

theorem storeBand_settled (name time : List Char) (c : PropagationCondition)
    (u v : SolarPropagationData) (a b : ApplicationState)
    (h : scalarsSettled u v a.solarData b.solarData) :
    scalarsSettled u v (storeBand name time c a).solarData (storeBand name time c b).solarData := by
  unfold storeBand
  split_ifs <;> exact h

theorem parseTag_settled {beyond : List Char} (p : List Char) (u v : SolarPropagationData) (a b : ApplicationState)
    (h : scalarsSettled u v a.solarData b.solarData) :
    scalarsSettled u v (parseTag beyond p a).2.solarData (parseTag beyond p b).2.solarData := by
  unfold parseTag
  dsimp only
  split
  · unfold handleBandTag
    cases strchr _ '>' with
    | none => exact h
    | some e => exact storeBand_settled _ _ _ u v a b h
  · split
    · unfold handlePhenomenonTag
      cases strchr _ '>' with
      | none => exact h
      | some e => exact h
    · unfold parseSimpleTag
      exact assignContent_settled _ _ u v _ _ h

/-- Two runs of the loop of parse on the same text keep the relation. -/
theorem parseLoop_settled {beyond : List Char} (u v : SolarPropagationData) (fuel : Nat) :
    ∀ (p : List Char) (a b : ApplicationState), sameConditions a b →
      scalarsSettled u v a.solarData b.solarData →
      sameConditions (parseLoop beyond fuel p a) (parseLoop beyond fuel p b) ∧
      scalarsSettled u v (parseLoop beyond fuel p a).solarData (parseLoop beyond fuel p b).solarData := by
  induction fuel with
  | zero => intro p a b h1 h2; cases p <;> exact ⟨h1, h2⟩
  | succ n ih =>
    intro p a b h1 h2
    cases p with
    | nil => exact ⟨h1, h2⟩
    | cons c rest =>
      simp only [parseLoop]
      split
      · rw [(parseTag_same rest a b h1).1]
        exact ih _ _ _ (parseTag_same rest a b h1).2 (parseTag_settled rest u v a b h2)
      · exact ih _ _ _ h1 h2

/-- With the same memory after the payload in both parses, a second parse of
the payload reproduces the snapshot of the first. -/
theorem parse_twice_same_memory (beyond x : List Char) (s : ApplicationState) :
    (parse beyond x (parse beyond x s)).solarData = (parse beyond x s).solarData := by
  have h := @parseLoop_settled beyond s.solarData (parse beyond x s).solarData x.length x
    (resetPropagation s) (resetPropagation (parse beyond x s)) ⟨rfl, rfl⟩
    ⟨Or.inr ⟨rfl, rfl⟩, Or.inr ⟨rfl, rfl⟩, Or.inr ⟨rfl, rfl⟩, Or.inr ⟨rfl, rfl⟩,
      Or.inr ⟨rfl, rfl⟩, Or.inr ⟨rfl, rfl⟩, Or.inr ⟨rfl, rfl⟩⟩
  obtain ⟨⟨c1, c2⟩, k1, k2, k3, k4, k5, k6, k7⟩ := h
  have e1 : parseLoop beyond x.length x (resetPropagation s) = parse beyond x s := rfl
  have e2 : parseLoop beyond x.length x (resetPropagation (parse beyond x s)) = parse beyond x (parse beyond x s) := rfl
  rw [e1, e2] at c1 c2 k1 k2 k3 k4 k5 k6 k7
  have f1 : (parse beyond x (parse beyond x s)).solarData.solarFlux = (parse beyond x s).solarData.solarFlux := by
    rcases k1 with e | ⟨_, e⟩
    · exact e.symm
    · exact e
  have f2 : (parse beyond x (parse beyond x s)).solarData.aIndex = (parse beyond x s).solarData.aIndex := by
    rcases k2 with e | ⟨_, e⟩
    · exact e.symm
    · exact e
  have f3 : (parse beyond x (parse beyond x s)).solarData.kIndex = (parse beyond x s).solarData.kIndex := by
    rcases k3 with e | ⟨_, e⟩
    · exact e.symm
    · exact e
  have f4 : (parse beyond x (parse beyond x s)).solarData.sunspots = (parse beyond x s).solarData.sunspots := by
    rcases k4 with e | ⟨_, e⟩
    · exact e.symm
    · exact e
  have f5 : (parse beyond x (parse beyond x s)).solarData.xray = (parse beyond x s).solarData.xray := by
    rcases k5 with e | ⟨_, e⟩
    · exact e.symm
    · exact e
  have f6 : (parse beyond x (parse beyond x s)).solarData.geomagneticField =
      (parse beyond x s).solarData.geomagneticField := by
    rcases k6 with e | ⟨_, e⟩
    · exact e.symm
    · exact e
  have f7 : (parse beyond x (parse beyond x s)).solarData.signalNoiseLevel =
      (parse beyond x s).solarData.signalNoiseLevel := by
    rcases k7 with e | ⟨_, e⟩
    · exact e.symm
    · exact e
  generalize (parse beyond x (parse beyond x s)).solarData = A at *
  generalize (parse beyond x s).solarData = B at *
  cases A
  cases B
  simp only at c1 c2 f1 f2 f3 f4 f5 f6 f7
  simp only [SolarPropagationData.mk.injEq]
  exact ⟨f1, f2, f3, f5, f6, f7, f4, c1.symm, c2.symm⟩

/-- C29 (fails on the code): parsing is not idempotent for every payload. On
the payload that ends with the text name after a band tag with a time but no
name, getAttrValue reads the name from the memory after the terminator: a
first parse with the text 80m-40m at the second byte of that memory stores
GOOD in slot 0, and a second parse of the same payload on the resulting state
with zero bytes there leaves slot 0 UNKNOWN, so the snapshots differ. What
does hold: when the memory after the payload is the same in both parses, the
second parse yields the same snapshot (scalar fields, condition array and VHF
strings) as the first, for every payload and every prior state. -/
theorem C29_second_parse_differs :
    "<band time=\"day\">Good</band>name".toList.length = 32 ∧
    getAttrValueFirstRead 32 " time=\"day\">Good</band>name".toList "name".toList = some 34 ∧
    (parse "?80m-40m".toList "<band time=\"day\">Good</band>name".toList
        state0).solarData.propagation
      = [PropagationCondition.GOOD, PropagationCondition.UNKNOWN, PropagationCondition.UNKNOWN,
         PropagationCondition.UNKNOWN, PropagationCondition.UNKNOWN, PropagationCondition.UNKNOWN,
         PropagationCondition.UNKNOWN, PropagationCondition.UNKNOWN] ∧
    (parse [] "<band time=\"day\">Good</band>name".toList
        (parse "?80m-40m".toList "<band time=\"day\">Good</band>name".toList
          state0)).solarData.propagation
      = List.replicate 8 PropagationCondition.UNKNOWN ∧
    (parse [] "<band time=\"day\">Good</band>name".toList
        (parse "?80m-40m".toList "<band time=\"day\">Good</band>name".toList
          state0)).solarData
      ≠ (parse "?80m-40m".toList "<band time=\"day\">Good</band>name".toList
          state0).solarData ∧
    (∀ (beyond x : List Char) (s : ApplicationState),
      (parse beyond x (parse beyond x s)).solarData = (parse beyond x s).solarData) :=
  ⟨by decide, by decide, by decide, by decide, by decide, parse_twice_same_memory⟩

/-! ## Theorems: settings round trip -/

theorem ClockDisplayMode_ofInt_toInt (m : ClockDisplayMode) :
    ClockDisplayMode.ofInt m.toInt = some m := by
  cases m <;> rfl

theorem PropagationViewMode_ofInt_toInt (m : PropagationViewMode) :
    PropagationViewMode.ofInt m.toInt = some m := by
  cases m <;> rfl

theorem SpotsViewMode_ofInt_toInt (m : SpotsViewMode) :
    SpotsViewMode.ofInt m.toInt = some m := by
  cases m <;> rfl

theorem ActiveScreen_ofInt_toInt (m : ActiveScreen) :
    ActiveScreen.ofInt m.toInt = some m := by
  cases m <;> rfl

theorem loadDisplay_saveSettings (s : ApplicationState) (prefs : Preferences) :
    loadDisplay (saveSettings s prefs) = some s.display := by
  have e1 : getInt (saveSettings s prefs) "clockMode" ClockDisplayMode.MODE_UTC.toInt =
      s.display.currentClockMode.toInt := rfl
  have e2 : getInt (saveSettings s prefs) "propViewMode"
      PropagationViewMode.VIEW_EXTENDED.toInt = s.display.currentPropViewMode.toInt := rfl
  have e3 : getInt (saveSettings s prefs) "spotsViewMode"
      SpotsViewMode.SPOTS_WITH_PROP.toInt = s.display.spotsViewMode.toInt := rfl
  have e4 : getInt (saveSettings s prefs) "startupScreen" ActiveScreen.SCREEN_SPOTS.toInt =
      s.display.startupScreen.toInt := rfl
  unfold loadDisplay
  rw [e1, e2, e3, e4, ClockDisplayMode_ofInt_toInt, PropagationViewMode_ofInt_toInt,
    SpotsViewMode_ofInt_toInt, ActiveScreen_ofInt_toInt]
  rfl

/-- C30: settings round trip, with the preferences store as a typed key-value
map. For every state s whose telnet user name and password have at most 31
characters and whose time zone and custom DST rule have at most 63, every
prior content of the store and every state t that is loaded into, loadSettings
after saveSettings(s) succeeds and gives each persisted field its value in s:
clock mode, brightness, propagation and spots view modes, inversion, second
dot, rotation, remember-screen, startup screen, volume step, tone frequency and
duration, telnet user and password, time zone, DST mode, custom DST rule,
sleep timeout, schedule flag, sleep and wake hour, update-check flag and last
update-check time. -/
theorem C30_settings_round_trip (s t : ApplicationState) (prefs : Preferences)
    (h1 : s.network.telnetUsername.length ≤ 31) (h2 : s.network.telnetPassword.length ≤ 31)
    (h3 : s.network.timezone.length ≤ 63) (h4 : s.network.customDstRule.length ≤ 63) :
    ∃ r : ApplicationState, loadSettings (saveSettings s prefs) t = some r ∧
      r.display.currentClockMode = s.display.currentClockMode ∧
      r.display.brightnessPercent = s.display.brightnessPercent ∧
      r.display.currentPropViewMode = s.display.currentPropViewMode ∧
      r.display.spotsViewMode = s.display.spotsViewMode ∧
      r.display.colorInversion = s.display.colorInversion ∧
      r.display.secondDotEnabled = s.display.secondDotEnabled ∧
      r.display.screenRotation = s.display.screenRotation ∧
      r.display.rememberLastScreen = s.display.rememberLastScreen ∧
      r.display.startupScreen = s.display.startupScreen ∧
      r.audio.volumeStep = s.audio.volumeStep ∧
      r.audio.toneFrequency = s.audio.toneFrequency ∧
      r.audio.toneDurationMs = s.audio.toneDurationMs ∧
      r.network.telnetUsername = s.network.telnetUsername ∧
      r.network.telnetPassword = s.network.telnetPassword ∧
      r.network.timezone = s.network.timezone ∧
      r.network.dstMode = s.network.dstMode ∧
      r.network.customDstRule = s.network.customDstRule ∧
      r.power.sleepTimeoutMinutes = s.power.sleepTimeoutMinutes ∧
      r.power.scheduledSleepEnabled = s.power.scheduledSleepEnabled ∧
      r.power.scheduledSleepHour = s.power.scheduledSleepHour ∧
      r.power.scheduledWakeHour = s.power.scheduledWakeHour ∧
      r.checkForUpdates = s.checkForUpdates ∧
      r.lastUpdateCheckTime = s.lastUpdateCheckTime := by
  have u1 : strlcpy s.network.telnetUsername 32 = s.network.telnetUsername :=
    strlcpy_short _ 32 (by omega)
  have u2 : strlcpy s.network.telnetPassword 32 = s.network.telnetPassword :=
    strlcpy_short _ 32 (by omega)
  have u3 : strlcpy s.network.timezone 64 = s.network.timezone :=
    strlcpy_short _ 64 (by omega)
  have u4 : strlcpy s.network.customDstRule 64 = s.network.customDstRule :=
    strlcpy_short _ 64 (by omega)
  unfold loadSettings
  rw [loadDisplay_saveSettings]
  exact ⟨_, rfl, rfl, rfl, rfl, rfl, rfl, rfl, rfl, rfl, rfl, rfl, rfl, rfl, u1, u2, u3, rfl,
    u4, rfl, rfl, rfl, rfl, rfl, rfl⟩

theorem C30_settings_round_trip_witness :
    ∃ r : ApplicationState,
      loadSettings (saveSettings
        { state0 with
          display := { brightnessPercent := 35, currentClockMode := ClockDisplayMode.MODE_BOTH,
                       startupScreen := ActiveScreen.SCREEN_CLOCK }
          network := { telnetUsername := "SP7ABC".toList, timezone := "UTC0".toList }
          lastUpdateCheckTime := 1700000000 }
        [("brightness", PrefValue.string "low".toList), ("clockMode", PrefValue.int 7)])
        state0 = some r ∧
      r.display.currentClockMode = ClockDisplayMode.MODE_BOTH ∧
      r.display.brightnessPercent = 35 ∧
      r.display.startupScreen = ActiveScreen.SCREEN_CLOCK ∧
      r.network.telnetUsername = "SP7ABC".toList ∧
      r.lastUpdateCheckTime = 1700000000 := by
  obtain ⟨r, h, c1, c2, _, _, _, _, _, _, c9, _, _, _, c13, _, _, _, _, _, _, _, _, _, c23⟩ :=
    C30_settings_round_trip
      { state0 with
        display := { brightnessPercent := 35, currentClockMode := ClockDisplayMode.MODE_BOTH,
                     startupScreen := ActiveScreen.SCREEN_CLOCK }
        network := { telnetUsername := "SP7ABC".toList, timezone := "UTC0".toList }
        lastUpdateCheckTime := 1700000000 }
      state0 [("brightness", PrefValue.string "low".toList), ("clockMode", PrefValue.int 7)]
      (by decide) (by decide) (by decide) (by decide)
  exact ⟨r, h, c1, c2, c9, c13, c23⟩

end HamCombo
